import Mathlib

/-!
OpenTomb renderer: the visibility walk over the room/portal graph.

A shallow embedding of `src/render/render.cpp` (class `CRender`) and a verification of
the properties its specification states about the Render List.

Conventions of the embedding

* A `room_s *` is the index of the room; `world_s.rooms` resolves it.  The fields of a
  room that the renderer rewrites every frame (`is_in_r_list`, `frustum`,
  `active_frustums`, `max_path`, the `was_rendered` flags of what the room holds) live
  in the renderer state `CRender`, indexed by room; the fields it only reads
  (`active`, `flags`, `portals`, ...) live in `room_s`.
* `r_list` is the malloc-ed array, a function from index to entry.  The Render List of
  the spec is the slice `r_list[0 .. r_list_active_count)`, see `listedRooms`.
* `float` values (`dist`, positions, boxes) are never computed with: they come from
  the collaborators in `Collab` and are only stored.
* The recursion of `ProcessRoom` need not terminate, so it runs on fuel: `none` means
  the fuel ran out, that is, the C recursion was still going on at that depth.
* `CRender.trace` is a ghost field: the calls made during the current frame, in call
  order.  No function of the renderer reads it.
-/

namespace Render

/-! ## Data model -/

/-- A portal: `current_room` is the room holding it, `dest_room` the room behind it.
`vertex` stands for its polygon (vertex ring and normal), which only the clipper reads. -/
structure portal_s where
  vertex : Nat := 0
  dest_room : Nat
  current_room : Nat
deriving DecidableEq, Repr

/-- A frustum of the frame: the camera's own one (`cam->frustum`), or the one generated
by clipping a portal against a parent frustum (`frustum_s::parent`).  The fields
`parents_count` and `next` of the C struct are not modelled: the chain of a room is the
list `CRender.frustum`. -/
inductive frustum_s where
  | camera : frustum_s
  | clipped (portal : portal_s) (parent : frustum_s) : frustum_s
deriving DecidableEq, Repr

/-- Number of portal clips that lead from the camera's frustum to this one. -/
def frustum_s.depth : frustum_s → Nat
  | .camera => 0
  | .clipped _ parent => parent.depth + 1

/-- An item of a room's container list: `object` is the entity when `object_type` is
`OBJECT_ENTITY`. -/
structure engine_container_s where
  object_type : Nat
  object : Nat
deriving DecidableEq, Repr

/-- A mesh: `transparency_polygons` is the head of its list of transparent polygons, `none`
for NULL. -/
structure base_mesh_s where
  transparency_polygons : Option Nat := none
deriving DecidableEq, Repr

/-- A static mesh of a room; `obb` stands for its oriented bounding box. -/
structure static_mesh_s where
  mesh : base_mesh_s := {}
  obb : Nat := 0
  hide : Nat := 0
deriving DecidableEq, Repr

/-- A bone of an entity's bone frame. -/
structure ss_bone_tag_s where
  mesh_base : base_mesh_s := {}
deriving DecidableEq, Repr

/-- The part of `entity_s` the renderer only reads: `transparency_flags` is
`bf->animations.model->transparency_flags`, `bone_tags` is `bf->bone_tags` (its length is
`bf->bone_tag_count`), `obb` stands for the entity's oriented bounding box, `hide` is
`bf->animations.model->hide` and `animations` tells whether `bf->animations.model` and its
`animations` are not NULL. -/
structure entity_s where
  state_flags : Nat := 0
  transparency_flags : Nat := 0
  obb : Nat := 0
  bone_tags : List ss_bone_tag_s := []
  hide : Nat := 0
  animations : Bool := true
deriving DecidableEq, Repr

/-- The part of `room_s` the renderer only reads.  `static_mesh` is the array of which
`static_mesh_count` entries are used; `mesh` is `none` for NULL. -/
structure room_s where
  active : Bool := true
  flags : Nat := 0
  portals : List portal_s := []
  static_mesh_count : Nat := 0
  sprites_count : Nat := 0
  containers : List engine_container_s := []
  mesh : Option base_mesh_s := none
  static_mesh : List static_mesh_s := []
deriving DecidableEq, Repr

/-- The world: `rooms i` is `world->rooms[i]`; the rooms of the world are those with
`i < room_count`.  `Character` is the player's entity, if any.  An `entity_s *` is the
index of the entity, resolved by `entities`; `textures` is the array of texture names. -/
structure world_s where
  room_count : Nat
  rooms : Nat → room_s
  Character : Option Nat := none
  entities : Nat → entity_s := fun _ => {}
  textures : Nat → Nat := fun _ => 0

/-- The camera; `pos` stands for its position. -/
structure camera_s where
  pos : Int × Int × Int := (0, 0, 0)
  current_room : Option Nat := none
deriving DecidableEq, Repr

/-- One entry of the Render List array. -/
structure render_list_s where
  room : Option Nat := none
  active : Nat := 0
  dist : Int := 0
deriving DecidableEq, Repr

/-- A polygon of the dynamic BSP tree; `indexes` stands for its index array. -/
structure bsp_polygon_s where
  transparency : Nat := 0
  tex_index : Nat := 0
  vertex_count : Nat := 3
  indexes : Nat := 0
deriving DecidableEq, Repr

/-- A `bsp_node_s *`: `null` is NULL; a node has its plane (an opaque stand-in), the
children `front` and `back`, and the polygon lists `polygons_front` and `polygons_back`
(linked through `next`). -/
inductive bsp_node_s where
  | null : bsp_node_s
  | node (plane : Nat) (front back : bsp_node_s)
      (polygons_front polygons_back : List bsp_polygon_s) : bsp_node_s
deriving DecidableEq, Repr

/-- The blend factors passed to `glBlendFunc`. -/
inductive gl_factor where
  | GL_ZERO : gl_factor
  | GL_ONE : gl_factor
  | GL_ONE_MINUS_SRC_COLOR : gl_factor
deriving DecidableEq, Repr

/-- The OpenGL calls of the transparent pass that are modelled; `glDrawElements n i` is
`glDrawElements(GL_TRIANGLE_FAN, n, GL_UNSIGNED_INT, i)` and `glBindTexture t` is
`glBindTexture(GL_TEXTURE_2D, t)`. -/
inductive gl_call where
  | glBlendFunc (sfactor dfactor : gl_factor) : gl_call
  | glBindTexture (texture : Nat) : gl_call
  | glDrawElements (count indices : Nat) : gl_call
deriving DecidableEq, Repr

/-- What a call of `CDynamicBSP::AddNewPolygonList` inserts: the transparent polygons of the
mesh of a room, of a static mesh of a room, or of a bone of an entity. -/
inductive poly_source where
  | room_mesh (room : Nat) : poly_source
  | static_mesh (room j : Nat) : poly_source
  | bone (entity j : Nat) : poly_source
deriving DecidableEq, Repr

/-- Ghost record of a draw: `DrawMesh` of the mesh of a room (line 977) or of a static
mesh of a room (line 1007), `DrawSkeletalModel` of the bone frame of an entity
(line 870). -/
inductive draw_event where
  | room_mesh (room : Nat) : draw_event
  | static_mesh (room i : Nat) : draw_event
  | skeletal (entity : Nat) : draw_event
deriving DecidableEq, Repr

/-- Ghost record of a call made during the frame. -/
inductive Event where
  | clip (portal : portal_s) (emitter : frustum_s) (result : Bool) : Event
  | add (room : Nat) : Event
  | process (portal : portal_s) (frus : frustum_s) : Event
deriving DecidableEq, Repr

/-- State of the renderer together with the per-frame fields of the rooms, static
meshes, sprites and entities it writes.  `gl` is the sequence of OpenGL calls issued,
`bsp_lists` the sequence of calls of `dynamicBSP->AddNewPolygonList`, and `bsp_drawn` is
ghost: the polygons `DrawBSPPolygon` was called with, in call order.  `draws` is ghost: the
draws of `DrawRoom` and `DrawEntity`, in call order. -/
structure CRender where
  r_flags : Nat := 0
  r_list : Nat → render_list_s := fun _ => {}
  r_list_size : Nat := 0
  r_list_active_count : Nat := 0
  m_world : Option world_s := none
  m_camera : Option camera_s := none
  is_in_r_list : Nat → Bool := fun _ => false
  frustum : Nat → List frustum_s := fun _ => []
  active_frustums : Nat → Nat := fun _ => 0
  max_path : Nat → Nat := fun _ => 0
  mesh_was_rendered : Nat → Nat → Bool := fun _ _ => false
  mesh_was_rendered_lines : Nat → Nat → Bool := fun _ _ => false
  sprite_was_rendered : Nat → Nat → Bool := fun _ _ => false
  entity_was_rendered : Nat → Bool := fun _ => false
  entity_was_rendered_lines : Nat → Bool := fun _ => false
  trace : List Event := []
  m_active_transparency : Nat := 0
  m_active_texture : Nat := 0
  gl : List gl_call := []
  bsp_drawn : List bsp_polygon_s := []
  bsp_lists : List poly_source := []
  draws : List draw_event := []

/-- What the renderer takes from files of the repository that are not among the sources
(frustum.cpp, world.cpp, vmath.h, render.h, engine.h).  They are parameters: nothing is
assumed about them.

* `Room_FindPosCogerrence cam` is the room found for `(cam->pos, cam->current_room)`.
* `clip s portal emitter` tells whether `PortalFrustumIntersect(portal, emitter, cam)`
  returns a frustum when called in state `s`.
* `Frustum_IsAABBVisible room cam` is the test of the room's box against `cam->frustum`.
* `vec3_dist cam room` is the distance from `cam->pos` to the centre of the room's box.
* the last three are the values of the macros of the same name. -/
structure Collab where
  Room_FindPosCogerrence : camera_s → Option Nat
  clip : CRender → portal_s → frustum_s → Bool
  Frustum_IsAABBVisible : Nat → camera_s → Bool
  vec3_dist : camera_s → Nat → Int
  R_DRAW_SKYBOX : Nat
  TR_ROOM_FLAG_SKYBOX : Nat
  OBJECT_ENTITY : Nat

/-- The rooms of the Render List, `r_list[0 .. r_list_active_count)`, in list order. -/
def listedRooms (s : CRender) : List (Option Nat) :=
  (List.range s.r_list_active_count).map (fun i => (s.r_list i).room)

/-- Ghost: append a call to the trace of the frame. -/
def CRender.log (e : Event) (s : CRender) : CRender :=
  { s with trace := s.trace ++ [e] }

/-! ## Operations -/

/-- One round of the loop of `CRender::CleanList` (lines 475-485): clear entry `i` and
the per-frame fields of the room it holds.  An entry below `r_list_active_count` always
holds a room (see `ListOK`); for an entry without one, where the C code would dereference
NULL, only the entry is cleared. -/
def CleanList_step (s : CRender) (i : Nat) : CRender :=
  let r := (s.r_list i).room
  { s with
    r_list := fun j => if j = i then { room := none, active := 0, dist := 0 } else s.r_list j
    is_in_r_list := fun x => if some x = r then false else s.is_in_r_list x
    active_frustums := fun x => if some x = r then 0 else s.active_frustums x
    frustum := fun x => if some x = r then [] else s.frustum x }

/-- The head of `CRender::CleanList` (lines 469-473): reset the flags of the world's
Character. -/
def CleanList_character (s : CRender) : CRender :=
  match s.m_world with
  | some w =>
    match w.Character with
    | some c =>
      { s with
        entity_was_rendered := fun e => if e = c then false else s.entity_was_rendered e
        entity_was_rendered_lines :=
          fun e => if e = c then false else s.entity_was_rendered_lines e }
    | none => s
  | none => s

/-- The function `CRender::CleanList` (lines 467-489).  `r_flags &= ~R_DRAW_SKYBOX` is
written width-free as `r_flags & (r_flags ^ R_DRAW_SKYBOX)`. -/
def CleanList (k : Collab) (s : CRender) : CRender :=
  let s1 := CleanList_character s
  let s2 := (List.range s1.r_list_active_count).foldl CleanList_step s1
  { s2 with
    r_flags := s2.r_flags &&& (s2.r_flags ^^^ k.R_DRAW_SKYBOX)
    r_list_active_count := 0 }

/-- The function `CRender::SetWorld` (lines 124-154); `none` is the NULL world.
`list_size` is declared `uint32_t` (line 131), so the sum is taken modulo `2 ^ 32`; the
type of `room_count` is declared in world.h, which is not among the sources, and
`room_count` is a natural number here. -/
def SetWorld (k : Collab) (world : Option world_s) (s : CRender) : CRender :=
  let s1 := CleanList k s
  let s2 : CRender := { s1 with m_world := none, r_flags := 0 }
  match world with
  | none => s2
  | some w =>
    let list_size := (w.room_count + 128) % 2 ^ 32
    { s2 with
      r_list := fun i =>
        if i < list_size then { room := none, active := 0, dist := 0 } else s2.r_list i
      m_world := some w
      r_list_size := list_size
      r_list_active_count := 0
      is_in_r_list := fun x => if x < w.room_count then false else s2.is_in_r_list x }

/-- The function `CRender::AddRoom` (lines 1094-1149), for the room `room` of `w` and with
`m_camera = cam`.  Returns `ret` and the new state. -/
def AddRoom (k : Collab) (w : world_s) (cam : camera_s) (room : Nat) (s0 : CRender) :
    Nat × CRender :=
  let s := s0.log (Event.add room)
  let r := w.rooms room
  if s.is_in_r_list room || !r.active then (0, s)
  else
    let dist := k.vec3_dist cam room
    let p : Nat × CRender :=
      if s.r_list_active_count < s.r_list_size then
        (1, { s with
              r_list := fun j =>
                if j = s.r_list_active_count then { room := some room, active := 1, dist := dist }
                else s.r_list j
              r_list_active_count := s.r_list_active_count + 1
              r_flags :=
                if r.flags &&& k.TR_ROOM_FLAG_SKYBOX ≠ 0 then s.r_flags ||| k.R_DRAW_SKYBOX
                else s.r_flags })
      else (0, s)
    let s1 := p.2
    (p.1, { s1 with
            mesh_was_rendered := fun x i =>
              if x = room ∧ i < r.static_mesh_count then false else s1.mesh_was_rendered x i
            mesh_was_rendered_lines := fun x i =>
              if x = room ∧ i < r.static_mesh_count then false
              else s1.mesh_was_rendered_lines x i
            entity_was_rendered := fun e =>
              if (engine_container_s.mk k.OBJECT_ENTITY e) ∈ r.containers then false
              else s1.entity_was_rendered e
            entity_was_rendered_lines := fun e =>
              if (engine_container_s.mk k.OBJECT_ENTITY e) ∈ r.containers then false
              else s1.entity_was_rendered_lines e
            sprite_was_rendered := fun x i =>
              if x = room ∧ i < r.sprites_count then false else s1.sprite_was_rendered x i
            is_in_r_list := fun x => if x = room then true else s1.is_in_r_list x })

/-- Modelled from the spec: `CFrustumManager::PortalFrustumIntersect` is defined in
frustum.cpp, which is not among the sources.  Whether the clip leaves a polygon is the
parameter `Collab.clip`.  On null nothing is changed ("no partial state mutated"); on
success the new frustum, child of `emitter`, is appended to the destination room's
incoming-frustum chain and that room's `active_frustums` goes up by one. -/
def PortalFrustumIntersect (k : Collab) (portal : portal_s) (emitter : frustum_s)
    (s : CRender) : Option frustum_s × CRender :=
  if k.clip s portal emitter then
    let f := frustum_s.clipped portal emitter
    (some f,
     { s.log (Event.clip portal emitter true) with
       frustum := fun x => if x = portal.dest_room then s.frustum x ++ [f] else s.frustum x
       active_frustums := fun x =>
         if x = portal.dest_room then s.active_frustums x + 1 else s.active_frustums x })
  else (none, s.log (Event.clip portal emitter false))

/-- The portal step shared by `CRender::GenWorldList` (lines 249-255) and
`CRender::ProcessRoom` (lines 1173-1179): clip portal `p` against `frus`; when a frustum
comes back, `AddRoom(p->dest_room)` and then `ProcessRoom(p, gen_frus)`, here `run`.
Returns whether a frustum came back. -/
def visit (k : Collab) (w : world_s) (cam : camera_s)
    (run : portal_s → frustum_s → CRender → Option (Nat × CRender))
    (p : portal_s) (frus : frustum_s) (s : CRender) : Option (Bool × CRender) :=
  match PortalFrustumIntersect k p frus s with
  | (some gen_frus, s1) =>
    match run p gen_frus (AddRoom k w cam p.dest_room s1).2 with
    | some (_, s2) => some (true, s2)
    | none => none
  | (none, s1) => some (false, s1)

/-- One round of the loop of `CRender::ProcessRoom` (lines 1168-1181); `acc.1` is `ret`. -/
def ProcessRoom_round (k : Collab) (w : world_s) (cam : camera_s)
    (run : portal_s → frustum_s → CRender → Option (Nat × CRender))
    (src_room : Nat) (frus : frustum_s) (acc : Nat × CRender) (p : portal_s) :
    Option (Nat × CRender) :=
  if (w.rooms p.dest_room).active && p.dest_room != src_room then
    match visit k w cam run p frus acc.2 with
    | some (true, s) => some (acc.1 + 1, s)
    | some (false, s) => some (acc.1, s)
    | none => none
  else some acc

/-- The function `CRender::ProcessRoom` (lines 1157-1183) with `m_camera = cam`, on fuel.
Room pointers are indices, so the two NULL tests of line 1163 are always false. -/
def ProcessRoom (k : Collab) (w : world_s) (cam : camera_s) :
    Nat → portal_s → frustum_s → CRender → Option (Nat × CRender)
  | 0, _, _, _ => none
  | fuel + 1, portal, frus, s0 =>
    let s := s0.log (Event.process portal frus)
    let room := portal.dest_room
    let src_room := portal.current_room
    if !(w.rooms src_room).active || !(w.rooms room).active then some (0, s)
    else
      (w.rooms room).portals.foldlM
        (ProcessRoom_round k w cam (ProcessRoom k w cam fuel) src_room frus) (0, s)

/-- One round of the portal loop of `CRender::GenWorldList` (lines 247-256).  The write
`last_frus->parents_count = 1` of line 253 is to a field that is not modelled. -/
def GenWorldList_round (k : Collab) (w : world_s) (cam : camera_s) (fuel : Nat)
    (s : CRender) (p : portal_s) : Option CRender :=
  match visit k w cam (ProcessRoom k w cam fuel) p frustum_s.camera s with
  | some (_, s1) => some s1
  | none => none

/-- The state in which `CRender::GenWorldList` looks for the camera's room: the list
cleaned (line 232), `m_camera` set (lines 236, 240).  `dynamicBSP->Reset`,
`frustumManager->Reset` and `cam->frustum->next = NULL` (lines 233-235) touch nothing that
is modelled; the trace of the frame starts here. -/
def GenWorldList_begin (k : Collab) (cam : camera_s) (s0 : CRender) : CRender :=
  { CleanList k s0 with
    trace := []
    m_camera := some { cam with current_room := k.Room_FindPosCogerrence cam } }

/-- The state of `CRender::GenWorldList` in front of its portal loop (lines 243-245): the
camera's room `c` has its chain emptied and is added to the list. -/
def GenWorldList_first (k : Collab) (w : world_s) (cam : camera_s) (c : Nat)
    (s0 : CRender) : CRender :=
  let s2 := GenWorldList_begin k cam s0
  (AddRoom k w cam c
    { s2 with
      frustum := fun x => if x = c then [] else s2.frustum x
      max_path := fun x => if x = c then 0 else s2.max_path x }).2

/-- One round of the full-scan loop of `CRender::GenWorldList` (lines 261-267). -/
def GenWorldList_scan (k : Collab) (w : world_s) (cam : camera_s) (s : CRender) (i : Nat) :
    CRender :=
  if k.Frustum_IsAABBVisible i cam then (AddRoom k w cam i s).2 else s

/-- The function `CRender::GenWorldList` (lines 225-269), on fuel for `ProcessRoom`. -/
def GenWorldList (k : Collab) (cam : camera_s) (fuel : Nat) (s0 : CRender) : Option CRender :=
  match s0.m_world with
  | none => some s0
  | some w =>
    match k.Room_FindPosCogerrence cam with
    | some c =>
      (w.rooms c).portals.foldlM (GenWorldList_round k w cam fuel)
        (GenWorldList_first k w cam c s0)
    | none =>
      some ((List.range w.room_count).foldl (GenWorldList_scan k w cam)
        (GenWorldList_begin k cam s0))

/-- Whether `AddRoom` stores the room: it passes the guard of line 1100 and the capacity
test of line 1110. -/
def AddRoom_pushes (w : world_s) (room : Nat) (s : CRender) : Bool :=
  !s.is_in_r_list room && (w.rooms room).active && decide (s.r_list_active_count < s.r_list_size)

/-- What is known about a clip of portal `p` against `e` made during the walk: `p` is a
portal of some room, and when `e` is a generated frustum the clip is made in the loop of
`ProcessRoom`, past the test of line 1171, so that the destination of `p` is active. -/
def StepInfo (w : world_s) (p : portal_s) (e : frustum_s) : Prop :=
  (0 < e.depth → (w.rooms p.dest_room).active = true) ∧ ∃ x, p ∈ (w.rooms x).portals

/-- The state in which `ProcessRoom(p, gen_frus)` is called after a successful clip of `p`
against `e`: the frustum is registered and `AddRoom(p->dest_room)` is done. -/
def enter (k : Collab) (w : world_s) (cam : camera_s) (p : portal_s) (e : frustum_s)
    (s : CRender) : CRender :=
  (AddRoom k w cam p.dest_room (PortalFrustumIntersect k p e s).2).2

/-- Invariant of the Render List during a frame: no room is listed twice, every entry
below `r_list_active_count` holds a room, and every listed room is flagged. -/
def ListOK (s : CRender) : Prop :=
  (listedRooms s).Nodup ∧ none ∉ listedRooms s ∧
    ∀ r, some r ∈ listedRooms s → s.is_in_r_list r = true

/-- No room carries data of an earlier frame without being in the Render List: a room that
is flagged `is_in_r_list`, and an active room that has a frustum in its chain, is listed.
`CleanList` resets exactly the listed rooms, so this is what makes the next frame start
clean.  (The chain of a room that is not active is left aside: a clip into such a room
from the camera's room registers a frustum and `AddRoom` does not list the room.) -/
def Tidy (w : world_s) (s : CRender) : Prop :=
  (∀ r, s.is_in_r_list r = true → some r ∈ listedRooms s) ∧
    ∀ r, (w.rooms r).active = true → s.frustum r ≠ [] → some r ∈ listedRooms s

/-- The frustums registered by the successful clips of a trace into room `c`, in order. -/
def clipsInto (c : Nat) (t : List Event) : List frustum_s :=
  t.filterMap fun ev =>
    match ev with
    | Event.clip p e true => if p.dest_room = c then some (frustum_s.clipped p e) else none
    | _ => none

/-- The first entry of the list holds room `c` and the chain of `c` is what the successful
clips of the frame into `c` have registered. -/
def CameraRoomOK (c : Nat) (s : CRender) : Prop :=
  (0 < s.r_list_active_count ∧ (s.r_list 0).room = some c) ∧
    s.frustum c = clipsInto c s.trace

/-- The calls of `ProcessRoom` in a trace, in call order: portal and frustum passed. -/
def processCalls (t : List Event) : List (portal_s × frustum_s) :=
  t.filterMap fun ev =>
    match ev with
    | Event.process p f => some (p, f)
    | _ => none

/-- The successful clips of a trace, in call order: portal and frustum generated. -/
def clipsDone (t : List Event) : List (portal_s × frustum_s) :=
  t.filterMap fun ev =>
    match ev with
    | Event.clip p e true => some (p, frustum_s.clipped p e)
    | _ => none

/-- Whether a call `ProcessRoom(q.1, q.2)` expands room `r`: `r` is the destination of the
portal and the call passes the test of line 1163, so that it iterates the portals of `r`. -/
def expands (w : world_s) (r : Nat) (q : portal_s × frustum_s) : Bool :=
  q.1.dest_room == r && (w.rooms q.1.current_room).active && (w.rooms q.1.dest_room).active

/-- How many times room `r` is expanded in a trace. -/
def expansions (w : world_s) (r : Nat) (t : List Event) : Nat :=
  ((processCalls t).filter (expands w r)).length

/-- The shape of the calls of a portal walk: a clip that returns null stands alone, the
next call being the clip of the next portal; a clip that returns a frustum is followed at
once by `AddRoom` of the portal's destination and `ProcessRoom` of the portal with the new
frustum.  No `AddRoom` and no `ProcessRoom` occurs otherwise. -/
def walkBlocks : List Event → Bool
  | [] => true
  | Event.clip _ _ false :: t => walkBlocks t
  | Event.clip p e true :: Event.add r :: Event.process q f :: t =>
    decide (r = p.dest_room) && decide (q = p) && decide (f = frustum_s.clipped p e) &&
      walkBlocks t
  | _ => false

/-- Invariant of the walk from the camera's room `c`: the calls have the shape
`walkBlocks` after the first `AddRoom(c)`, and every listed room is `c` or the destination
of a successful clip. -/
def SeenOK (c : Nat) (s : CRender) : Prop :=
  (∃ t, s.trace = Event.add c :: t ∧ walkBlocks t = true) ∧
    ∀ r, some r ∈ listedRooms s →
      r = c ∨ ∃ p e, Event.clip p e true ∈ s.trace ∧ p.dest_room = r

/-- The walk has made the call `ev`, the chain of room `D` holds the frustum `f`, and `D` is
flagged.  Once true in a frame this stays true to its end. -/
def Reached (ev : Event) (f : frustum_s) (D : Nat) (s : CRender) : Prop :=
  ev ∈ s.trace ∧ f ∈ s.frustum D ∧ s.is_in_r_list D = true

/-- As long as the Render List of capacity `N` is not full, every flagged room is listed. -/
def RoomFor (N : Nat) (s : CRender) : Prop :=
  s.r_list_size = N ∧
    (s.r_list_active_count < N → ∀ r, s.is_in_r_list r = true → some r ∈ listedRooms s)

/-- Every clip of the frame against a generated frustum (one made in a loop of
`ProcessRoom`) is into an active room, and every active room a clip has succeeded into is
flagged. -/
def ClipsOK (w : world_s) (s : CRender) : Prop :=
  ∀ p e b, Event.clip p e b ∈ s.trace →
    (0 < e.depth → (w.rooms p.dest_room).active = true) ∧
    (b = true → (w.rooms p.dest_room).active = true → s.is_in_r_list p.dest_room = true)

/-- The test of line 1171 in `ProcessRoom(portal, .)`: `p` is a portal of the destination
room that leads to an active room other than the room the walk came from. -/
def Through (w : world_s) (portal p : portal_s) : Prop :=
  p ∈ (w.rooms portal.dest_room).portals ∧ (w.rooms p.dest_room).active = true ∧
    p.dest_room ≠ portal.current_room

/-- Invariant of one call `ProcessRoom(portal, frus)` whose loop starts with the trace
`base`: the calls `t` made since have the shape `walkBlocks`, each clip against `frus` and
each `ProcessRoom` on a frustum clipped from `frus` is for a portal that passes the test of
line 1171, and each portal of `seen` that passes the test has been clipped against
`frus`. -/
def OwnOK (w : world_s) (portal : portal_s) (frus : frustum_s) (base : List Event)
    (seen : List portal_s) (s : CRender) : Prop :=
  ∃ t, s.trace = base ++ t ∧ walkBlocks t = true ∧
    (∀ p b, Event.clip p frus b ∈ t → Through w portal p) ∧
    (∀ p, Event.process p (frustum_s.clipped p frus) ∈ t → Through w portal p) ∧
    (∀ p ∈ seen, Through w portal p → ∃ b, Event.clip p frus b ∈ t)

/-- The portals of the world lead to rooms of the world.  In the C program the field
`dest_room` of a portal points into `world->rooms`; here it is an index, and the indices
below `room_count` are the rooms of the world. -/
def WellFormed (w : world_s) : Prop :=
  ∀ r p, p ∈ (w.rooms r).portals → p.dest_room < w.room_count

/-- Every listed room is a room of the world. -/
def InWorld (w : world_s) (s : CRender) : Prop :=
  ∀ r, some r ∈ listedRooms s → r < w.room_count

/-- Every active room that `AddRoom` was called for in the frame is flagged. -/
def AddsOK (w : world_s) (s : CRender) : Prop :=
  ∀ r, Event.add r ∈ s.trace → (w.rooms r).active = true → s.is_in_r_list r = true

/-- In every active room `active_frustums` is the number of frustums in the chain. -/
def ChainsCounted (w : world_s) (s : CRender) : Prop :=
  ∀ r, (w.rooms r).active = true → s.active_frustums r = (s.frustum r).length

/-- Bit `n` of `r_flags` is set exactly when a room of the Render List has
`TR_ROOM_FLAG_SKYBOX` in its flags. -/
def SkyOK (k : Collab) (w : world_s) (n : Nat) (s : CRender) : Prop :=
  s.r_flags.testBit n = true ↔
    ∃ r, some r ∈ listedRooms s ∧ (w.rooms r).flags &&& k.TR_ROOM_FLAG_SKYBOX ≠ 0

/-- Every room of the Render List is active. -/
def AllActive (w : world_s) (s : CRender) : Prop :=
  ∀ r, some r ∈ listedRooms s → (w.rooms r).active = true

/-- The states the renderer gets into: as constructed (lines 39-58; rooms exist only in a
world and `SetWorld` clears the flags of the rooms of the world it installs, so no flag is
set), and then through `SetWorld`, `GenWorldList`, `AddRoom` on a room of the current world
and `CleanList`.  A world that is installed has portals that lead to its own rooms and a
`room_count` for which the `uint32_t` sum of line 131 does not wrap; the locator finds the
camera in a room of the world, if in any. -/
inductive Reachable (k : Collab) : CRender → Prop where
  | init : Reachable k {}
  | setWorld {s : CRender} (w : world_s) :
      Reachable k s → w.room_count + 128 < 2 ^ 32 → WellFormed w →
      Reachable k (SetWorld k (some w) s)
  | setNull {s : CRender} : Reachable k s → Reachable k (SetWorld k none s)
  | frame {s s' : CRender} (cam : camera_s) (fuel : Nat) :
      Reachable k s →
      (∀ w c, s.m_world = some w → k.Room_FindPosCogerrence cam = some c →
        c < w.room_count) →
      GenWorldList k cam fuel s = some s' → Reachable k s'
  | addRoom {s : CRender} (w : world_s) (cam : camera_s) (room : Nat) :
      Reachable k s → s.m_world = some w → room < w.room_count →
      Reachable k (AddRoom k w cam room s).2
  | cleanList {s : CRender} : Reachable k s → Reachable k (CleanList k s)

/-- Invariant of the reachable states: the Render List is well formed, every flagged room
is listed, and with a world installed the capacity is `room_count + 128` and the listed
rooms are rooms of the world. -/
def ReachInv (s : CRender) : Prop :=
  ListOK s ∧ (∀ r, s.is_in_r_list r = true → some r ∈ listedRooms s) ∧
    ∀ w, s.m_world = some w →
      WellFormed w ∧ s.r_list_size = w.room_count + 128 ∧ InWorld w s

/-- Two states hold the same Render List (count, capacity and the entries in use) and the
same `is_in_r_list` flags. -/
def SameList (a b : CRender) : Prop :=
  a.r_list_active_count = b.r_list_active_count ∧ a.r_list_size = b.r_list_size ∧
    a.is_in_r_list = b.is_in_r_list ∧
    ∀ i, i < a.r_list_active_count → a.r_list i = b.r_list i

/-- The outcome of the clip of a portal against a frustum is the same in every state, as
it is for two walks made with the same camera. -/
def ClipFixed (k : Collab) : Prop :=
  ∀ (s t : CRender) (p : portal_s) (e : frustum_s), k.clip s p e = k.clip t p e

/-! ## The transparent pass -/

/-- What the transparent pass takes from files that are not among the sources (vmath.h,
frustum.cpp, engine.h, mesh.h, entity.h, render.h).  They are parameters.

* `vec3_plane_dist plane` is the value `d` of `vec3_plane_dist(root->plane,
  engine_camera.pos)`, of which only the test `d >= 0` is used; it is an integer here (a
  NaN fails the test, like a negative number).
* `Frustum_IsOBBVisibleInFrustumList obb chain` is the test of a box against a chain of
  frustums.
* `engine_world_Character` is the global `engine_world.Character`.
* the others are the values of the macros of the same name. -/
structure DrawCollab where
  vec3_plane_dist : Nat → Int
  Frustum_IsOBBVisibleInFrustumList : Nat → List frustum_s → Bool
  engine_world_Character : Option Nat
  MESH_HAS_TRANSPARENCY : Nat
  ENTITY_STATE_VISIBLE : Nat
  BM_MULTIPLY : Nat
  BM_INVERT_SRC : Nat
  BM_INVERT_DEST : Nat
  BM_SCREEN : Nat
  BM_ANIMATED_TEX : Nat
  R_DRAW_NULLMESHES : Nat
  R_DRAW_DUMMY_STATICS : Nat
  R_SKIP_ROOM : Nat

/-- The `switch` of `CRender::DrawBSPPolygon` (lines 503-526): the calls made for the new
blend mode. -/
def blend_switch (d : DrawCollab) (transparency : Nat) : List gl_call :=
  if transparency = d.BM_MULTIPLY then
    [gl_call.glBlendFunc gl_factor.GL_ONE gl_factor.GL_ONE]
  else if transparency = d.BM_INVERT_SRC then
    [gl_call.glBlendFunc gl_factor.GL_ZERO gl_factor.GL_ONE_MINUS_SRC_COLOR]
  else if transparency = d.BM_INVERT_DEST then
    [gl_call.glBlendFunc gl_factor.GL_ONE_MINUS_SRC_COLOR gl_factor.GL_ONE_MINUS_SRC_COLOR]
  else if transparency = d.BM_SCREEN then
    [gl_call.glBlendFunc gl_factor.GL_ONE gl_factor.GL_ONE_MINUS_SRC_COLOR]
  else if transparency = d.BM_ANIMATED_TEX then
    [gl_call.glBlendFunc gl_factor.GL_ONE gl_factor.GL_ZERO]
  else []

/-- The function `CRender::DrawBSPPolygon` (lines 494-536) with `m_world = w`.  Ghost: the
polygon is appended to `bsp_drawn`. -/
def DrawBSPPolygon (d : DrawCollab) (w : world_s) (p : bsp_polygon_s) (s : CRender) :
    CRender :=
  let s1 :=
    if s.m_active_transparency ≠ p.transparency then
      { s with
        m_active_transparency := p.transparency
        gl := s.gl ++ blend_switch d p.transparency }
    else s
  let s2 :=
    if s1.m_active_texture ≠ w.textures p.tex_index then
      { s1 with
        m_active_texture := w.textures p.tex_index
        gl := s1.gl ++ [gl_call.glBindTexture (w.textures p.tex_index)] }
    else s1
  { s2 with
    gl := s2.gl ++ [gl_call.glDrawElements p.vertex_count p.indexes]
    bsp_drawn := s2.bsp_drawn ++ [p] }

/-- A loop `for(p = list; p != NULL; p = p->next) DrawBSPPolygon(p)` over a side list. -/
def DrawBSPPolygons (d : DrawCollab) (w : world_s) (l : List bsp_polygon_s) (s : CRender) :
    CRender :=
  l.foldl (fun a p => DrawBSPPolygon d w p a) s

/-- The function `CRender::DrawBSPFrontToBack` (lines 538-584).  The root is dereferenced
at once: on NULL there is no result. -/
def DrawBSPFrontToBack (d : DrawCollab) (w : world_s) : bsp_node_s → CRender → Option CRender
  | bsp_node_s.null, _ => none
  | bsp_node_s.node plane front back polygons_front polygons_back, s =>
    if 0 ≤ d.vec3_plane_dist plane then
      match (if front = bsp_node_s.null then some s else DrawBSPFrontToBack d w front s) with
      | none => none
      | some s1 =>
        let s2 := DrawBSPPolygons d w polygons_back (DrawBSPPolygons d w polygons_front s1)
        if back = bsp_node_s.null then some s2 else DrawBSPFrontToBack d w back s2
    else
      match (if back = bsp_node_s.null then some s else DrawBSPFrontToBack d w back s) with
      | none => none
      | some s1 =>
        let s2 := DrawBSPPolygons d w polygons_front (DrawBSPPolygons d w polygons_back s1)
        if front = bsp_node_s.null then some s2 else DrawBSPFrontToBack d w front s2

/-- The function `CRender::DrawBSPBackToFront` (lines 586-632).  The root is dereferenced
at once: on NULL there is no result. -/
def DrawBSPBackToFront (d : DrawCollab) (w : world_s) : bsp_node_s → CRender → Option CRender
  | bsp_node_s.null, _ => none
  | bsp_node_s.node plane front back polygons_front polygons_back, s =>
    if 0 ≤ d.vec3_plane_dist plane then
      match (if back = bsp_node_s.null then some s else DrawBSPBackToFront d w back s) with
      | none => none
      | some s1 =>
        let s2 := DrawBSPPolygons d w polygons_front (DrawBSPPolygons d w polygons_back s1)
        if front = bsp_node_s.null then some s2 else DrawBSPBackToFront d w front s2
    else
      match (if front = bsp_node_s.null then some s else DrawBSPBackToFront d w front s) with
      | none => none
      | some s1 =>
        let s2 := DrawBSPPolygons d w polygons_back (DrawBSPPolygons d w polygons_front s1)
        if back = bsp_node_s.null then some s2 else DrawBSPBackToFront d w back s2

/-- The polygons `DrawBSPBackToFront(t)` calls `DrawBSPPolygon` with, in call order; none
for a child that is NULL, which is not traversed. -/
def emittedB2F (d : DrawCollab) (w : world_s) (t : bsp_node_s) : List bsp_polygon_s :=
  match DrawBSPBackToFront d w t {} with
  | some s => s.bsp_drawn
  | none => []

/-- The polygons `DrawBSPFrontToBack(t)` calls `DrawBSPPolygon` with, in call order. -/
def emittedF2B (d : DrawCollab) (w : world_s) (t : bsp_node_s) : List bsp_polygon_s :=
  match DrawBSPFrontToBack d w t {} with
  | some s => s.bsp_drawn
  | none => []

/-- The arguments of the calls of `glDrawElements` in a sequence of OpenGL calls. -/
def drawCalls (l : List gl_call) : List (Nat × Nat) :=
  l.filterMap fun c =>
    match c with
    | gl_call.glDrawElements n i => some (n, i)
    | _ => none

/-- The nodes of a tree: the root and the nodes of its subtrees. -/
def subnodes : bsp_node_s → List bsp_node_s
  | bsp_node_s.null => []
  | bsp_node_s.node plane front back pf pb =>
    bsp_node_s.node plane front back pf pb :: (subnodes front ++ subnodes back)

/-- All polygons held by the nodes of a tree. -/
def polygons : bsp_node_s → List bsp_polygon_s
  | bsp_node_s.null => []
  | bsp_node_s.node _ front back pf pb => pf ++ pb ++ (polygons front ++ polygons back)

/-- The tree with each side list of each node reversed. -/
def reverseLists : bsp_node_s → bsp_node_s
  | bsp_node_s.null => bsp_node_s.null
  | bsp_node_s.node plane front back pf pb =>
    bsp_node_s.node plane (reverseLists front) (reverseLists back) pf.reverse pb.reverse

/-- No side list of the tree holds two polygons. -/
def shortLists : bsp_node_s → Bool
  | bsp_node_s.null => true
  | bsp_node_s.node _ front back pf pb =>
    decide (pf.length ≤ 1) && decide (pb.length ≤ 1) && shortLists front && shortLists back

/-- The order of `DrawBSPBackToFront` in closed form, to reason with: far child, far list,
near list, near child. -/
def backToFront_order (d : DrawCollab) : bsp_node_s → List bsp_polygon_s
  | bsp_node_s.null => []
  | bsp_node_s.node plane front back pf pb =>
    if 0 ≤ d.vec3_plane_dist plane then
      backToFront_order d back ++ pb ++ (pf ++ backToFront_order d front)
    else backToFront_order d front ++ pf ++ (pb ++ backToFront_order d back)

/-- The order of `DrawBSPFrontToBack` in closed form, to reason with. -/
def frontToBack_order (d : DrawCollab) : bsp_node_s → List bsp_polygon_s
  | bsp_node_s.null => []
  | bsp_node_s.node plane front back pf pb =>
    if 0 ≤ d.vec3_plane_dist plane then
      frontToBack_order d front ++ pf ++ (pb ++ frontToBack_order d back)
    else frontToBack_order d back ++ pb ++ (pf ++ frontToBack_order d front)

/-- The chain of frustums a box of room `r` is tested against:
`(r->frustum) ? (r->frustum) : (m_camera->frustum)`, with `m_camera->frustum` the camera's
frustum alone (its `next` is NULL, line 235). -/
def room_frustums (s : CRender) (r : Nat) : List frustum_s :=
  if s.frustum r ≠ [] then s.frustum r else [frustum_s.camera]

/-- The calls of `dynamicBSP->AddNewPolygonList` of the loop over the bones of entity `e`
(lines 359-366 and 376-383): one for each bone whose mesh has transparent polygons. -/
def bone_lists (w : world_s) (e : Nat) : List poly_source :=
  (List.range (w.entities e).bone_tags.length).filterMap fun j =>
    if ((w.entities e).bone_tags.getD j {}).mesh_base.transparency_polygons ≠ none then
      some (poly_source.bone e j)
    else none

/-- The call of one round of the first loop of the transparent pass (lines 328-335), for
the room `r` of the entry. -/
def room_mesh_lists (w : world_s) (r : Nat) : List poly_source :=
  match (w.rooms r).mesh with
  | some m => if m.transparency_polygons ≠ none then [poly_source.room_mesh r] else []
  | none => []

/-- The test of line 343 for the static mesh `j` of room `r`: its mesh has transparent
polygons and its box is visible through the frustums of the room. -/
def static_mesh_gate (d : DrawCollab) (w : world_s) (s : CRender) (r j : Nat) : Bool :=
  decide (((w.rooms r).static_mesh.getD j {}).mesh.transparency_polygons ≠ none) &&
    d.Frustum_IsOBBVisibleInFrustumList ((w.rooms r).static_mesh.getD j {}).obb
      (room_frustums s r)

/-- The loop over the static meshes of room `r` (lines 341-347), entered with the counter
at `j` and the calls `acc` made so far.  The counter is `uint16_t j`, so `j++` wraps at
`2 ^ 16`, while `static_mesh_count` is counted with `uint32_t` in the other loops over the
static meshes (lines 982, 1124, 1721) and is a natural number here.  `none`: the fuel ran
out before the test `j < r->static_mesh_count` failed. -/
def static_mesh_loop (d : DrawCollab) (w : world_s) (s : CRender) (r : Nat) :
    Nat → Nat → List poly_source → Option (List poly_source)
  | 0, _, _ => none
  | fuel + 1, j, acc =>
    if j < (w.rooms r).static_mesh_count then
      static_mesh_loop d w s r fuel ((j + 1) % 2 ^ 16)
        (if static_mesh_gate d w s r j then acc ++ [poly_source.static_mesh r j] else acc)
    else some acc

/-- The calls of the loop over the static meshes of room `r` (lines 341-347), from `j = 0`.
The fuel `static_mesh_count + 1` is enough whenever the loop ends; with
`static_mesh_count` at `2 ^ 16` or more the test `j < r->static_mesh_count` holds for every
value of the counter and the loop does not end, on any fuel (`static_mesh_loop_hangs`):
`none`. -/
def static_mesh_lists (d : DrawCollab) (w : world_s) (s : CRender) (r : Nat) :
    Option (List poly_source) :=
  static_mesh_loop d w s r ((w.rooms r).static_mesh_count + 1) 0 []

/-- The calls of the loop over the static meshes of room `r` in closed form, to reason
with: what the loop has called when it ends (`static_mesh_lists_eq`). -/
def static_mesh_calls (d : DrawCollab) (w : world_s) (s : CRender) (r : Nat) :
    List poly_source :=
  (List.range (w.rooms r).static_mesh_count).filterMap fun j =>
    if static_mesh_gate d w s r j then some (poly_source.static_mesh r j) else none

/-- The entities held by the containers of room `r`, in the order of the list: the objects
of the containers whose `object_type` is `OBJECT_ENTITY` (line 352). -/
def held (k : Collab) (w : world_s) (r : Nat) : List Nat :=
  (w.rooms r).containers.filterMap fun cont =>
    if cont.object_type = k.OBJECT_ENTITY then some cont.object else none

/-- The test of line 355 for the entity `e` held by room `r`. -/
def entity_gate (d : DrawCollab) (w : world_s) (s : CRender) (r e : Nat) : Bool :=
  decide ((w.entities e).transparency_flags = d.MESH_HAS_TRANSPARENCY) &&
    decide ((w.entities e).state_flags &&& d.ENTITY_STATE_VISIBLE ≠ 0) &&
    d.Frustum_IsOBBVisibleInFrustumList (w.entities e).obb (room_frustums s r)

/-- The calls of the loop over the containers of room `r` (lines 350-368). -/
def entity_lists (k : Collab) (d : DrawCollab) (w : world_s) (s : CRender) (r : Nat) :
    List poly_source :=
  (held k w r).flatMap fun e => if entity_gate d w s r e then bone_lists w e else []

/-- The calls of the block for `engine_world.Character` (lines 371-383). -/
def character_lists (d : DrawCollab) (w : world_s) : List poly_source :=
  match d.engine_world_Character with
  | some c =>
    if (w.entities c).transparency_flags = d.MESH_HAS_TRANSPARENCY then bone_lists w c else []
  | none => []

/-- A round of a loop over the Render List, for the room of the entry.  An entry below
`r_list_active_count` always holds a room (see `ListOK`); an entry without one, where the
C code would dereference NULL, makes no call here. -/
def on_room {α : Type} (f : Nat → List α) : Option Nat → List α
  | some r => f r
  | none => []

/-- The second loop over the Render List in the transparent pass (lines 337-369), over
the entries `l` still to come: for the room of each entry the loop over its static meshes,
then the loop over its containers.  `none`: a loop over the static meshes does not end. -/
def DrawList_rounds (k : Collab) (d : DrawCollab) (w : world_s) (s : CRender) :
    List (Option Nat) → Option (List poly_source)
  | [] => some []
  | none :: l => DrawList_rounds k d w s l
  | some r :: l =>
    match static_mesh_lists d w s r with
    | none => none
    | some a =>
      match DrawList_rounds k d w s l with
      | none => none
      | some b => some (a ++ entity_lists k d w s r ++ b)

/-- The calls of `dynamicBSP->AddNewPolygonList` made by `CRender::DrawList` (lines
328-383) with `m_world = w`, in call order: what is inserted by each.  `none`: the pass
does not get to its end, a loop over the static meshes of a listed room does not end.  The
counters of the loops over the bones are `uint16_t` as in every loop up to
`bone_tag_count` (lines 358, 375, 820, 1625); the bones are a list here. -/
def DrawList_lists (k : Collab) (d : DrawCollab) (w : world_s) (s : CRender) :
    Option (List poly_source) :=
  match DrawList_rounds k d w s (listedRooms s) with
  | none => none
  | some b =>
    some ((listedRooms s).flatMap (on_room (room_mesh_lists w)) ++ b ++ character_lists d w)

/-- The part of `CRender::DrawList` that fills the dynamic BSP tree (lines 328-383).
Ghost: the calls are appended to `bsp_lists`; the tree itself is built in bsp_tree.cpp,
which is not among the sources, and is not modelled. -/
def DrawList_transparency (k : Collab) (d : DrawCollab) (w : world_s) (s : CRender) :
    Option CRender :=
  match DrawList_lists k d w s with
  | none => none
  | some l => some { s with bsp_lists := s.bsp_lists ++ l }

/-- The calls of the transparent pass in closed form, to reason with: what `DrawList` has
called when the loops over the static meshes end (`DrawList_lists_eq`). -/
def DrawList_calls (k : Collab) (d : DrawCollab) (w : world_s) (s : CRender) :
    List poly_source :=
  (listedRooms s).flatMap (on_room (room_mesh_lists w)) ++
    (listedRooms s).flatMap
      (on_room fun r => static_mesh_calls d w s r ++ entity_lists k d w s r) ++
    character_lists d w

/-- The entities held by the rooms of the Render List, room after room. -/
def heldEntities (k : Collab) (w : world_s) (s : CRender) : List Nat :=
  (listedRooms s).flatMap (on_room (held k w))

/-! ## Drawing the rooms -/

/-- The function `CRender::DrawEntity` (lines 842-892) with `m_world = w`, for the entity
`e`.  Ghost: the call of `DrawSkeletalModel` (line 870) is recorded in `draws`.  The
lighting set-up and the hair meshes are not modelled.  The function does not write
`was_rendered`. -/
def DrawEntity (d : DrawCollab) (w : world_s) (e : Nat) (s : CRender) : CRender :=
  if s.entity_was_rendered e ||
      !(decide ((w.entities e).state_flags &&& d.ENTITY_STATE_VISIBLE ≠ 0)) ||
      (decide ((w.entities e).hide ≠ 0) &&
        !(decide (s.r_flags &&& d.R_DRAW_NULLMESHES ≠ 0))) then s
  else if (w.entities e).animations then
    { s with draws := s.draws ++ [draw_event.skeletal e] }
  else s

/-- One round of the loop over the static meshes in `CRender::DrawRoom` (lines 982-1009),
for the static mesh `i` of `room`. -/
def DrawRoom_static (d : DrawCollab) (w : world_s) (room : Nat) (s : CRender) (i : Nat) :
    CRender :=
  if s.mesh_was_rendered room i ||
      !(d.Frustum_IsOBBVisibleInFrustumList ((w.rooms room).static_mesh.getD i {}).obb
        (room_frustums s room)) then s
  else if decide (((w.rooms room).static_mesh.getD i {}).hide = 1) &&
      !(decide (s.r_flags &&& d.R_DRAW_DUMMY_STATICS ≠ 0)) then s
  else
    { s with
      draws := s.draws ++ [draw_event.static_mesh room i]
      mesh_was_rendered := fun x j =>
        if x = room ∧ j = i then true else s.mesh_was_rendered x j }

/-- One round of the loop over the containers in `CRender::DrawRoom` (lines 1015-1031). -/
def DrawRoom_container (k : Collab) (d : DrawCollab) (w : world_s) (room : Nat)
    (s : CRender) (cont : engine_container_s) : CRender :=
  if cont.object_type = k.OBJECT_ENTITY then
    if s.entity_was_rendered cont.object = false then
      let s1 :=
        if d.Frustum_IsOBBVisibleInFrustumList (w.entities cont.object).obb
            (room_frustums s room) then
          DrawEntity d w cont.object s
        else s
      { s1 with
        entity_was_rendered := fun e =>
          if e = cont.object then true else s1.entity_was_rendered e }
    else s
  else s

/-- The mesh of the room in `CRender::DrawRoom` (lines 961-978). -/
def DrawRoom_mesh (d : DrawCollab) (w : world_s) (room : Nat) (s : CRender) : CRender :=
  if !(decide (s.r_flags &&& d.R_SKIP_ROOM ≠ 0)) && (w.rooms room).mesh.isSome then
    { s with draws := s.draws ++ [draw_event.room_mesh room] }
  else s

/-- The static meshes of the room in `CRender::DrawRoom` (lines 980-1010). -/
def DrawRoom_statics (d : DrawCollab) (w : world_s) (room : Nat) (s : CRender) : CRender :=
  (List.range (w.rooms room).static_mesh_count).foldl (DrawRoom_static d w room) s

/-- The function `CRender::DrawRoom` (lines 894-1039) with `m_world = w`, for the room
`room`.  The block under `STENCIL_FRUSTUM` and the OpenGL calls are not modelled; ghost:
the draws are recorded in `draws`. -/
def DrawRoom (k : Collab) (d : DrawCollab) (w : world_s) (room : Nat) (s : CRender) :
    CRender :=
  (w.rooms room).containers.foldl (DrawRoom_container k d w room)
    (DrawRoom_statics d w room (DrawRoom_mesh d w room s))

/-- The opaque pass of `CRender::DrawList` (lines 303-314) with `m_world = w`: the
Character of the world is drawn, then the rooms of the Render List in list order.  An
entry without a room, where the C code would dereference NULL, is skipped. -/
def DrawList_rooms (k : Collab) (d : DrawCollab) (w : world_s) (s : CRender) : CRender :=
  let s1 :=
    match w.Character with
    | some c => DrawEntity d w c s
    | none => s
  (listedRooms s).foldl
    (fun a r =>
      match r with
      | some room => DrawRoom k d w room a
      | none => a) s1

/-- The test that decides whether `DrawRoom` draws the static mesh `i` of `room`, in the
state `s` in which `DrawRoom` is called. -/
def static_drawn (d : DrawCollab) (w : world_s) (room : Nat) (s : CRender) (i : Nat) : Bool :=
  !s.mesh_was_rendered room i &&
    d.Frustum_IsOBBVisibleInFrustumList ((w.rooms room).static_mesh.getD i {}).obb
      (room_frustums s room) &&
    (decide (((w.rooms room).static_mesh.getD i {}).hide ≠ 1) ||
      decide (s.r_flags &&& d.R_DRAW_DUMMY_STATICS ≠ 0))

/-- The entity `e` has been drawn at most once, and if it has been drawn its
`was_rendered` flag is set. -/
def DrawnOnce (e : Nat) (s : CRender) : Prop :=
  s.draws.count (draw_event.skeletal e) = 0 ∨
    (s.draws.count (draw_event.skeletal e) = 1 ∧ s.entity_was_rendered e = true)

/-! ## Animated textures -/

/-- The part of `anim_seq_s` that `CRender::UpdateAnimTextures` works on.  `frame_time`
stands for the float of that name; `frame_rate` and the `current_uvrotate` of the frames
are floats that are not modelled.  `current_frame` and `frames_count` are taken to be
`uint16_t` (world.h, which declares them, is not among the sources). -/
structure anim_seq_s where
  frame_lock : Bool := false
  uvrotate : Bool := false
  anim_type : Nat := 0
  reverse_direction : Bool := false
  current_frame : Nat := 0
  frames_count : Nat := 1
  frame_time : Nat := 0
deriving DecidableEq, Repr

/-- What `CRender::UpdateAnimTextures` computes in floating point, as parameters, and the
macros it uses (world.h and engine.h are not among the sources).

* `elapsed t` is `frame_time + engine_frame_time` for `frame_time = t`.
* `due seq` tells whether `seq->frame_time >= seq->frame_rate`.
* `rest seq` is `frame_time - (float)j * frame_rate` with `j = frame_time / frame_rate`. -/
structure AnimCollab where
  elapsed : Nat → Nat
  due : anim_seq_s → Bool
  rest : anim_seq_s → Nat
  TR_ANIMTEXTURE_FORWARD : Nat
  TR_ANIMTEXTURE_BACKWARD : Nat
  TR_ANIMTEXTURE_REVERSE : Nat

/-- The body of the loop of `CRender::UpdateAnimTextures` (lines 164-218) for one sequence.
`current_frame++` and `current_frame--` are modulo `2 ^ 16`; `frames_count - 1` is computed
in `int`; `current_frame %= frames_count` with `frames_count = 0` has no result. -/
def anim_step (a : AnimCollab) (seq : anim_seq_s) : Option anim_seq_s :=
  if seq.frame_lock then some seq
  else
    let s1 := { seq with frame_time := a.elapsed seq.frame_time }
    if s1.uvrotate then some { s1 with frame_time := a.rest s1 }
    else if a.due s1 then
      let s2 := { s1 with frame_time := a.rest s1 }
      if s2.anim_type = a.TR_ANIMTEXTURE_REVERSE then
        if s2.reverse_direction then
          if s2.current_frame = 0 then
            some { s2 with
              current_frame := (s2.current_frame + 1) % 2 ^ 16
              reverse_direction := false }
          else if s2.current_frame > 0 then
            some { s2 with current_frame := (s2.current_frame + (2 ^ 16 - 1)) % 2 ^ 16 }
          else some s2
        else
          let s3 :=
            if (s2.current_frame : Int) = (s2.frames_count : Int) - 1 then
              { s2 with
                current_frame := (s2.current_frame + (2 ^ 16 - 1)) % 2 ^ 16
                reverse_direction := true }
            else if (s2.current_frame : Int) < (s2.frames_count : Int) - 1 then
              { s2 with current_frame := (s2.current_frame + 1) % 2 ^ 16 }
            else s2
          if s3.frames_count = 0 then none
          else some { s3 with current_frame := s3.current_frame % s3.frames_count }
      else if s2.anim_type = a.TR_ANIMTEXTURE_FORWARD ∨
          s2.anim_type = a.TR_ANIMTEXTURE_BACKWARD then
        if s2.frames_count = 0 then none
        else
          some { s2 with
            current_frame := ((s2.current_frame + 1) % 2 ^ 16) % s2.frames_count }
      else some s2
    else some s1

/-- The function `CRender::UpdateAnimTextures` (lines 157-220) with a world installed whose
`anim_sequences` array holds `seqs` (`anim_sequences_count` is its length); the result is the
array after the call.  With `m_world == NULL` the function does nothing. -/
def UpdateAnimTextures (a : AnimCollab) (seqs : List anim_seq_s) : Option (List anim_seq_s) :=
  seqs.mapM (anim_step a)

/-- The sequences after `m` calls of `UpdateAnimTextures` in succession. -/
def updates (a : AnimCollab) : Nat → List anim_seq_s → Option (List anim_seq_s)
  | 0, seqs => some seqs
  | m + 1, seqs => (updates a m seqs).bind (UpdateAnimTextures a)

/-- The ping-pong sequence over the frames `0 .. n - 1`: 0, 1, ..., n-1, n-2, ..., 1, 0,
1, ... -/
def pingpong (n m : Nat) : Nat :=
  if m % (2 * (n - 1)) ≤ n - 1 then m % (2 * (n - 1))
  else 2 * (n - 1) - m % (2 * (n - 1))

/-- The state of a `TR_ANIMTEXTURE_REVERSE` sequence of `n` frames at phase `r` of its
period `2 * (n - 1)`: it is on its way up in the first half and on its way down in the
second. -/
def Swinging (a : AnimCollab) (n r : Nat) (q : anim_seq_s) : Prop :=
  q.frame_lock = false ∧ q.uvrotate = false ∧ q.anim_type = a.TR_ANIMTEXTURE_REVERSE ∧
    q.frames_count = n ∧
    q.current_frame = (if r ≤ n - 1 then r else 2 * (n - 1) - r) ∧
    (0 < r → r ≤ n - 1 → q.reverse_direction = false) ∧
    (n - 1 < r → q.reverse_direction = true)

/-! ## Scenarios -/

/-- Collaborators of the scenarios: the camera is found in room 0, every box is visible and
the clip of portal `p` against `e` succeeds when `ok p e` says so. -/
def scene (ok : portal_s → frustum_s → Bool) : Collab :=
  { Room_FindPosCogerrence := fun _ => some 0
    clip := fun _ p e => ok p e
    Frustum_IsAABBVisible := fun _ _ => true
    vec3_dist := fun _ r => r
    R_DRAW_SKYBOX := 0x2000
    TR_ROOM_FLAG_SKYBOX := 8
    OBJECT_ENTITY := 3 }

/-- The camera of the scenarios. -/
def camera0 : camera_s := {}

/-- The renderer right after its construction and `SetWorld(w)`. -/
def installed (k : Collab) (w : world_s) : CRender := SetWorld k (some w) {}

/-- The portal from room `a` to room `b`. -/
def door (a b : Nat) : portal_s := { dest_room := b, current_room := a }

/-- Rooms 0, 1, 2, 3 with portals 0 → 1, 0 → 2, 1 → 2 and 2 → 3: room 2 is reached along
0 → 2 and along 0 → 1 → 2. -/
def diamond : world_s :=
  { room_count := 4
    rooms := fun i =>
      match i with
      | 0 => { portals := [door 0 1, door 0 2] }
      | 1 => { portals := [door 1 2] }
      | 2 => { portals := [door 2 3] }
      | 3 => { }
      | _ => { active := false } }

/-- Rooms 0, 1, 2 with the portal cycle 0 → 1 → 2 → 0. -/
def triangle : world_s :=
  { room_count := 3
    rooms := fun i =>
      match i with
      | 0 => { portals := [door 0 1] }
      | 1 => { portals := [door 1 2] }
      | 2 => { portals := [door 2 0] }
      | _ => { active := false } }

/-- Rooms 0 and 1 joined by a portal in each direction. -/
def corridor : world_s :=
  { room_count := 2
    rooms := fun i =>
      match i with
      | 0 => { portals := [door 0 1] }
      | 1 => { portals := [door 1 0] }
      | _ => { active := false } }

/-- Collaborators of the scenarios in which no room holds the camera; every box is
visible. -/
def outside : Collab :=
  { scene (fun _ _ => true) with Room_FindPosCogerrence := fun _ => none }

/-- Rooms 0 and 1 without portals; room 1 is not active. -/
def annex : world_s :=
  { room_count := 2
    rooms := fun i =>
      match i with
      | 0 => { }
      | _ => { active := false } }

/-- Rooms 0, 1, 2 with portals 0 → 1 and 1 → 2; room 1 is not active. -/
def blocked : world_s :=
  { room_count := 3
    rooms := fun i =>
      match i with
      | 0 => { portals := [door 0 1] }
      | 1 => { active := false, portals := [door 1 2] }
      | 2 => { }
      | _ => { active := false } }

/-- A world whose single room is not active. -/
def closed : world_s :=
  { room_count := 1
    rooms := fun _ => { active := false } }

/-- A renderer whose Render List of capacity 1 holds room 1 of the diamond: the list is
full. -/
def full : CRender :=
  { r_list := fun i => if i = 0 then { room := some 1, active := 1, dist := 1 } else {}
    r_list_size := 1
    r_list_active_count := 1
    is_in_r_list := fun x => x == 1
    m_world := some diamond }

/-- A renderer that holds the list and the flags of a frame of the diamond in which rooms 0
and 1 were listed. -/
def used : CRender :=
  { r_list := fun i => if i < 2 then { room := some i, active := 1, dist := 4 } else {}
    r_list_size := 130
    r_list_active_count := 2
    is_in_r_list := fun x => decide (x < 2)
    frustum := fun x => if x = 1 then [frustum_s.clipped (door 0 1) frustum_s.camera] else []
    active_frustums := fun x => if x = 1 then 1 else 0
    m_world := some diamond }

/-- The state in which `GenWorldList`, in the first frame after `SetWorld(w)` and with the
camera in room 0, calls `ProcessRoom(p, gen_frus)` for the portal `p` of room 0: room 0 is
listed, the clip of `p` against the camera's frustum has returned `gen_frus` and
`AddRoom(p->dest_room)` is done. -/
def entered (k : Collab) (w : world_s) (p : portal_s) : CRender :=
  enter k w camera0 p frustum_s.camera (GenWorldList_first k w camera0 0 (installed k w))

/-- Collaborators of the scenarios of the transparent pass: the camera is in front of
every plane but plane 2, every box is visible, and there is no Character. -/
def viewer : DrawCollab :=
  { vec3_plane_dist := fun plane => if plane = 2 then -1 else 1
    Frustum_IsOBBVisibleInFrustumList := fun _ _ => true
    engine_world_Character := none
    MESH_HAS_TRANSPARENCY := 1
    ENTITY_STATE_VISIBLE := 2
    BM_MULTIPLY := 1
    BM_INVERT_SRC := 2
    BM_INVERT_DEST := 3
    BM_SCREEN := 4
    BM_ANIMATED_TEX := 5
    R_DRAW_NULLMESHES := 0x20
    R_DRAW_DUMMY_STATICS := 0x40
    R_SKIP_ROOM := 0x80 }

/-- The polygon with index array `i`, blend mode `i % 3` and texture `i % 2`. -/
def poly (i : Nat) : bsp_polygon_s :=
  { transparency := i % 3, tex_index := i % 2, indexes := i }

/-- A tree of three nodes: the root with plane 0 and one polygon in each side list, a front
child with plane 1 and a back child with plane 2. -/
def tree3 : bsp_node_s :=
  bsp_node_s.node 0
    (bsp_node_s.node 1 bsp_node_s.null bsp_node_s.null [poly 3] [poly 4])
    (bsp_node_s.node 2 bsp_node_s.null bsp_node_s.null [poly 5] [poly 6])
    [poly 1] [poly 2]

/-- A single node with two polygons in its front list. -/
def pair : bsp_node_s :=
  bsp_node_s.node 0 bsp_node_s.null bsp_node_s.null [poly 1, poly 2] []

/-- A world of one room with a transparent mesh, a transparent static mesh and the entity
7, which is the Character: it is visible and has two bones, the first one with transparent
polygons. -/
def hall : world_s :=
  { room_count := 1
    rooms := fun i =>
      match i with
      | 0 =>
        { containers := [{ object_type := 3, object := 7 }]
          mesh := some { transparency_polygons := some 1 }
          static_mesh_count := 1
          static_mesh := [{ mesh := { transparency_polygons := some 2 } }] }
      | _ => { active := false }
    Character := some 7
    entities := fun e =>
      if e = 7 then
        { state_flags := 2
          transparency_flags := 1
          bone_tags := [{ mesh_base := { transparency_polygons := some 3 } }, {}] }
      else {} }

/-- The collaborators `viewer` with entity 7 as `engine_world.Character`. -/
def player : DrawCollab := { viewer with engine_world_Character := some 7 }

/-- The collaborators `viewer` with the camera on the other side of every plane: the side
test of every node has the negated outcome. -/
def mirrored : DrawCollab :=
  { viewer with vec3_plane_dist := fun plane => if plane = 2 then 1 else -1 }

/-- Rooms 0 and 1 with the portal 0 → 1; room 1 has `TR_ROOM_FLAG_SKYBOX` (8 in `scene`)
in its flags. -/
def skyworld : world_s :=
  { room_count := 2
    rooms := fun i =>
      match i with
      | 0 => { portals := [door 0 1] }
      | 1 => { flags := 8 }
      | _ => { active := false } }

/-- Rooms 0 and 1 with the portal 0 → 1; room 0, where the camera of `scene` is, is not
active. -/
def dark : world_s :=
  { room_count := 2
    rooms := fun i =>
      match i with
      | 0 => { active := false, portals := [door 0 1] }
      | 1 => { }
      | _ => { active := false } }

/-- Collaborators of the scenarios of the animated textures: every call finds the frame
time of every sequence elapsed. -/
def ticking : AnimCollab :=
  { elapsed := fun t => t + 1
    due := fun _ => true
    rest := fun _ => 0
    TR_ANIMTEXTURE_FORWARD := 0
    TR_ANIMTEXTURE_BACKWARD := 1
    TR_ANIMTEXTURE_REVERSE := 2 }

/-- A sequence of type `TR_ANIMTEXTURE_REVERSE` with `n` frames, at frame 0. -/
def swing (n : Nat) : anim_seq_s :=
  { anim_type := 2, frames_count := n }

/-! # Proofs -/

/-! ## Effect of the single steps -/

theorem log_trace (e : Event) (s : CRender) : (s.log e).trace = s.trace ++ [e] := rfl
theorem log_r_list (e : Event) (s : CRender) : (s.log e).r_list = s.r_list := rfl
theorem log_count (e : Event) (s : CRender) :
    (s.log e).r_list_active_count = s.r_list_active_count := rfl
theorem log_size (e : Event) (s : CRender) : (s.log e).r_list_size = s.r_list_size := rfl
theorem log_flag (e : Event) (s : CRender) : (s.log e).is_in_r_list = s.is_in_r_list := rfl
theorem log_frustum (e : Event) (s : CRender) : (s.log e).frustum = s.frustum := rfl
theorem log_listed (e : Event) (s : CRender) : listedRooms (s.log e) = listedRooms s := rfl

theorem listedRooms_congr {s t : CRender} (hc : t.r_list_active_count = s.r_list_active_count)
    (hl : ∀ i, i < s.r_list_active_count → t.r_list i = s.r_list i) :
    listedRooms t = listedRooms s := by
  unfold listedRooms
  rw [hc]
  apply List.map_congr_left
  intro i hi
  rw [hl i (List.mem_range.mp hi)]

theorem listedRooms_push {s t : CRender} (x : Option Nat)
    (hc : t.r_list_active_count = s.r_list_active_count + 1)
    (hl : ∀ i, i < s.r_list_active_count → t.r_list i = s.r_list i)
    (hx : (t.r_list s.r_list_active_count).room = x) :
    listedRooms t = listedRooms s ++ [x] := by
  unfold listedRooms
  rw [hc, List.range_succ, List.map_append, List.map_singleton, hx]
  congr 1
  apply List.map_congr_left
  intro i hi
  rw [hl i (List.mem_range.mp hi)]

theorem AddRoom_trace (k : Collab) (w : world_s) (cam : camera_s) (room : Nat)
    (s : CRender) : (AddRoom k w cam room s).2.trace = s.trace ++ [Event.add room] := by
  unfold AddRoom
  simp only [log_flag, log_count, log_size]
  split <;> [rfl; (split <;> rfl)]

theorem AddRoom_frustum (k : Collab) (w : world_s) (cam : camera_s) (room : Nat)
    (s : CRender) : (AddRoom k w cam room s).2.frustum = s.frustum := by
  unfold AddRoom
  simp only [log_flag, log_count, log_size]
  split <;> [rfl; (split <;> rfl)]

theorem AddRoom_size (k : Collab) (w : world_s) (cam : camera_s) (room : Nat)
    (s : CRender) : (AddRoom k w cam room s).2.r_list_size = s.r_list_size := by
  unfold AddRoom
  simp only [log_flag, log_count, log_size]
  split <;> [rfl; (split <;> rfl)]

theorem AddRoom_count (k : Collab) (w : world_s) (cam : camera_s) (room : Nat) (s : CRender) :
    (AddRoom k w cam room s).2.r_list_active_count =
      if AddRoom_pushes w room s then s.r_list_active_count + 1 else s.r_list_active_count := by
  unfold AddRoom AddRoom_pushes
  simp only [log_flag, log_count, log_size]
  by_cases h1 : s.is_in_r_list room = true <;> by_cases h2 : (w.rooms room).active = true <;>
    by_cases h3 : s.r_list_active_count < s.r_list_size <;> simp [h1, h2, h3, CRender.log]

theorem AddRoom_listed (k : Collab) (w : world_s) (cam : camera_s) (room : Nat) (s : CRender) :
    listedRooms (AddRoom k w cam room s).2 =
      if AddRoom_pushes w room s then listedRooms s ++ [some room] else listedRooms s := by
  by_cases hp : AddRoom_pushes w room s = true
  · rw [if_pos hp]
    have hp2 := hp
    simp only [AddRoom_pushes, Bool.and_eq_true, Bool.not_eq_true', decide_eq_true_eq] at hp2
    obtain ⟨⟨h1, h2⟩, h3⟩ := hp2
    apply listedRooms_push
    · rw [AddRoom_count, if_pos hp]
    · intro i hi
      have : i ≠ s.r_list_active_count := Nat.ne_of_lt hi
      simp [AddRoom, CRender.log, h1, h2, h3, this]
    · simp [AddRoom, CRender.log, h1, h2, h3]
  · rw [if_neg hp]
    apply listedRooms_congr
    · rw [AddRoom_count, if_neg hp]
    · intro i _
      simp only [AddRoom_pushes, Bool.and_eq_true, Bool.not_eq_true', decide_eq_true_eq,
        not_and, not_lt] at hp
      by_cases h1 : s.is_in_r_list room = true
      · simp [AddRoom, CRender.log, h1]
      · by_cases h2 : (w.rooms room).active = true
        · have h3 := hp ⟨by simpa using h1, h2⟩
          have h4 : ¬ s.r_list_active_count < s.r_list_size := Nat.not_lt.mpr h3
          simp [AddRoom, CRender.log, h1, h2, h4]
        · simp [AddRoom, CRender.log, h1, h2]

theorem AddRoom_flag (k : Collab) (w : world_s) (cam : camera_s) (room : Nat) (s : CRender)
    (x : Nat) :
    (AddRoom k w cam room s).2.is_in_r_list x =
      if x = room ∧ (w.rooms room).active = true then true else s.is_in_r_list x := by
  by_cases h1 : s.is_in_r_list room = true
  · by_cases hx : x = room
    · subst hx; simp [AddRoom, CRender.log, h1]
    · simp [AddRoom, CRender.log, h1, hx]
  · by_cases h2 : (w.rooms room).active = true
    · by_cases h3 : s.r_list_active_count < s.r_list_size <;> by_cases hx : x = room <;>
        simp [AddRoom, CRender.log, h1, h2, h3, hx]
    · by_cases hx : x = room <;> simp [AddRoom, CRender.log, h1, h2, hx]

theorem PFI_fst (k : Collab) (p : portal_s) (e : frustum_s) (s : CRender) :
    (PortalFrustumIntersect k p e s).1 =
      if k.clip s p e = true then some (frustum_s.clipped p e) else none := by
  unfold PortalFrustumIntersect
  split <;> rfl

theorem PFI_fail (k : Collab) (p : portal_s) (e : frustum_s) (s : CRender)
    (h : k.clip s p e = false) :
    PortalFrustumIntersect k p e s = (none, s.log (Event.clip p e false)) := by
  simp [PortalFrustumIntersect, h]

theorem PFI_trace (k : Collab) (p : portal_s) (e : frustum_s) (s : CRender) :
    (PortalFrustumIntersect k p e s).2.trace = s.trace ++ [Event.clip p e (k.clip s p e)] := by
  unfold PortalFrustumIntersect
  split <;> rename_i h
  · simp [CRender.log, h]
  · simp [CRender.log, Bool.not_eq_true _ ▸ h]

theorem PFI_r_list (k : Collab) (p : portal_s) (e : frustum_s) (s : CRender) :
    (PortalFrustumIntersect k p e s).2.r_list = s.r_list := by
  unfold PortalFrustumIntersect
  split <;> rfl

theorem PFI_count (k : Collab) (p : portal_s) (e : frustum_s) (s : CRender) :
    (PortalFrustumIntersect k p e s).2.r_list_active_count = s.r_list_active_count := by
  unfold PortalFrustumIntersect
  split <;> rfl

theorem PFI_size (k : Collab) (p : portal_s) (e : frustum_s) (s : CRender) :
    (PortalFrustumIntersect k p e s).2.r_list_size = s.r_list_size := by
  unfold PortalFrustumIntersect
  split <;> rfl

theorem PFI_flag (k : Collab) (p : portal_s) (e : frustum_s) (s : CRender) :
    (PortalFrustumIntersect k p e s).2.is_in_r_list = s.is_in_r_list := by
  unfold PortalFrustumIntersect
  split <;> rfl

theorem PFI_listed (k : Collab) (p : portal_s) (e : frustum_s) (s : CRender) :
    listedRooms (PortalFrustumIntersect k p e s).2 = listedRooms s := by
  unfold listedRooms
  rw [PFI_count, PFI_r_list]

theorem PFI_frustum (k : Collab) (p : portal_s) (e : frustum_s) (s : CRender) (x : Nat) :
    (PortalFrustumIntersect k p e s).2.frustum x =
      if k.clip s p e = true ∧ x = p.dest_room then s.frustum x ++ [frustum_s.clipped p e]
      else s.frustum x := by
  unfold PortalFrustumIntersect
  by_cases h : k.clip s p e = true <;> by_cases hx : x = p.dest_room <;>
    simp [h, hx, CRender.log]

theorem visit_fail (k : Collab) (w : world_s) (cam : camera_s)
    (run : portal_s → frustum_s → CRender → Option (Nat × CRender))
    (p : portal_s) (e : frustum_s) (s : CRender) (h : k.clip s p e = false) :
    visit k w cam run p e s = some (false, s.log (Event.clip p e false)) := by
  simp [visit, PFI_fail k p e s h]

theorem visit_succ (k : Collab) (w : world_s) (cam : camera_s)
    (run : portal_s → frustum_s → CRender → Option (Nat × CRender))
    (p : portal_s) (e : frustum_s) (s : CRender) (h : k.clip s p e = true) :
    visit k w cam run p e s =
      (run p (frustum_s.clipped p e) (enter k w cam p e s)).map (fun r => (true, r.2)) := by
  have h1 := PFI_fst k p e s
  rw [if_pos h] at h1
  unfold visit enter
  cases hq : PortalFrustumIntersect k p e s with
  | mk a b =>
    rw [hq] at h1
    simp only at h1
    subst h1
    simp only
    cases run p (frustum_s.clipped p e) (AddRoom k w cam p.dest_room b).2 with
    | none => rfl
    | some r => rfl

/-- What a successful clip of `p` against `e` followed by `AddRoom` adds to the trace. -/
theorem enter_trace (k : Collab) (w : world_s) (cam : camera_s) (p : portal_s) (e : frustum_s)
    (s : CRender) (h : k.clip s p e = true) :
    (enter k w cam p e s).trace = s.trace ++ [Event.clip p e true, Event.add p.dest_room] := by
  unfold enter
  rw [AddRoom_trace, PFI_trace, h]
  simp

/-! ## Induction over the walk -/

section Induct

variable {k : Collab} {w : world_s} {cam : camera_s} {P : CRender → Prop} {d : Nat}

theorem visit_induct
    {run : portal_s → frustum_s → CRender → Option (Nat × CRender)}
    (hfail : ∀ s p e, d ≤ e.depth →
      StepInfo w p e → P s → k.clip s p e = false →
      P (s.log (Event.clip p e false)))
    (hsucc : ∀ s p e, d ≤ e.depth →
      StepInfo w p e → P s → k.clip s p e = true →
      P ((enter k w cam p e s).log (Event.process p (frustum_s.clipped p e))))
    (hrun : ∀ p f s r, d ≤ f.depth → P (s.log (Event.process p f)) → run p f s = some r →
      P r.2)
    (p : portal_s) (e : frustum_s) (s : CRender) (r : Bool × CRender)
    (hd : d ≤ e.depth) (hg : StepInfo w p e) (hs : P s)
    (h : visit k w cam run p e s = some r) : P r.2 := by
  by_cases hc : k.clip s p e = true
  · rw [visit_succ k w cam run p e s hc] at h
    cases hr : run p (frustum_s.clipped p e) (enter k w cam p e s) with
    | none => rw [hr] at h; simp at h
    | some q =>
      rw [hr] at h
      simp only [Option.map_some', Option.some.injEq] at h
      subst h
      exact hrun p (frustum_s.clipped p e) _ q (Nat.le_succ_of_le hd) (hsucc s p e hd hg hs hc) hr
  · have hc2 : k.clip s p e = false := by simpa using hc
    rw [visit_fail k w cam run p e s hc2] at h
    simp only [Option.some.injEq] at h
    subst h
    exact hfail s p e hd hg hs hc2

theorem ProcessRoom_loop_induct
    {run : portal_s → frustum_s → CRender → Option (Nat × CRender)}
    (hfail : ∀ s p e, d ≤ e.depth →
      StepInfo w p e → P s → k.clip s p e = false →
      P (s.log (Event.clip p e false)))
    (hsucc : ∀ s p e, d ≤ e.depth →
      StepInfo w p e → P s → k.clip s p e = true →
      P ((enter k w cam p e s).log (Event.process p (frustum_s.clipped p e))))
    (hrun : ∀ p f s r, d ≤ f.depth → P (s.log (Event.process p f)) → run p f s = some r →
      P r.2)
    (src : Nat) (frus : frustum_s) (hd : d ≤ frus.depth) :
    ∀ (l : List portal_s), (∀ p ∈ l, ∃ x, p ∈ (w.rooms x).portals) →
      ∀ (acc r : Nat × CRender), P acc.2 →
      l.foldlM (ProcessRoom_round k w cam run src frus) acc = some r → P r.2 := by
  intro l
  induction l with
  | nil =>
    intro _ acc r hs h
    simp only [List.foldlM_nil, pure, Option.some.injEq] at h
    subst h
    exact hs
  | cons p l ih =>
    intro hl acc r hs h
    rw [List.foldlM_cons] at h
    cases hq : ProcessRoom_round k w cam run src frus acc p with
    | none => rw [hq] at h; simp at h
    | some q =>
      rw [hq] at h
      simp only [Option.some_bind, bind] at h
      refine ih (fun p' hp' => hl p' (List.mem_cons_of_mem _ hp')) q r ?_ h
      unfold ProcessRoom_round at hq
      split at hq
      · rename_i hcond
        have hact : (w.rooms p.dest_room).active = true := by
          simp only [Bool.and_eq_true] at hcond
          exact hcond.1
        cases hv : visit k w cam run p frus acc.2 with
        | none => rw [hv] at hq; simp at hq
        | some v =>
          have hv2 := visit_induct hfail hsucc hrun p frus acc.2 v hd
            ⟨fun _ => hact, hl p (List.mem_cons_self _ _)⟩ hs hv
          rw [hv] at hq
          obtain ⟨b, t⟩ := v
          cases b <;> simp only [Option.some.injEq] at hq <;> subst hq <;> exact hv2
      · simp only [Option.some.injEq] at hq
        subst hq
        exact hs

/-- Induction over a call of `ProcessRoom`: a property of the state that survives a clip
that fails and a clip that succeeds followed by `AddRoom` and the entry into `ProcessRoom`
holds when the call returns.  `d` bounds from below the depth of the parent frustums. -/
theorem ProcessRoom_induct
    (hfail : ∀ s p e, d ≤ e.depth →
      StepInfo w p e → P s → k.clip s p e = false →
      P (s.log (Event.clip p e false)))
    (hsucc : ∀ s p e, d ≤ e.depth →
      StepInfo w p e → P s → k.clip s p e = true →
      P ((enter k w cam p e s).log (Event.process p (frustum_s.clipped p e)))) :
    ∀ (fuel : Nat) (portal : portal_s) (frus : frustum_s) (s : CRender) (r : Nat × CRender),
      d ≤ frus.depth → P (s.log (Event.process portal frus)) →
      ProcessRoom k w cam fuel portal frus s = some r → P r.2 := by
  intro fuel
  induction fuel with
  | zero => intro portal frus s r _ _ h; simp [ProcessRoom] at h
  | succ n ih =>
    intro portal frus s r hd hs h
    rw [ProcessRoom] at h
    split at h
    · simp only [Option.some.injEq] at h
      subst h
      exact hs
    · exact ProcessRoom_loop_induct hfail hsucc ih _ frus hd _ (fun _ hp => ⟨_, hp⟩) _ _ hs h

end Induct

section Induct2

variable {k : Collab} {w : world_s} {cam : camera_s} {P : CRender → Prop}

theorem GenWorldList_loop_induct
    (hfail : ∀ s p e, 0 ≤ e.depth →
      StepInfo w p e → P s → k.clip s p e = false →
      P (s.log (Event.clip p e false)))
    (hsucc : ∀ s p e, 0 ≤ e.depth →
      StepInfo w p e → P s → k.clip s p e = true →
      P ((enter k w cam p e s).log (Event.process p (frustum_s.clipped p e))))
    (fuel : Nat) :
    ∀ (l : List portal_s), (∀ p ∈ l, ∃ x, p ∈ (w.rooms x).portals) →
      ∀ (s r : CRender), P s →
      l.foldlM (GenWorldList_round k w cam fuel) s = some r → P r := by
  intro l
  induction l with
  | nil =>
    intro _ s r hs h
    simp only [List.foldlM_nil, pure, Option.some.injEq] at h
    subst h
    exact hs
  | cons p l ih =>
    intro hl s r hs h
    rw [List.foldlM_cons] at h
    cases hq : GenWorldList_round k w cam fuel s p with
    | none => rw [hq] at h; simp at h
    | some q =>
      rw [hq] at h
      simp only [Option.some_bind, bind] at h
      refine ih (fun p' hp' => hl p' (List.mem_cons_of_mem _ hp')) q r ?_ h
      unfold GenWorldList_round at hq
      cases hv : visit k w cam (ProcessRoom k w cam fuel) p frustum_s.camera s with
      | none => rw [hv] at hq; simp at hq
      | some v =>
        have hv2 := visit_induct hfail hsucc
          (ProcessRoom_induct hfail hsucc fuel) p frustum_s.camera s v (Nat.zero_le _)
          ⟨fun h0 => absurd h0 (Nat.lt_irrefl 0), hl p (List.mem_cons_self _ _)⟩ hs hv
        rw [hv] at hq
        simp only [Option.some.injEq] at hq
        subst hq
        exact hv2

/-- Induction over the portal walk of a frame, started in the camera's room `c`. -/
theorem GenWorldList_induct
    (hfail : ∀ s p e, 0 ≤ e.depth →
      StepInfo w p e → P s → k.clip s p e = false →
      P (s.log (Event.clip p e false)))
    (hsucc : ∀ s p e, 0 ≤ e.depth →
      StepInfo w p e → P s → k.clip s p e = true →
      P ((enter k w cam p e s).log (Event.process p (frustum_s.clipped p e))))
    {fuel c : Nat} {s s' : CRender} (hw : s.m_world = some w)
    (hc : k.Room_FindPosCogerrence cam = some c)
    (h0 : P (GenWorldList_first k w cam c s))
    (h : GenWorldList k cam fuel s = some s') : P s' := by
  unfold GenWorldList at h
  rw [hw] at h
  simp only [hc] at h
  exact GenWorldList_loop_induct hfail hsucc fuel _ (fun _ hp => ⟨_, hp⟩) _ _ h0 h

/-- The full scan of a frame in which no room holds the camera. -/
theorem GenWorldList_none {fuel : Nat} {s : CRender} (hw : s.m_world = some w)
    (hc : k.Room_FindPosCogerrence cam = none) :
    GenWorldList k cam fuel s =
      some ((List.range w.room_count).foldl (GenWorldList_scan k w cam)
        (GenWorldList_begin k cam s)) := by
  unfold GenWorldList
  rw [hw]
  simp only [hc]

end Induct2

/-! ## The Render List invariant -/

theorem ListOK_of_empty {s : CRender} (h : s.r_list_active_count = 0) : ListOK s := by
  have : listedRooms s = [] := by simp [listedRooms, h]
  simp [ListOK, this]

theorem ListOK_log {s : CRender} (e : Event) (h : ListOK s) : ListOK (s.log e) := h

theorem ListOK_PFI {s : CRender} (k : Collab) (p : portal_s) (e : frustum_s) (h : ListOK s) :
    ListOK (PortalFrustumIntersect k p e s).2 := by
  unfold ListOK
  rw [PFI_listed, PFI_flag]
  exact h

theorem AddRoom_pushes_flag {w : world_s} {room : Nat} {s : CRender}
    (h : AddRoom_pushes w room s = true) :
    s.is_in_r_list room = false ∧ (w.rooms room).active = true ∧
      s.r_list_active_count < s.r_list_size := by
  simp only [AddRoom_pushes, Bool.and_eq_true, Bool.not_eq_true', decide_eq_true_eq] at h
  exact ⟨h.1.1, h.1.2, h.2⟩

theorem ListOK_AddRoom {s : CRender} (k : Collab) (w : world_s) (cam : camera_s) (room : Nat)
    (h : ListOK s) : ListOK (AddRoom k w cam room s).2 := by
  obtain ⟨h1, h2, h3⟩ := h
  unfold ListOK
  rw [AddRoom_listed]
  by_cases hp : AddRoom_pushes w room s = true
  · obtain ⟨hf, ha, _⟩ := AddRoom_pushes_flag hp
    have hnot : some room ∉ listedRooms s := by
      intro hm
      rw [h3 room hm] at hf
      exact Bool.noConfusion hf
    rw [if_pos hp]
    refine ⟨?_, ?_, ?_⟩
    · exact List.Nodup.append h1 (List.nodup_singleton _) (by simpa using hnot)
    · simpa using h2
    · intro r hr
      rw [AddRoom_flag]
      rcases List.mem_append.mp hr with hr | hr
      · rw [h3 r hr]; simp
      · simp only [List.mem_singleton, Option.some.injEq] at hr
        simp [hr, ha]
  · rw [if_neg hp]
    refine ⟨h1, h2, ?_⟩
    intro r hr
    rw [AddRoom_flag, h3 r hr]
    simp

theorem ListOK_enter {s : CRender} (k : Collab) (w : world_s) (cam : camera_s) (p : portal_s)
    (e : frustum_s) (h : ListOK s) : ListOK (enter k w cam p e s) :=
  ListOK_AddRoom k w cam _ (ListOK_PFI k p e h)

theorem CleanList_count (k : Collab) (s : CRender) : (CleanList k s).r_list_active_count = 0 :=
  rfl

theorem ListOK_first (k : Collab) (w : world_s) (cam : camera_s) (c : Nat) (s : CRender) :
    ListOK (GenWorldList_first k w cam c s) := by
  unfold GenWorldList_first
  exact ListOK_AddRoom k w cam c (ListOK_of_empty rfl)

theorem ListOK_scan (k : Collab) (w : world_s) (cam : camera_s) :
    ∀ (l : List Nat) (s : CRender), ListOK s →
      ListOK (l.foldl (GenWorldList_scan k w cam) s) := by
  intro l
  induction l with
  | nil => intro s h; exact h
  | cons i l ih =>
    intro s h
    rw [List.foldl_cons]
    apply ih
    unfold GenWorldList_scan
    split
    · exact ListOK_AddRoom k w cam i h
    · exact h

/-- During and after every frame the Render List satisfies `ListOK`. -/
theorem ListOK_GenWorldList {k : Collab} {w : world_s} {cam : camera_s} {fuel : Nat}
    {s s' : CRender} (hw : s.m_world = some w) (h : GenWorldList k cam fuel s = some s') :
    ListOK s' := by
  cases hc : k.Room_FindPosCogerrence cam with
  | some c =>
    exact GenWorldList_induct (P := ListOK) (fun s p e _ _ hs _ => ListOK_log _ hs)
      (fun s p e _ _ hs _ => ListOK_log _ (ListOK_enter k w cam p e hs)) hw hc
      (ListOK_first k w cam c s) h
  | none =>
    rw [GenWorldList_none hw hc] at h
    simp only [Option.some.injEq] at h
    subst h
    exact ListOK_scan k w cam _ _ (ListOK_of_empty rfl)

/-- C1. After `GenWorldList` on an installed world, the Render List entries
`r_list[0 .. r_list_active_count)` all hold a room and these rooms are pairwise distinct,
whatever the portals and the outcomes of the clips are, so however many portal paths
(calls of `AddRoom`) reach the same room. -/
theorem C1_render_list_rooms_distinct (k : Collab) (w : world_s) (cam : camera_s) (fuel : Nat)
    (s s' : CRender) (hw : s.m_world = some w) (h : GenWorldList k cam fuel s = some s') :
    (listedRooms s').Nodup ∧ none ∉ listedRooms s' :=
  ⟨(ListOK_GenWorldList hw h).1, (ListOK_GenWorldList hw h).2.1⟩

/-! ## What `CleanList` resets -/

theorem CleanList_fold (l : List Nat) :
    ∀ (s : CRender), l.Nodup →
      (∀ x, (l.foldl CleanList_step s).is_in_r_list x =
        if some x ∈ l.map (fun i => (s.r_list i).room) then false else s.is_in_r_list x) ∧
      (∀ x, (l.foldl CleanList_step s).frustum x =
        if some x ∈ l.map (fun i => (s.r_list i).room) then [] else s.frustum x) ∧
      (∀ j, j ∉ l → (l.foldl CleanList_step s).r_list j = s.r_list j) ∧
      (l.foldl CleanList_step s).r_list_size = s.r_list_size ∧
      (l.foldl CleanList_step s).m_world = s.m_world := by
  induction l with
  | nil => intro s _; simp
  | cons i l ih =>
    intro s hnd
    obtain ⟨hi, hl⟩ := List.nodup_cons.mp hnd
    obtain ⟨h1, h2, h3, h4, h5⟩ := ih (CleanList_step s i) hl
    have hmap : l.map (fun j => ((CleanList_step s i).r_list j).room) =
        l.map (fun j => (s.r_list j).room) := by
      apply List.map_congr_left
      intro j hj
      have : j ≠ i := fun hji => hi (hji ▸ hj)
      simp [CleanList_step, this]
    rw [List.foldl_cons]
    refine ⟨?_, ?_, ?_, ?_, ?_⟩
    · intro x
      rw [h1 x, hmap]
      by_cases hx : some x = (s.r_list i).room
      · simp [CleanList_step, hx]
      · simp only [List.map_cons, List.mem_cons, hx, false_or]
        simp [CleanList_step, hx]
    · intro x
      rw [h2 x, hmap]
      by_cases hx : some x = (s.r_list i).room
      · simp [CleanList_step, hx]
      · simp only [List.map_cons, List.mem_cons, hx, false_or]
        simp [CleanList_step, hx]
    · intro j hj
      have hj1 : j ≠ i := fun h => hj (h ▸ List.mem_cons_self _ _)
      have hj2 : j ∉ l := fun h => hj (List.mem_cons_of_mem _ h)
      rw [h3 j hj2]
      simp [CleanList_step, hj1]
    · rw [h4]; rfl
    · rw [h5]; rfl

theorem CleanList_character_same (s : CRender) :
    (CleanList_character s).r_list = s.r_list ∧
    (CleanList_character s).r_list_active_count = s.r_list_active_count ∧
    (CleanList_character s).is_in_r_list = s.is_in_r_list ∧
    (CleanList_character s).frustum = s.frustum ∧
    (CleanList_character s).r_list_size = s.r_list_size ∧
    (CleanList_character s).m_world = s.m_world := by
  unfold CleanList_character
  split
  · split <;> exact ⟨rfl, rfl, rfl, rfl, rfl, rfl⟩
  · exact ⟨rfl, rfl, rfl, rfl, rfl, rfl⟩

/-- The per-frame fields after `CleanList`: reset for the listed rooms, kept for the
others. -/
theorem CleanList_spec (k : Collab) (s : CRender) :
    (∀ x, (CleanList k s).is_in_r_list x =
      if some x ∈ listedRooms s then false else s.is_in_r_list x) ∧
    (∀ x, (CleanList k s).frustum x = if some x ∈ listedRooms s then [] else s.frustum x) ∧
    (CleanList k s).r_list_size = s.r_list_size ∧
    (CleanList k s).m_world = s.m_world := by
  obtain ⟨e1, e2, e3, e4, e5, e6⟩ := CleanList_character_same s
  obtain ⟨h1, h2, _, h4, h5⟩ :=
    CleanList_fold (List.range (CleanList_character s).r_list_active_count)
      (CleanList_character s) (List.nodup_range _)
  unfold listedRooms
  rw [← e1, ← e2, ← e3, ← e4, ← e5, ← e6]
  exact ⟨h1, h2, h4, h5⟩

theorem begin_count (k : Collab) (cam : camera_s) (s : CRender) :
    (GenWorldList_begin k cam s).r_list_active_count = 0 := rfl

theorem begin_trace (k : Collab) (cam : camera_s) (s : CRender) :
    (GenWorldList_begin k cam s).trace = [] := rfl

theorem begin_listed (k : Collab) (cam : camera_s) (s : CRender) :
    listedRooms (GenWorldList_begin k cam s) = [] := rfl

theorem begin_size (k : Collab) (cam : camera_s) (s : CRender) :
    (GenWorldList_begin k cam s).r_list_size = s.r_list_size :=
  (CleanList_spec k s).2.2.1

/-- A frame that starts from a tidy state starts with no room flagged and the chains of the
active rooms empty. -/
theorem begin_clean (k : Collab) (cam : camera_s) {w : world_s} {s : CRender} (h : Tidy w s)
    (x : Nat) :
    (GenWorldList_begin k cam s).is_in_r_list x = false ∧
      ((w.rooms x).active = true → (GenWorldList_begin k cam s).frustum x = []) := by
  have h1 : (GenWorldList_begin k cam s).is_in_r_list x = (CleanList k s).is_in_r_list x := rfl
  have h2 : (GenWorldList_begin k cam s).frustum x = (CleanList k s).frustum x := rfl
  rw [h1, h2, (CleanList_spec k s).1 x, (CleanList_spec k s).2.1 x]
  by_cases hm : some x ∈ listedRooms s
  · simp [hm]
  · rw [if_neg hm, if_neg hm]
    constructor
    · by_contra hf
      exact hm (h.1 x (by simpa using hf))
    · intro ha
      by_contra hf
      exact hm (h.2 x ha hf)

/-! ## States to start a frame from -/

/-- The renderer is tidy after its construction and `SetWorld`. -/
theorem Tidy_installed (k : Collab) (w : world_s) : Tidy w (installed k w) := by
  constructor
  · intro r h
    exfalso
    have : (installed k w).is_in_r_list r = false := by
      show (if r < w.room_count then false else false) = false
      split <;> rfl
    rw [this] at h
    exact Bool.noConfusion h
  · intro r _ h
    exact absurd rfl h

theorem installed_world (k : Collab) (w : world_s) : (installed k w).m_world = some w := rfl

theorem installed_size (k : Collab) (w : world_s) (h : w.room_count + 128 < 2 ^ 32) :
    (installed k w).r_list_size = w.room_count + 128 :=
  Nat.mod_eq_of_lt h

/-- C1, witness: the diamond, where two portal paths reach room 2. -/
theorem C1_render_list_rooms_distinct_witness :
    ∃ s', GenWorldList (scene fun _ _ => true) camera0 4
        (installed (scene fun _ _ => true) diamond) = some s' ∧
      (listedRooms s').Nodup ∧ none ∉ listedRooms s' := by
  cases h : GenWorldList (scene fun _ _ => true) camera0 4
      (installed (scene fun _ _ => true) diamond) with
  | none =>
    have hs : (GenWorldList (scene fun _ _ => true) camera0 4
      (installed (scene fun _ _ => true) diamond)).isSome = true := by decide
    rw [h] at hs
    exact Bool.noConfusion hs
  | some s' =>
    exact ⟨s', rfl, C1_render_list_rooms_distinct _ diamond camera0 4 _ s'
      (installed_world _ _) h⟩

/-! ## The camera's room -/

theorem AddRoom_r_list_lt (k : Collab) (w : world_s) (cam : camera_s) (room : Nat)
    (s : CRender) (i : Nat) (hi : i < s.r_list_active_count) :
    (AddRoom k w cam room s).2.r_list i = s.r_list i := by
  have hne : i ≠ s.r_list_active_count := Nat.ne_of_lt hi
  by_cases h1 : s.is_in_r_list room = true
  · simp [AddRoom, CRender.log, h1]
  · by_cases h2 : (w.rooms room).active = true
    · by_cases h3 : s.r_list_active_count < s.r_list_size <;>
        simp [AddRoom, CRender.log, h1, h2, h3, hne]
    · simp [AddRoom, CRender.log, h1, h2]

theorem AddRoom_count_le (k : Collab) (w : world_s) (cam : camera_s) (room : Nat)
    (s : CRender) : s.r_list_active_count ≤ (AddRoom k w cam room s).2.r_list_active_count := by
  rw [AddRoom_count]
  split <;> omega

theorem clipsInto_append (c : Nat) (t u : List Event) :
    clipsInto c (t ++ u) = clipsInto c t ++ clipsInto c u := by
  simp [clipsInto, List.filterMap_append]

theorem clipsInto_nil_iff (c : Nat) (t : List Event) :
    clipsInto c t = [] ↔ ∀ p e, Event.clip p e true ∈ t → p.dest_room ≠ c := by
  induction t with
  | nil => simp [clipsInto]
  | cons ev t ih =>
    have hcons : clipsInto c (ev :: t) = clipsInto c [ev] ++ clipsInto c t :=
      clipsInto_append c [ev] t
    rw [hcons, List.append_eq_nil, ih]
    constructor
    · rintro ⟨h1, h2⟩ p e hm
      rcases List.mem_cons.mp hm with hm | hm
      · subst hm
        intro hd
        simp [clipsInto, hd] at h1
      · exact h2 p e hm
    · intro h
      refine ⟨?_, fun p e hm => h p e (List.mem_cons_of_mem _ hm)⟩
      cases ev with
      | clip p e b =>
        cases b with
        | false => simp [clipsInto]
        | true =>
          have := h p e (List.mem_cons_self _ _)
          simp [clipsInto, this]
      | add r => simp [clipsInto]
      | process p f => simp [clipsInto]

theorem CameraRoomOK_fail (c : Nat) (s : CRender) (p : portal_s) (e : frustum_s)
    (h : CameraRoomOK c s) : CameraRoomOK c (s.log (Event.clip p e false)) := by
  obtain ⟨h1, h2⟩ := h
  refine ⟨h1, ?_⟩
  rw [log_frustum, log_trace, clipsInto_append, h2]
  simp [clipsInto]

theorem CameraRoomOK_succ (k : Collab) (w : world_s) (cam : camera_s) (c : Nat) (s : CRender)
    (p : portal_s) (e : frustum_s) (h : CameraRoomOK c s) (hc : k.clip s p e = true) :
    CameraRoomOK c ((enter k w cam p e s).log (Event.process p (frustum_s.clipped p e))) := by
  obtain ⟨⟨h0, h1⟩, h2⟩ := h
  refine ⟨⟨?_, ?_⟩, ?_⟩
  · rw [log_count]
    unfold enter
    exact Nat.lt_of_lt_of_le (by rw [PFI_count]; exact h0) (AddRoom_count_le _ _ _ _ _)
  · rw [log_r_list]
    unfold enter
    rw [AddRoom_r_list_lt _ _ _ _ _ 0 (by rw [PFI_count]; exact h0), PFI_r_list]
    exact h1
  · rw [log_frustum, log_trace, enter_trace k w cam p e s hc]
    unfold enter
    rw [AddRoom_frustum, PFI_frustum, clipsInto_append, clipsInto_append, ← h2]
    by_cases hd : p.dest_room = c
    · simp [clipsInto, hc, hd]
    · have hd2 : ¬ c = p.dest_room := fun h => hd h.symm
      simp [clipsInto, hd, hd2]

theorem CameraRoomOK_first (k : Collab) (w : world_s) (cam : camera_s) (c : Nat) (s : CRender)
    (hact : (w.rooms c).active = true) (hcap : 0 < s.r_list_size) (ht : Tidy w s) :
    CameraRoomOK c (GenWorldList_first k w cam c s) := by
  have hpush : AddRoom_pushes w c
      { GenWorldList_begin k cam s with
        frustum := fun x => if x = c then [] else (GenWorldList_begin k cam s).frustum x
        max_path := fun x => if x = c then 0 else (GenWorldList_begin k cam s).max_path x }
      = true := by
    have hf := (begin_clean k cam ht c).1
    have hs := begin_size k cam s
    simp only [AddRoom_pushes, Bool.and_eq_true, Bool.not_eq_true', decide_eq_true_eq]
    exact ⟨⟨hf, hact⟩, by rw [begin_count]; exact hs ▸ hcap⟩
  unfold GenWorldList_first
  refine ⟨⟨?_, ?_⟩, ?_⟩
  · rw [AddRoom_count, if_pos hpush]
    exact Nat.succ_pos _
  · obtain ⟨hf, _, hlt⟩ := AddRoom_pushes_flag hpush
    simp only at hf hlt
    have hlt2 : 0 < (GenWorldList_begin k cam s).r_list_size := hlt
    have hf2 : (GenWorldList_begin k cam s).is_in_r_list c = false := hf
    simp [AddRoom, CRender.log, hf2, hact, hlt2, begin_count]
  · rw [AddRoom_frustum, AddRoom_trace]
    simp [clipsInto, begin_trace]

/-- C2, as amended.  When the room locator finds an active room `c`, and the frame starts
from a tidy renderer with room in its list (as after `SetWorld`), then after `GenWorldList`
room `c` is in the Render List, as its first entry, and its frustum chain is empty at the
end of the walk if no clip of the walk into `c` has succeeded, that is, if no portal path
clipped back into the camera's room. -/
theorem C2_camera_room_listed (k : Collab) (w : world_s) (cam : camera_s) (fuel c : Nat)
    (s s' : CRender) (hw : s.m_world = some w) (hc : k.Room_FindPosCogerrence cam = some c)
    (hact : (w.rooms c).active = true) (hcap : 0 < s.r_list_size) (ht : Tidy w s)
    (h : GenWorldList k cam fuel s = some s') :
    some c ∈ listedRooms s' ∧ (s'.r_list 0).room = some c ∧
      ((∀ p e, Event.clip p e true ∈ s'.trace → p.dest_room ≠ c) → s'.frustum c = []) := by
  have hP : CameraRoomOK c s' :=
    GenWorldList_induct (P := CameraRoomOK c)
      (fun s p e _ _ hs _ => CameraRoomOK_fail c s p e hs)
      (fun s p e _ _ hs hcl => CameraRoomOK_succ k w cam c s p e hs hcl) hw hc
      (CameraRoomOK_first k w cam c s hact hcap ht) h
  obtain ⟨⟨h0, h1⟩, h2⟩ := hP
  refine ⟨?_, h1, ?_⟩
  · unfold listedRooms
    exact List.mem_map.mpr ⟨0, List.mem_range.mpr h0, h1⟩
  · intro hno
    rw [h2]
    exact (clipsInto_nil_iff c s'.trace).mpr hno

/-- C2, witness: the corridor with every clip succeeding. -/
theorem C2_camera_room_listed_witness :
    ∃ s', GenWorldList (scene fun _ _ => true) camera0 4
        (installed (scene fun _ _ => true) corridor) = some s' ∧
      (some 0 ∈ listedRooms s' ∧ (s'.r_list 0).room = some 0 ∧
        ((∀ p e, Event.clip p e true ∈ s'.trace → p.dest_room ≠ 0) → s'.frustum 0 = [])) := by
  obtain ⟨s', h⟩ := Option.isSome_iff_exists.mp
    (show (GenWorldList (scene fun _ _ => true) camera0 4
      (installed (scene fun _ _ => true) corridor)).isSome = true by decide)
  exact ⟨s', h, C2_camera_room_listed (scene fun _ _ => true) corridor camera0 4 0 _ s'
    rfl rfl rfl (by decide) (Tidy_installed _ _) h⟩

/-- C2, counterexample.  In the triangle 0 → 1 → 2 → 0, with the clips succeeding along
that path, the camera's room 0 is found and listed, and at the end of the walk its chain
holds the frustum of the clip of 2 → 0.  In the world whose room 0 is not active, room 0 is
found and is not in the Render List. -/
theorem C2_counterexample :
    (GenWorldList (scene fun _ e => decide (e.depth < 3)) camera0 4
        (installed (scene fun _ e => decide (e.depth < 3)) triangle)).map
      (fun s => (listedRooms s, s.frustum 0)) =
      some ([some 0, some 1, some 2],
        [frustum_s.clipped (door 2 0) (frustum_s.clipped (door 1 2)
          (frustum_s.clipped (door 0 1) frustum_s.camera))]) ∧
    (GenWorldList (scene fun _ _ => true) camera0 4
        (installed (scene fun _ _ => true) closed)).map listedRooms = some [] := by
  constructor <;> decide

/-! ## One call of `ProcessRoom` per successful clip -/

theorem processCalls_append (t u : List Event) :
    processCalls (t ++ u) = processCalls t ++ processCalls u := by
  simp [processCalls, List.filterMap_append]

theorem clipsDone_append (t u : List Event) :
    clipsDone (t ++ u) = clipsDone t ++ clipsDone u := by
  simp [clipsDone, List.filterMap_append]

theorem first_trace (k : Collab) (w : world_s) (cam : camera_s) (c : Nat) (s : CRender) :
    (GenWorldList_first k w cam c s).trace = [Event.add c] := by
  show (AddRoom k w cam c _).2.trace = [Event.add c]
  rw [AddRoom_trace]
  rfl

theorem calls_scan (k : Collab) (w : world_s) (cam : camera_s) :
    ∀ (l : List Nat) (s : CRender), processCalls s.trace = clipsDone s.trace →
      processCalls (l.foldl (GenWorldList_scan k w cam) s).trace =
        clipsDone (l.foldl (GenWorldList_scan k w cam) s).trace := by
  intro l
  induction l with
  | nil => intro s h; exact h
  | cons i l ih =>
    intro s h
    rw [List.foldl_cons]
    apply ih
    unfold GenWorldList_scan
    split
    · rw [AddRoom_trace, processCalls_append, clipsDone_append, h]
      simp [processCalls, clipsDone]
    · exact h

/-- C3, as amended.  Within one `GenWorldList` call, `ProcessRoom` is called once for every
successful clip, in the same order and with the clipped portal and the new frustum,
whatever the `is_in_r_list` flag of the destination is: the flag gates only the entry into
the Render List (`AddRoom`).  So a room is expanded once per successful clip into it that
passes the activity test of `ProcessRoom`, not at most once. -/
theorem C3_expansion_per_clip (k : Collab) (w : world_s) (cam : camera_s) (fuel : Nat)
    (s s' : CRender) (hw : s.m_world = some w) (h : GenWorldList k cam fuel s = some s') :
    processCalls s'.trace = clipsDone s'.trace ∧
      ∀ r, expansions w r s'.trace = ((clipsDone s'.trace).filter (expands w r)).length := by
  have key : processCalls s'.trace = clipsDone s'.trace := by
    cases hc : k.Room_FindPosCogerrence cam with
    | some c =>
      refine GenWorldList_induct (P := fun s => processCalls s.trace = clipsDone s.trace)
        ?_ ?_ hw hc ?_ h
      · intro s p e _ _ hs _
        rw [log_trace, processCalls_append, clipsDone_append, hs]
        simp [processCalls, clipsDone]
      · intro s p e _ _ hs hcl
        rw [log_trace, enter_trace k w cam p e s hcl, processCalls_append, processCalls_append,
          clipsDone_append, clipsDone_append, hs]
        simp [processCalls, clipsDone]
      · show processCalls (GenWorldList_first k w cam c s).trace =
          clipsDone (GenWorldList_first k w cam c s).trace
        rw [first_trace]
        simp [processCalls, clipsDone]
    | none =>
      rw [GenWorldList_none hw hc] at h
      simp only [Option.some.injEq] at h
      subst h
      exact calls_scan k w cam _ _ rfl
  refine ⟨key, fun r => ?_⟩
  unfold expansions
  rw [key]

/-- C3, witness: the diamond with every clip succeeding. -/
theorem C3_expansion_per_clip_witness :
    ∃ s', GenWorldList (scene fun _ _ => true) camera0 4
        (installed (scene fun _ _ => true) diamond) = some s' ∧
      (processCalls s'.trace = clipsDone s'.trace ∧
        ∀ r, expansions diamond r s'.trace =
          ((clipsDone s'.trace).filter (expands diamond r)).length) := by
  obtain ⟨s', h⟩ := Option.isSome_iff_exists.mp
    (show (GenWorldList (scene fun _ _ => true) camera0 4
      (installed (scene fun _ _ => true) diamond)).isSome = true by decide)
  exact ⟨s', h, C3_expansion_per_clip (scene fun _ _ => true) diamond camera0 4 _ s'
    (installed_world _ _) h⟩

/-- C3, counterexample.  In the diamond with every clip succeeding, room 2 is reached along
0 → 1 → 2 and along 0 → 2: it is expanded twice in the one `GenWorldList` call, and its
portal 2 → 3 is clipped both times, although it is listed once. -/
theorem C3_counterexample :
    (GenWorldList (scene fun _ _ => true) camera0 4
        (installed (scene fun _ _ => true) diamond)).map
      (fun s => (expansions diamond 2 s.trace,
        (s.trace.filter fun ev =>
          match ev with
          | Event.clip p _ _ => decide (p = door 2 3)
          | _ => false).length,
        listedRooms s)) =
      some (2, 2, [some 0, some 1, some 2, some 3]) := by
  decide

/-! ## Termination of the walk -/

theorem ProcessRoom_succ_eq (k : Collab) (w : world_s) (cam : camera_s) (fuel : Nat)
    (portal : portal_s) (frus : frustum_s) (s : CRender)
    (h1 : (w.rooms portal.current_room).active = true)
    (h2 : (w.rooms portal.dest_room).active = true) :
    ProcessRoom k w cam (fuel + 1) portal frus s =
      (w.rooms portal.dest_room).portals.foldlM
        (ProcessRoom_round k w cam (ProcessRoom k w cam fuel) portal.current_room frus)
        (0, s.log (Event.process portal frus)) := by
  rw [ProcessRoom]
  simp [h1, h2]

theorem ProcessRoom_round_go (k : Collab) (w : world_s) (cam : camera_s)
    (run : portal_s → frustum_s → CRender → Option (Nat × CRender))
    (src : Nat) (frus : frustum_s) (acc : Nat × CRender) (p : portal_s)
    (hg : (w.rooms p.dest_room).active = true) (hne : p.dest_room ≠ src)
    (hc : k.clip acc.2 p frus = true) :
    ProcessRoom_round k w cam run src frus acc p =
      (run p (frustum_s.clipped p frus) (enter k w cam p frus acc.2)).map
        (fun r => (acc.1 + 1, r.2)) := by
  unfold ProcessRoom_round
  rw [visit_succ k w cam run p frus acc.2 hc]
  have hb : ((w.rooms p.dest_room).active && p.dest_room != src) = true := by
    simp [hg, hne]
  rw [if_pos hb]
  cases run p (frustum_s.clipped p frus) (enter k w cam p frus acc.2) <;> rfl

theorem ProcessRoom_round_fail (k : Collab) (w : world_s) (cam : camera_s)
    (run : portal_s → frustum_s → CRender → Option (Nat × CRender))
    (src : Nat) (frus : frustum_s) (acc : Nat × CRender) (p : portal_s)
    (hg : (w.rooms p.dest_room).active = true) (hne : p.dest_room ≠ src)
    (hc : k.clip acc.2 p frus = false) :
    ProcessRoom_round k w cam run src frus acc p =
      some (acc.1, acc.2.log (Event.clip p frus false)) := by
  unfold ProcessRoom_round
  rw [visit_fail k w cam run p frus acc.2 hc]
  simp [hg, hne]

theorem ProcessRoom_round_skip (k : Collab) (w : world_s) (cam : camera_s)
    (run : portal_s → frustum_s → CRender → Option (Nat × CRender))
    (src : Nat) (frus : frustum_s) (acc : Nat × CRender) (p : portal_s)
    (h : (w.rooms p.dest_room).active = false ∨ p.dest_room = src) :
    ProcessRoom_round k w cam run src frus acc p = some acc := by
  unfold ProcessRoom_round
  rcases h with h | h <;> simp [h]

theorem GenWorldList_round_go (k : Collab) (w : world_s) (cam : camera_s) (fuel : Nat)
    (s : CRender) (p : portal_s) (hc : k.clip s p frustum_s.camera = true) :
    GenWorldList_round k w cam fuel s p =
      (ProcessRoom k w cam fuel p (frustum_s.clipped p frustum_s.camera)
        (enter k w cam p frustum_s.camera s)).map Prod.snd := by
  unfold GenWorldList_round
  rw [visit_succ k w cam _ p _ s hc]
  cases ProcessRoom k w cam fuel p (frustum_s.clipped p frustum_s.camera)
    (enter k w cam p frustum_s.camera s) <;> rfl

theorem GenWorldList_round_fail (k : Collab) (w : world_s) (cam : camera_s) (fuel : Nat)
    (s : CRender) (p : portal_s) (hc : k.clip s p frustum_s.camera = false) :
    GenWorldList_round k w cam fuel s p = some (s.log (Event.clip p frustum_s.camera false)) := by
  unfold GenWorldList_round
  rw [visit_fail k w cam _ p _ s hc]

theorem walkBlocks_append (u : List Event) (hu : walkBlocks u = true) :
    ∀ t : List Event, walkBlocks t = true → walkBlocks (t ++ u) = true := by
  intro t
  induction t using walkBlocks.induct with
  | case1 => intro _; exact hu
  | case2 p e t ih =>
    intro h
    simp only [walkBlocks] at h
    simp only [List.cons_append, walkBlocks]
    exact ih h
  | case3 p e r q f t ih =>
    intro h
    simp only [walkBlocks, Bool.and_eq_true] at h
    simp only [List.cons_append, walkBlocks, Bool.and_eq_true]
    exact ⟨h.1, ih h.2⟩
  | case4 t h1 h2 h3 =>
    intro h
    exfalso
    unfold walkBlocks at h
    split at h
    · exact h1 rfl
    · exact h2 _ _ _ rfl
    · exact h3 _ _ _ _ _ _ rfl
    · exact Bool.noConfusion h

theorem SeenOK_fail (c : Nat) (s : CRender) (p : portal_s) (e : frustum_s) (h : SeenOK c s) :
    SeenOK c (s.log (Event.clip p e false)) := by
  obtain ⟨⟨t, ht, hb⟩, hl⟩ := h
  refine ⟨⟨t ++ [Event.clip p e false], ?_, ?_⟩, ?_⟩
  · rw [log_trace, ht]; rfl
  · exact walkBlocks_append _ (by simp [walkBlocks]) t hb
  · intro r hr
    rcases hl r hr with h1 | ⟨p', e', hm, hd⟩
    · exact Or.inl h1
    · exact Or.inr ⟨p', e', by rw [log_trace]; exact List.mem_append_left _ hm, hd⟩

theorem SeenOK_succ (k : Collab) (w : world_s) (cam : camera_s) (c : Nat) (s : CRender)
    (p : portal_s) (e : frustum_s) (h : SeenOK c s) (hc : k.clip s p e = true) :
    SeenOK c ((enter k w cam p e s).log (Event.process p (frustum_s.clipped p e))) := by
  obtain ⟨⟨t, ht, hb⟩, hl⟩ := h
  have htr : ((enter k w cam p e s).log (Event.process p (frustum_s.clipped p e))).trace =
      s.trace ++ [Event.clip p e true, Event.add p.dest_room,
        Event.process p (frustum_s.clipped p e)] := by
    rw [log_trace, enter_trace k w cam p e s hc]
    simp
  refine ⟨⟨t ++ [Event.clip p e true, Event.add p.dest_room,
      Event.process p (frustum_s.clipped p e)], ?_, ?_⟩, ?_⟩
  · rw [htr, ht]; rfl
  · exact walkBlocks_append _ (by simp [walkBlocks]) t hb
  · intro r hr
    rw [htr]
    rw [log_listed] at hr
    unfold enter at hr
    rw [AddRoom_listed] at hr
    have hnew : Event.clip p e true ∈ s.trace ++ [Event.clip p e true,
        Event.add p.dest_room, Event.process p (frustum_s.clipped p e)] :=
      List.mem_append_right _ (List.mem_cons_self _ _)
    have hold : some r ∈ listedRooms s →
        r = c ∨ ∃ p' e', Event.clip p' e' true ∈ s.trace ++ [Event.clip p e true,
          Event.add p.dest_room, Event.process p (frustum_s.clipped p e)] ∧
          p'.dest_room = r := by
      intro hr
      rcases hl r hr with h1 | ⟨p', e', hm, hd⟩
      · exact Or.inl h1
      · exact Or.inr ⟨p', e', List.mem_append_left _ hm, hd⟩
    split at hr
    · rcases List.mem_append.mp hr with hr | hr
      · exact hold (by rw [PFI_listed] at hr; exact hr)
      · simp only [List.mem_singleton, Option.some.injEq] at hr
        exact Or.inr ⟨p, e, hnew, hr.symm⟩
    · exact hold (by rw [PFI_listed] at hr; exact hr)

theorem SeenOK_first (k : Collab) (w : world_s) (cam : camera_s) (c : Nat) (s : CRender) :
    SeenOK c (GenWorldList_first k w cam c s) := by
  refine ⟨⟨[], first_trace k w cam c s, rfl⟩, ?_⟩
  intro r hr
  left
  have hl : listedRooms (GenWorldList_first k w cam c s) =
      listedRooms (AddRoom k w cam c _).2 := rfl
  rw [hl, AddRoom_listed] at hr
  have he : ∀ (t : CRender), t.r_list_active_count = 0 → listedRooms t = [] := by
    intro t h0
    simp [listedRooms, h0]
  split at hr
  · rw [he _ rfl] at hr
    simpa using hr
  · rw [he _ rfl] at hr
    simp at hr

/-- C5.  When the camera's room `c` is found, every room in the Render List after
`GenWorldList` is `c` or the destination room of a portal whose clip returned a frustum
during this walk.  The calls of the walk are `AddRoom(c)` followed by clips of which each
null one stands alone and each successful one is followed at once by `AddRoom` and
`ProcessRoom` for its portal: a portal whose clip returns null causes neither. -/
theorem C5_listed_rooms_are_seen (k : Collab) (w : world_s) (cam : camera_s) (fuel c : Nat)
    (s s' : CRender) (hw : s.m_world = some w) (hc : k.Room_FindPosCogerrence cam = some c)
    (h : GenWorldList k cam fuel s = some s') :
    (∀ r, some r ∈ listedRooms s' →
      r = c ∨ ∃ p e, Event.clip p e true ∈ s'.trace ∧ p.dest_room = r) ∧
    ∃ t, s'.trace = Event.add c :: t ∧ walkBlocks t = true := by
  have hP : SeenOK c s' :=
    GenWorldList_induct (P := SeenOK c)
      (fun s p e _ _ hs _ => SeenOK_fail c s p e hs)
      (fun s p e _ _ hs hcl => SeenOK_succ k w cam c s p e hs hcl) hw hc
      (SeenOK_first k w cam c s) h
  exact ⟨hP.2, hP.1⟩

/-- C5, witness: the diamond, where the clips of the portals into room 2 fail. -/
theorem C5_listed_rooms_are_seen_witness :
    ∃ s', GenWorldList (scene fun p _ => decide (p.dest_room ≠ 2)) camera0 4
        (installed (scene fun p _ => decide (p.dest_room ≠ 2)) diamond) = some s' ∧
      ((∀ r, some r ∈ listedRooms s' →
        r = 0 ∨ ∃ p e, Event.clip p e true ∈ s'.trace ∧ p.dest_room = r) ∧
      ∃ t, s'.trace = Event.add 0 :: t ∧ walkBlocks t = true) := by
  obtain ⟨s', h⟩ := Option.isSome_iff_exists.mp
    (show (GenWorldList (scene fun p _ => decide (p.dest_room ≠ 2)) camera0 4
      (installed (scene fun p _ => decide (p.dest_room ≠ 2)) diamond)).isSome = true by decide)
  exact ⟨s', h, C5_listed_rooms_are_seen (scene fun p _ => decide (p.dest_room ≠ 2)) diamond
    camera0 4 0 _ s' (installed_world _ _) rfl h⟩

/-! ## The full scan -/

theorem scan_fold (k : Collab) (w : world_s) (cam : camera_s) :
    ∀ (l : List Nat) (s : CRender), l.Nodup → (∀ i ∈ l, s.is_in_r_list i = false) →
      s.r_list_active_count + l.length ≤ s.r_list_size →
      listedRooms (l.foldl (GenWorldList_scan k w cam) s) =
        listedRooms s ++
          (l.filter fun i => (w.rooms i).active && k.Frustum_IsAABBVisible i cam).map some ∧
      ∀ ev ∈ (l.foldl (GenWorldList_scan k w cam) s).trace,
        ev ∈ s.trace ∨ ∃ r, ev = Event.add r := by
  intro l
  induction l with
  | nil => intro s _ _ _; exact ⟨by simp, fun ev h => Or.inl h⟩
  | cons i l ih =>
    intro s hnd hflag hcap
    obtain ⟨hi, hl⟩ := List.nodup_cons.mp hnd
    have hfi : s.is_in_r_list i = false := hflag i (List.mem_cons_self _ _)
    have hlt : s.r_list_active_count < s.r_list_size := by
      simp only [List.length_cons] at hcap
      omega
    rw [List.foldl_cons]
    by_cases hv : k.Frustum_IsAABBVisible i cam = true
    · have hstep : GenWorldList_scan k w cam s i = (AddRoom k w cam i s).2 := by
        simp [GenWorldList_scan, hv]
      have hpush : AddRoom_pushes w i s = (w.rooms i).active := by
        simp [AddRoom_pushes, hfi, hlt]
      have hnext := ih (AddRoom k w cam i s).2 hl
        (by
          intro j hj
          have hji : j ≠ i := fun h => hi (h ▸ hj)
          rw [AddRoom_flag]
          simp [hji, hflag j (List.mem_cons_of_mem _ hj)])
        (by
          rw [AddRoom_size, AddRoom_count]
          simp only [List.length_cons] at hcap
          split <;> omega)
      rw [hstep]
      refine ⟨?_, ?_⟩
      · rw [hnext.1, AddRoom_listed, hpush]
        by_cases ha : (w.rooms i).active = true
        · simp [List.filter_cons, ha, hv]
        · simp [List.filter_cons, ha]
      · intro ev hev
        rcases hnext.2 ev hev with h1 | h1
        · rw [AddRoom_trace] at h1
          rcases List.mem_append.mp h1 with h2 | h2
          · exact Or.inl h2
          · exact Or.inr ⟨i, by simpa using h2⟩
        · exact Or.inr h1
    · have hstep : GenWorldList_scan k w cam s i = s := by
        simp [GenWorldList_scan, hv]
      have hnext := ih s hl (fun j hj => hflag j (List.mem_cons_of_mem _ hj))
        (by simp only [List.length_cons] at hcap; omega)
      rw [hstep]
      refine ⟨?_, hnext.2⟩
      rw [hnext.1]
      simp [List.filter_cons, hv]

/-- C6, as amended.  When no room containing the camera is found, and the frame starts from
a renderer with room for the rooms of the world and no stale per-frame data (as after
`SetWorld`), `GenWorldList` performs no portal clip and the resulting Render List holds
exactly the ACTIVE rooms of the world whose bounding box passes `Frustum_IsAABBVisible`
against the camera's frustum, in ascending room-index order. -/
theorem C6_full_scan (k : Collab) (w : world_s) (cam : camera_s) (fuel : Nat) (s : CRender)
    (hw : s.m_world = some w) (hc : k.Room_FindPosCogerrence cam = none) (ht : Tidy w s)
    (hcap : w.room_count ≤ s.r_list_size) :
    ∃ s', GenWorldList k cam fuel s = some s' ∧
      listedRooms s' =
        ((List.range w.room_count).filter fun i =>
          (w.rooms i).active && k.Frustum_IsAABBVisible i cam).map some ∧
      ∀ p e b, Event.clip p e b ∉ s'.trace := by
  refine ⟨_, GenWorldList_none hw hc, ?_, ?_⟩
  · have h := (scan_fold k w cam (List.range w.room_count) (GenWorldList_begin k cam s)
      (List.nodup_range _) (fun i _ => (begin_clean k cam ht i).1)
      (by rw [begin_count, begin_size, List.length_range]; omega)).1
    rw [h, begin_listed]
    rfl
  · intro p e b hm
    have h := (scan_fold k w cam (List.range w.room_count) (GenWorldList_begin k cam s)
      (List.nodup_range _) (fun i _ => (begin_clean k cam ht i).1)
      (by rw [begin_count, begin_size, List.length_range]; omega)).2 _ hm
    rcases h with h | ⟨r, h⟩
    · rw [begin_trace] at h
      exact List.not_mem_nil _ h
    · exact Event.noConfusion h

/-- C6, witness: the two rooms of `annex`, seen from outside. -/
theorem C6_full_scan_witness :
    ∃ s', GenWorldList outside camera0 0 (installed outside annex) = some s' ∧
      listedRooms s' =
        ((List.range annex.room_count).filter fun i =>
          (annex.rooms i).active && outside.Frustum_IsAABBVisible i camera0).map some ∧
      ∀ p e b, Event.clip p e b ∉ s'.trace :=
  C6_full_scan outside annex camera0 0 (installed outside annex) (installed_world _ _) rfl
    (Tidy_installed _ _) (by decide)

/-- C6, counterexample.  Seen from outside, both rooms of `annex` have a visible box, so
the claim lists rooms 0 and 1; room 1 is not active and the Render List holds room 0
alone. -/
theorem C6_counterexample :
    ((List.range annex.room_count).filter fun i =>
        outside.Frustum_IsAABBVisible i camera0).map some = [some 0, some 1] ∧
    (GenWorldList outside camera0 0 (installed outside annex)).map listedRooms =
      some [some 0] := by
  constructor <;> decide

/-! ## Scenarios of the walk -/

/-- The state in front of the portal loop when the frame starts tidy in the active room
`c`: room `c` alone is listed and flagged and all chains are empty. -/
theorem first_spec (k : Collab) (w : world_s) (cam : camera_s) (c : Nat) (s : CRender)
    (hact : (w.rooms c).active = true) (hcap : 0 < s.r_list_size) (ht : Tidy w s) :
    listedRooms (GenWorldList_first k w cam c s) = [some c] ∧
    (GenWorldList_first k w cam c s).r_list_active_count = 1 ∧
    (∀ x, x ≠ c → (GenWorldList_first k w cam c s).is_in_r_list x = false) ∧
    (∀ x, (w.rooms x).active = true → (GenWorldList_first k w cam c s).frustum x = []) ∧
    (GenWorldList_first k w cam c s).r_list_size = s.r_list_size := by
  have hpush : AddRoom_pushes w c
      { GenWorldList_begin k cam s with
        frustum := fun x => if x = c then [] else (GenWorldList_begin k cam s).frustum x
        max_path := fun x => if x = c then 0 else (GenWorldList_begin k cam s).max_path x }
      = true := by
    have hf := (begin_clean k cam ht c).1
    have hs := begin_size k cam s
    simp only [AddRoom_pushes, Bool.and_eq_true, Bool.not_eq_true', decide_eq_true_eq]
    exact ⟨⟨hf, hact⟩, by rw [begin_count]; exact hs ▸ hcap⟩
  unfold GenWorldList_first
  refine ⟨?_, ?_, ?_, ?_, ?_⟩
  · rw [AddRoom_listed, if_pos hpush]
    rfl
  · rw [AddRoom_count, if_pos hpush]
    rfl
  · intro x hx
    rw [AddRoom_flag]
    simp only [hx, false_and, if_false]
    exact (begin_clean k cam ht x).1
  · intro x hx
    rw [AddRoom_frustum]
    simp only
    split
    · rfl
    · exact (begin_clean k cam ht x).2 hx
  · rw [AddRoom_size]
    exact begin_size k cam s

theorem foldlM_skip {α β : Type} (f : β → α → Option β) (b : β) :
    ∀ (l : List α), (∀ a ∈ l, f b a = some b) → l.foldlM f b = some b := by
  intro l
  induction l with
  | nil => intro _; rfl
  | cons a l ih =>
    intro h
    rw [List.foldlM_cons, h a (List.mem_cons_self _ _)]
    exact ih (fun a ha => h a (List.mem_cons_of_mem _ ha))

/-- C7.  The camera is in the active room `A`, whose only portal `p` leads to the active
room `B`; the clip of `p` against the camera's frustum succeeds; every portal of `B` leads
back to `A`.  Then `GenWorldList`, started from a tidy renderer with room for two entries,
returns with the Render List `[A, B]`; the calls of the frame are `AddRoom(A)`, the one
clip of `p` against the camera's frustum, `AddRoom(B)` and `ProcessRoom(p, .)`, and the
chain of `B` holds the one frustum of that clip. -/
theorem C7_one_portal (k : Collab) (w : world_s) (cam : camera_s) (fuel A B : Nat)
    (p : portal_s) (s : CRender) (hw : s.m_world = some w)
    (hloc : k.Room_FindPosCogerrence cam = some A)
    (hA : (w.rooms A).active = true) (hB : (w.rooms B).active = true) (hAB : A ≠ B)
    (hp : (w.rooms A).portals = [p]) (hpd : p.dest_room = B) (hpc : p.current_room = A)
    (hclip : ∀ t, k.clip t p frustum_s.camera = true)
    (hback : ∀ q ∈ (w.rooms B).portals, q.dest_room = A)
    (ht : Tidy w s) (hcap : 2 ≤ s.r_list_size) :
    ∃ s', GenWorldList k cam (fuel + 1) s = some s' ∧
      listedRooms s' = [some A, some B] ∧
      s'.trace = [Event.add A, Event.clip p frustum_s.camera true, Event.add B,
        Event.process p (frustum_s.clipped p frustum_s.camera)] ∧
      s'.frustum B = [frustum_s.clipped p frustum_s.camera] := by
  obtain ⟨f1, f2, f3, f4, f5⟩ := first_spec k w cam A s hA (by omega) ht
  have hrun : GenWorldList k cam (fuel + 1) s =
      some ((enter k w cam p frustum_s.camera (GenWorldList_first k w cam A s)).log
        (Event.process p (frustum_s.clipped p frustum_s.camera))) := by
    unfold GenWorldList
    rw [hw]
    simp only [hloc]
    rw [hp, List.foldlM_cons, GenWorldList_round_go k w cam _ _ p (hclip _),
      ProcessRoom_succ_eq k w cam fuel p _ _ (by rw [hpc]; exact hA) (by rw [hpd]; exact hB),
      foldlM_skip]
    · rfl
    · intro q hq
      apply ProcessRoom_round_skip
      right
      rw [hpc]
      exact hback q (hpd ▸ hq)
  refine ⟨_, hrun, ?_, ?_, ?_⟩
  · rw [log_listed]
    unfold enter
    have hpush : AddRoom_pushes w p.dest_room
        (PortalFrustumIntersect k p frustum_s.camera (GenWorldList_first k w cam A s)).2
        = true := by
      simp only [AddRoom_pushes, Bool.and_eq_true, Bool.not_eq_true', decide_eq_true_eq]
      rw [PFI_flag, PFI_count, PFI_size, f2, f5, hpd]
      exact ⟨⟨f3 B (fun h => hAB h.symm), hB⟩, by omega⟩
    rw [AddRoom_listed, if_pos hpush, PFI_listed, f1, hpd]
    rfl
  · rw [log_trace, enter_trace k w cam p _ _ (hclip _), first_trace, hpd]
    rfl
  · rw [log_frustum]
    unfold enter
    rw [AddRoom_frustum, PFI_frustum, f4 B hB, hclip, hpd]
    simp

/-- C7, witness: the corridor. -/
theorem C7_one_portal_witness :
    ∃ s', GenWorldList (scene fun _ _ => true) camera0 (0 + 1)
        (installed (scene fun _ _ => true) corridor) = some s' ∧
      listedRooms s' = [some 0, some 1] ∧
      s'.trace = [Event.add 0, Event.clip (door 0 1) frustum_s.camera true, Event.add 1,
        Event.process (door 0 1) (frustum_s.clipped (door 0 1) frustum_s.camera)] ∧
      s'.frustum 1 = [frustum_s.clipped (door 0 1) frustum_s.camera] :=
  C7_one_portal (scene fun _ _ => true) corridor camera0 0 0 1 (door 0 1)
    (installed (scene fun _ _ => true) corridor) (installed_world _ _) rfl rfl rfl
    (by decide) rfl rfl rfl (fun _ => rfl) (by decide) (Tidy_installed _ _) (by decide)

theorem GenWorldList_loop_fail (k : Collab) (w : world_s) (cam : camera_s) (fuel : Nat) :
    ∀ (l : List portal_s) (s : CRender),
      (∀ t, ∀ p ∈ l, k.clip t p frustum_s.camera = false) →
      ∃ s', l.foldlM (GenWorldList_round k w cam fuel) s = some s' ∧
        listedRooms s' = listedRooms s := by
  intro l
  induction l with
  | nil => intro s _; exact ⟨s, rfl, rfl⟩
  | cons p l ih =>
    intro s h
    rw [List.foldlM_cons,
      GenWorldList_round_fail k w cam fuel s p (h s p (List.mem_cons_self _ _))]
    obtain ⟨s', h1, h2⟩ := ih (s.log (Event.clip p frustum_s.camera false))
      (fun t q hq => h t q (List.mem_cons_of_mem _ hq))
    exact ⟨s', h1, h2⟩

/-- C8.  The camera is in the active room `A` and the clip of every portal of `A` against
the camera's frustum returns null.  Then `GenWorldList`, started from a tidy renderer with
room in its list, returns with the Render List `[A]`. -/
theorem C8_no_portal_seen (k : Collab) (w : world_s) (cam : camera_s) (fuel A : Nat)
    (s : CRender) (hw : s.m_world = some w) (hloc : k.Room_FindPosCogerrence cam = some A)
    (hA : (w.rooms A).active = true)
    (hclip : ∀ t, ∀ p ∈ (w.rooms A).portals, k.clip t p frustum_s.camera = false)
    (ht : Tidy w s) (hcap : 0 < s.r_list_size) :
    ∃ s', GenWorldList k cam fuel s = some s' ∧ listedRooms s' = [some A] := by
  obtain ⟨s', h1, h2⟩ := GenWorldList_loop_fail k w cam fuel (w.rooms A).portals
    (GenWorldList_first k w cam A s) hclip
  refine ⟨s', ?_, ?_⟩
  · unfold GenWorldList
    rw [hw]
    simp only [hloc]
    exact h1
  · rw [h2]
    exact (first_spec k w cam A s hA hcap ht).1

/-- C8, witness: the diamond with every clip failing. -/
theorem C8_no_portal_seen_witness :
    ∃ s', GenWorldList (scene fun _ _ => false) camera0 4
        (installed (scene fun _ _ => false) diamond) = some s' ∧
      listedRooms s' = [some 0] :=
  C8_no_portal_seen (scene fun _ _ => false) diamond camera0 4 0
    (installed (scene fun _ _ => false) diamond) (installed_world _ _) rfl rfl
    (fun _ _ _ => rfl) (Tidy_installed _ _) (by decide)

/-! ## What the walk is bound to reach -/

section Reach

variable {k : Collab} {w : world_s} {cam : camera_s} {P : CRender → Prop} {d : Nat}

theorem GenWorldList_loop_reaches
    (hfail : ∀ s p e, 0 ≤ e.depth →
      StepInfo w p e → P s → k.clip s p e = false →
      P (s.log (Event.clip p e false)))
    (hsucc : ∀ s p e, 0 ≤ e.depth →
      StepInfo w p e → P s → k.clip s p e = true →
      P ((enter k w cam p e s).log (Event.process p (frustum_s.clipped p e))))
    (fuel : Nat) (p : portal_s)
    (hstep : ∀ s r, GenWorldList_round k w cam fuel s p = some r → P r) :
    ∀ (l : List portal_s), (∀ p ∈ l, ∃ x, p ∈ (w.rooms x).portals) → p ∈ l →
      ∀ (s r : CRender), l.foldlM (GenWorldList_round k w cam fuel) s = some r → P r := by
  intro l
  induction l with
  | nil => intro _ hp; exact absurd hp (List.not_mem_nil _)
  | cons a l ih =>
    intro hl hp s r h
    rw [List.foldlM_cons] at h
    cases hq : GenWorldList_round k w cam fuel s a with
    | none => rw [hq] at h; simp at h
    | some q =>
      rw [hq] at h
      simp only [Option.some_bind, bind] at h
      by_cases hpa : p = a
      · subst hpa
        exact GenWorldList_loop_induct hfail hsucc fuel l
          (fun p' hp' => hl p' (List.mem_cons_of_mem _ hp')) q r (hstep s q hq) h
      · rcases List.mem_cons.mp hp with hp | hp
        · exact absurd hp hpa
        · exact ih (fun p' hp' => hl p' (List.mem_cons_of_mem _ hp')) hp q r h

theorem ProcessRoom_loop_reaches
    {run : portal_s → frustum_s → CRender → Option (Nat × CRender)}
    (hfail : ∀ s p e, d ≤ e.depth →
      StepInfo w p e → P s → k.clip s p e = false →
      P (s.log (Event.clip p e false)))
    (hsucc : ∀ s p e, d ≤ e.depth →
      StepInfo w p e → P s → k.clip s p e = true →
      P ((enter k w cam p e s).log (Event.process p (frustum_s.clipped p e))))
    (hrun : ∀ p f s r, d ≤ f.depth → P (s.log (Event.process p f)) → run p f s = some r →
      P r.2)
    (src : Nat) (frus : frustum_s) (hd : d ≤ frus.depth) (p : portal_s)
    (hstep : ∀ acc r, ProcessRoom_round k w cam run src frus acc p = some r → P r.2) :
    ∀ (l : List portal_s), (∀ p ∈ l, ∃ x, p ∈ (w.rooms x).portals) → p ∈ l →
      ∀ (acc r : Nat × CRender),
      l.foldlM (ProcessRoom_round k w cam run src frus) acc = some r → P r.2 := by
  intro l
  induction l with
  | nil => intro _ hp; exact absurd hp (List.not_mem_nil _)
  | cons a l ih =>
    intro hl hp acc r h
    rw [List.foldlM_cons] at h
    cases hq : ProcessRoom_round k w cam run src frus acc a with
    | none => rw [hq] at h; simp at h
    | some q =>
      rw [hq] at h
      simp only [Option.some_bind, bind] at h
      by_cases hpa : p = a
      · subst hpa
        exact ProcessRoom_loop_induct hfail hsucc hrun src frus hd l
          (fun p' hp' => hl p' (List.mem_cons_of_mem _ hp')) q r (hstep acc q hq) h
      · rcases List.mem_cons.mp hp with hp | hp
        · exact absurd hp hpa
        · exact ih (fun p' hp' => hl p' (List.mem_cons_of_mem _ hp')) hp q r h

end Reach

theorem Reached_fail {ev : Event} {f : frustum_s} {D : Nat} (s : CRender) (p : portal_s)
    (e : frustum_s) (h : Reached ev f D s) : Reached ev f D (s.log (Event.clip p e false)) := by
  obtain ⟨h1, h2, h3⟩ := h
  exact ⟨by rw [log_trace]; exact List.mem_append_left _ h1, h2, h3⟩

theorem Reached_succ {ev : Event} {f : frustum_s} {D : Nat} (k : Collab) (w : world_s)
    (cam : camera_s) (s : CRender) (p : portal_s) (e : frustum_s) (h : Reached ev f D s)
    (hc : k.clip s p e = true) :
    Reached ev f D ((enter k w cam p e s).log (Event.process p (frustum_s.clipped p e))) := by
  obtain ⟨h1, h2, h3⟩ := h
  refine ⟨?_, ?_, ?_⟩
  · rw [log_trace, enter_trace k w cam p e s hc]
    exact List.mem_append_left _ (List.mem_append_left _ h1)
  · rw [log_frustum]
    unfold enter
    rw [AddRoom_frustum, PFI_frustum]
    split
    · exact List.mem_append_left _ h2
    · exact h2
  · rw [log_flag]
    unfold enter
    rw [AddRoom_flag, PFI_flag, h3]
    simp

/-- A successful clip of a portal into an active room registers its frustum there and
leaves the room flagged. -/
theorem Reached_enter (k : Collab) (w : world_s) (cam : camera_s) (s : CRender) (p : portal_s)
    (e : frustum_s) (hc : k.clip s p e = true) (ha : (w.rooms p.dest_room).active = true) :
    Reached (Event.clip p e true) (frustum_s.clipped p e) p.dest_room
      ((enter k w cam p e s).log (Event.process p (frustum_s.clipped p e))) := by
  refine ⟨?_, ?_, ?_⟩
  · rw [log_trace, enter_trace k w cam p e s hc]
    simp
  · rw [log_frustum]
    unfold enter
    rw [AddRoom_frustum, PFI_frustum]
    simp [hc]
  · rw [log_flag]
    unfold enter
    rw [AddRoom_flag]
    simp [ha]

theorem RoomFor_AddRoom {N : Nat} {s : CRender} (k : Collab) (w : world_s) (cam : camera_s)
    (room : Nat) (h : RoomFor N s) : RoomFor N (AddRoom k w cam room s).2 := by
  obtain ⟨h1, h2⟩ := h
  refine ⟨by rw [AddRoom_size]; exact h1, ?_⟩
  intro hlt r hr
  have hle := AddRoom_count_le k w cam room s
  have hold := h2 (Nat.lt_of_le_of_lt hle hlt)
  rw [AddRoom_flag] at hr
  rw [AddRoom_listed]
  by_cases hp : AddRoom_pushes w room s = true
  · rw [if_pos hp]
    by_cases hx : r = room
    · subst hx; simp
    · simp only [hx, false_and, if_false] at hr
      exact List.mem_append_left _ (hold r hr)
  · rw [if_neg hp]
    by_cases hf : s.is_in_r_list r = true
    · exact hold r hf
    · have hf2 : s.is_in_r_list r = false := by simpa using hf
      rw [hf2] at hr
      split at hr
      · rename_i hx
        obtain ⟨hx1, hx2⟩ := hx
        subst hx1
        exfalso
        apply hp
        simp only [AddRoom_pushes, Bool.and_eq_true, Bool.not_eq_true', decide_eq_true_eq]
        refine ⟨⟨hf2, hx2⟩, ?_⟩
        rw [AddRoom_count, if_neg hp] at hlt
        rw [h1]
        exact hlt
      · exact Bool.noConfusion hr

theorem RoomFor_enter {N : Nat} {s : CRender} (k : Collab) (w : world_s) (cam : camera_s)
    (p : portal_s) (e : frustum_s) (h : RoomFor N s) : RoomFor N (enter k w cam p e s) := by
  unfold enter
  apply RoomFor_AddRoom
  unfold RoomFor
  rw [PFI_size, PFI_count, PFI_flag, PFI_listed]
  exact h

theorem RoomFor_first (k : Collab) (w : world_s) (cam : camera_s) (c : Nat) (s : CRender)
    (ht : Tidy w s) : RoomFor s.r_list_size (GenWorldList_first k w cam c s) := by
  unfold GenWorldList_first
  apply RoomFor_AddRoom
  refine ⟨begin_size k cam s, ?_⟩
  intro _ r hr
  have hf : (GenWorldList_begin k cam s).is_in_r_list r = true := hr
  rw [(begin_clean k cam ht r).1] at hf
  exact Bool.noConfusion hf

theorem first_frustum (k : Collab) (w : world_s) (cam : camera_s) (c : Nat) (s : CRender)
    (ht : Tidy w s) (x : Nat) (hx : (w.rooms x).active = true) :
    (GenWorldList_first k w cam c s).frustum x = [] := by
  unfold GenWorldList_first
  rw [AddRoom_frustum]
  simp only
  split
  · rfl
  · exact (begin_clean k cam ht x).2 hx

/-- In a frame started tidy in the camera's room, the chain of every active room holds
exactly the frustums of the successful clips into it, in order. -/
theorem chains_GenWorldList {k : Collab} {w : world_s} {cam : camera_s} {fuel c : Nat}
    {s s' : CRender} (hw : s.m_world = some w) (hc : k.Room_FindPosCogerrence cam = some c)
    (ht : Tidy w s) (h : GenWorldList k cam fuel s = some s') (x : Nat)
    (hx : (w.rooms x).active = true) : s'.frustum x = clipsInto x s'.trace := by
  refine GenWorldList_induct (P := fun s => s.frustum x = clipsInto x s.trace)
    ?_ ?_ hw hc ?_ h
  · intro s p e _ _ hs _
    rw [log_frustum, log_trace, clipsInto_append, hs]
    simp [clipsInto]
  · intro s p e _ _ hs hcl
    rw [log_frustum, log_trace, enter_trace k w cam p e s hcl]
    unfold enter
    rw [AddRoom_frustum, PFI_frustum, clipsInto_append, clipsInto_append, ← hs]
    by_cases hd : p.dest_room = x
    · simp [clipsInto, hcl, hd]
    · have hd2 : ¬ x = p.dest_room := fun h => hd h.symm
      simp [clipsInto, hd, hd2]
  · show (GenWorldList_first k w cam c s).frustum x =
      clipsInto x (GenWorldList_first k w cam c s).trace
    rw [first_frustum k w cam c s ht x hx, first_trace]
    simp [clipsInto]

theorem once_of_nodup {α : Type} [DecidableEq α] {a : α} :
    ∀ (l : List α), l.Nodup → a ∈ l → (l.filter fun x => decide (x = a)).length = 1 := by
  intro l hnd hmem
  have h := List.count_eq_one_of_mem hnd hmem
  rw [List.count_eq_countP, List.countP_eq_length_filter] at h
  rw [← h]
  congr 2

theorem two_le_length_of_mem {α : Type} {a b : α} (hab : a ≠ b) :
    ∀ (l : List α), a ∈ l → b ∈ l → 2 ≤ l.length := by
  intro l ha hb
  match l, ha, hb with
  | [], ha, _ => exact absurd ha (List.not_mem_nil _)
  | [x], ha, hb =>
    exfalso
    simp only [List.mem_singleton] at ha hb
    exact hab (ha.trans hb.symm)
  | _ :: _ :: _, _, _ => simp

/-! ## Two portal paths into one room -/

theorem mem_clipsInto {c : Nat} {p : portal_s} {e : frustum_s} {t : List Event}
    (h : Event.clip p e true ∈ t) (hd : p.dest_room = c) :
    frustum_s.clipped p e ∈ clipsInto c t := by
  unfold clipsInto
  exact List.mem_filterMap.mpr ⟨_, h, by simp [hd]⟩

theorem ClipsOK_fail (w : world_s) (s : CRender) (p : portal_s) (e : frustum_s)
    (hg : 0 < e.depth → (w.rooms p.dest_room).active = true) (h : ClipsOK w s) :
    ClipsOK w (s.log (Event.clip p e false)) := by
  intro p' e' b hm
  rw [log_trace] at hm
  rw [log_flag]
  rcases List.mem_append.mp hm with hm | hm
  · exact h p' e' b hm
  · simp only [List.mem_singleton, Event.clip.injEq] at hm
    obtain ⟨h1, h2, h3⟩ := hm
    subst h1 h2 h3
    exact ⟨hg, fun hb => Bool.noConfusion hb⟩

theorem ClipsOK_succ (k : Collab) (w : world_s) (cam : camera_s) (s : CRender) (p : portal_s)
    (e : frustum_s) (hg : 0 < e.depth → (w.rooms p.dest_room).active = true)
    (h : ClipsOK w s) (hc : k.clip s p e = true) :
    ClipsOK w ((enter k w cam p e s).log (Event.process p (frustum_s.clipped p e))) := by
  have hflag : ∀ x, ((enter k w cam p e s).log
      (Event.process p (frustum_s.clipped p e))).is_in_r_list x =
      if x = p.dest_room ∧ (w.rooms p.dest_room).active = true then true
      else s.is_in_r_list x := by
    intro x
    rw [log_flag]
    unfold enter
    rw [AddRoom_flag, PFI_flag]
  intro p' e' b hm
  have htr : ((enter k w cam p e s).log (Event.process p (frustum_s.clipped p e))).trace =
      s.trace ++ [Event.clip p e true, Event.add p.dest_room,
        Event.process p (frustum_s.clipped p e)] := by
    rw [log_trace, enter_trace k w cam p e s hc]
    simp
  rw [htr] at hm
  rw [hflag]
  rcases List.mem_append.mp hm with hm | hm
  · obtain ⟨h1, h2⟩ := h p' e' b hm
    refine ⟨h1, fun hb ha => ?_⟩
    rw [h2 hb ha]
    simp
  · simp only [List.mem_cons, List.mem_singleton, List.not_mem_nil, or_false] at hm
    rcases hm with hm | hm | hm
    · simp only [Event.clip.injEq] at hm
      obtain ⟨h1, h2, h3⟩ := hm
      subst h1 h2 h3
      refine ⟨hg, fun _ ha => ?_⟩
      simp [ha]
    · exact Event.noConfusion hm
    · exact Event.noConfusion hm

theorem ClipsOK_GenWorldList {k : Collab} {w : world_s} {cam : camera_s} {fuel c : Nat}
    {s s' : CRender} (hw : s.m_world = some w) (hc : k.Room_FindPosCogerrence cam = some c)
    (h : GenWorldList k cam fuel s = some s') : ClipsOK w s' := by
  refine GenWorldList_induct (P := ClipsOK w)
    (fun s p e _ hg hs _ => ClipsOK_fail w s p e hg.1 hs)
    (fun s p e _ hg hs hcl => ClipsOK_succ k w cam s p e hg.1 hs hcl) hw hc ?_ h
  intro p e b hm
  rw [first_trace] at hm
  simp only [List.mem_singleton] at hm
  exact Event.noConfusion hm

/-- In a world where `A` has portals `pAC` to `C` and `pAD` to `D`, `C` has a portal `pCD` to
`D`, the rooms are active and the clips along `A → D` and `A → C → D` return a frustum
whenever they are made, a walk from `A` that returns has made both clips into `D`. -/
theorem both_clips_made (k : Collab) (w : world_s) (cam : camera_s) (fuel A C D : Nat)
    (pAC pAD pCD : portal_s) (s s' : CRender) (hw : s.m_world = some w)
    (hloc : k.Room_FindPosCogerrence cam = some A)
    (hA : (w.rooms A).active = true) (hC : (w.rooms C).active = true)
    (hD : (w.rooms D).active = true) (hDA : D ≠ A)
    (hAC : pAC ∈ (w.rooms A).portals) (hACd : pAC.dest_room = C) (hACc : pAC.current_room = A)
    (hAD : pAD ∈ (w.rooms A).portals) (hADd : pAD.dest_room = D)
    (hCD : pCD ∈ (w.rooms C).portals) (hCDd : pCD.dest_room = D)
    (hclipAD : ∀ t, k.clip t pAD frustum_s.camera = true)
    (hclipAC : ∀ t, k.clip t pAC frustum_s.camera = true)
    (hclipCD : ∀ t, k.clip t pCD (frustum_s.clipped pAC frustum_s.camera) = true)
    (h : GenWorldList k cam fuel s = some s') :
    Event.clip pAD frustum_s.camera true ∈ s'.trace ∧
    Event.clip pCD (frustum_s.clipped pAC frustum_s.camera) true ∈ s'.trace := by
  have hloop : (w.rooms A).portals.foldlM (GenWorldList_round k w cam fuel)
      (GenWorldList_first k w cam A s) = some s' := by
    unfold GenWorldList at h
    rw [hw] at h
    simp only [hloc] at h
    exact h
  -- the path A → D
  have h1 : Reached (Event.clip pAD frustum_s.camera true)
      (frustum_s.clipped pAD frustum_s.camera) D s' := by
    refine GenWorldList_loop_reaches (P := Reached _ _ D)
      (fun s p e _ _ hs _ => Reached_fail s p e hs)
      (fun s p e _ _ hs hcl => Reached_succ k w cam s p e hs hcl) fuel pAD ?_ _ (fun _ hp => ⟨_, hp⟩) hAD _ _ hloop
    intro t r hr
    rw [GenWorldList_round_go k w cam fuel t pAD (hclipAD t)] at hr
    cases hq : ProcessRoom k w cam fuel pAD (frustum_s.clipped pAD frustum_s.camera)
        (enter k w cam pAD frustum_s.camera t) with
    | none => rw [hq] at hr; simp at hr
    | some q =>
      rw [hq] at hr
      simp only [Option.map_some', Option.some.injEq] at hr
      subst hr
      refine ProcessRoom_induct (P := Reached _ _ D) (d := 0)
        (fun s p e _ _ hs _ => Reached_fail s p e hs)
        (fun s p e _ _ hs hcl => Reached_succ k w cam s p e hs hcl)
        fuel pAD _ _ q (Nat.zero_le _) ?_ hq
      have := Reached_enter k w cam t pAD frustum_s.camera (hclipAD t) (by rw [hADd]; exact hD)
      rw [hADd] at this
      exact this
  -- the path A → C → D
  have h2 : Reached (Event.clip pCD (frustum_s.clipped pAC frustum_s.camera) true)
      (frustum_s.clipped pCD (frustum_s.clipped pAC frustum_s.camera)) D s' := by
    refine GenWorldList_loop_reaches (P := Reached _ _ D)
      (fun s p e _ _ hs _ => Reached_fail s p e hs)
      (fun s p e _ _ hs hcl => Reached_succ k w cam s p e hs hcl) fuel pAC ?_ _ (fun _ hp => ⟨_, hp⟩) hAC _ _ hloop
    intro t r hr
    rw [GenWorldList_round_go k w cam fuel t pAC (hclipAC t)] at hr
    cases hq : ProcessRoom k w cam fuel pAC (frustum_s.clipped pAC frustum_s.camera)
        (enter k w cam pAC frustum_s.camera t) with
    | none => rw [hq] at hr; simp at hr
    | some q =>
      rw [hq] at hr
      simp only [Option.map_some', Option.some.injEq] at hr
      subst hr
      cases fuel with
      | zero => simp [ProcessRoom] at hq
      | succ n =>
        rw [ProcessRoom_succ_eq k w cam n pAC _ _ (by rw [hACc]; exact hA)
          (by rw [hACd]; exact hC)] at hq
        refine ProcessRoom_loop_reaches (P := Reached _ _ D) (d := 0)
          (fun s p e _ _ hs _ => Reached_fail s p e hs)
          (fun s p e _ _ hs hcl => Reached_succ k w cam s p e hs hcl)
          (ProcessRoom_induct (fun s p e _ _ hs _ => Reached_fail s p e hs)
            (fun s p e _ _ hs hcl => Reached_succ k w cam s p e hs hcl) n)
          pAC.current_room _ (Nat.zero_le _) pCD ?_ _ (fun _ hp => ⟨_, hp⟩)
          (by rw [hACd]; exact hCD) _ _ hq
        intro acc r hr
        rw [ProcessRoom_round_go k w cam _ _ _ acc pCD (by rw [hCDd]; exact hD)
          (by rw [hCDd, hACc]; exact hDA) (hclipCD _)] at hr
        cases hq2 : ProcessRoom k w cam n pCD
            (frustum_s.clipped pCD (frustum_s.clipped pAC frustum_s.camera))
            (enter k w cam pCD (frustum_s.clipped pAC frustum_s.camera) acc.2) with
        | none => rw [hq2] at hr; simp at hr
        | some q2 =>
          rw [hq2] at hr
          simp only [Option.map_some', Option.some.injEq] at hr
          subst hr
          refine ProcessRoom_induct (P := Reached _ _ D) (d := 0)
            (fun s p e _ _ hs _ => Reached_fail s p e hs)
            (fun s p e _ _ hs hcl => Reached_succ k w cam s p e hs hcl)
            n pCD _ _ q2 (Nat.zero_le _) ?_ hq2
          have := Reached_enter k w cam acc.2 pCD _ (hclipCD acc.2) (by rw [hCDd]; exact hD)
          rw [hCDd] at this
          exact this
  exact ⟨h1.1, h2.1⟩

/-- C9.  The camera is in room `A`, and in the walk from `A` the clip of a portal `pAD` into
`D` against the camera's frustum and the clip of a portal `pCD` into `D` against the frustum
of a portal `pAC` have both been made and have succeeded (the paths `A → D` and
`A → C → D`).  Then, after a `GenWorldList` started tidy whose list did not fill up, room
`D` occurs exactly once in the Render List, while the chain of `D`, which holds one frustum
per successful clip into `D`, holds the two frustums of these clips. -/
theorem C9_two_paths (k : Collab) (w : world_s) (cam : camera_s) (fuel A D : Nat)
    (pAC pAD pCD : portal_s) (s s' : CRender) (hw : s.m_world = some w)
    (hloc : k.Room_FindPosCogerrence cam = some A) (ht : Tidy w s)
    (h : GenWorldList k cam fuel s = some s')
    (hroom : s'.r_list_active_count < s'.r_list_size)
    (hADd : pAD.dest_room = D) (hCDd : pCD.dest_room = D)
    (h1 : Event.clip pAD frustum_s.camera true ∈ s'.trace)
    (h2 : Event.clip pCD (frustum_s.clipped pAC frustum_s.camera) true ∈ s'.trace) :
    ((listedRooms s').filter fun x => decide (x = some D)).length = 1 ∧
    s'.frustum D = clipsInto D s'.trace ∧
    frustum_s.clipped pAD frustum_s.camera ∈ s'.frustum D ∧
    frustum_s.clipped pCD (frustum_s.clipped pAC frustum_s.camera) ∈ s'.frustum D ∧
    2 ≤ (s'.frustum D).length := by
  -- room D is active, since a loop of `ProcessRoom` clipped a portal into it, and flagged
  obtain ⟨hact, hflag⟩ := ClipsOK_GenWorldList hw hloc h pCD _ true h2
  have hD : (w.rooms D).active = true := by
    rw [← hCDd]
    exact hact (Nat.succ_pos _)
  have hch := chains_GenWorldList hw hloc ht h D hD
  have hm1 : frustum_s.clipped pAD frustum_s.camera ∈ s'.frustum D := by
    rw [hch]; exact mem_clipsInto h1 hADd
  have hm2 : frustum_s.clipped pCD (frustum_s.clipped pAC frustum_s.camera) ∈ s'.frustum D := by
    rw [hch]; exact mem_clipsInto h2 hCDd
  have hf : s'.is_in_r_list D = true := by
    have := hflag rfl (by rw [hCDd]; exact hD)
    rw [hCDd] at this
    exact this
  -- so it is listed, once
  have hN : RoomFor s.r_list_size s' :=
    GenWorldList_induct (P := RoomFor s.r_list_size)
      (fun s p e _ _ hs _ => hs)
      (fun s p e _ _ hs _ => RoomFor_enter k w cam p e hs) hw hloc
      (RoomFor_first k w cam A s ht) h
  have hmem : some D ∈ listedRooms s' := hN.2 (hN.1 ▸ hroom) D hf
  refine ⟨once_of_nodup _ (ListOK_GenWorldList hw h).1 hmem, hch, hm1, hm2, ?_⟩
  refine two_le_length_of_mem ?_ _ hm1 hm2
  intro he
  injection he with _ he2
  exact frustum_s.noConfusion he2

/-- C9, witness: the diamond with every clip succeeding; `A`, `C`, `D` are rooms 0, 1, 2. -/
theorem C9_two_paths_witness :
    ∃ s', GenWorldList (scene fun _ _ => true) camera0 4
        (installed (scene fun _ _ => true) diamond) = some s' ∧
      s'.r_list_active_count < s'.r_list_size ∧
      Event.clip (door 0 2) frustum_s.camera true ∈ s'.trace ∧
      Event.clip (door 1 2) (frustum_s.clipped (door 0 1) frustum_s.camera) true ∈ s'.trace ∧
      (((listedRooms s').filter fun x => decide (x = some 2)).length = 1 ∧
      s'.frustum 2 = clipsInto 2 s'.trace ∧
      frustum_s.clipped (door 0 2) frustum_s.camera ∈ s'.frustum 2 ∧
      frustum_s.clipped (door 1 2) (frustum_s.clipped (door 0 1) frustum_s.camera) ∈
        s'.frustum 2 ∧
      2 ≤ (s'.frustum 2).length) := by
  obtain ⟨s', h⟩ := Option.isSome_iff_exists.mp
    (show (GenWorldList (scene fun _ _ => true) camera0 4
      (installed (scene fun _ _ => true) diamond)).isSome = true by decide)
  have hroom : (GenWorldList (scene fun _ _ => true) camera0 4
      (installed (scene fun _ _ => true) diamond)).map
        (fun s => decide (s.r_list_active_count < s.r_list_size)) = some true := by decide
  rw [h] at hroom
  have hroom2 : s'.r_list_active_count < s'.r_list_size := by simpa using hroom
  obtain ⟨h1, h2⟩ := both_clips_made (scene fun _ _ => true) diamond camera0 4 0 1 2
    (door 0 1) (door 0 2) (door 1 2) _ s' (installed_world _ _) rfl rfl rfl rfl (by decide)
    (by decide) rfl rfl (by decide) rfl (by decide) rfl (fun _ => rfl) (fun _ => rfl)
    (fun _ => rfl) h
  exact ⟨s', h, hroom2, h1, h2, C9_two_paths (scene fun _ _ => true) diamond camera0 4 0 2
    (door 0 1) (door 0 2) (door 1 2) _ s' (installed_world _ _) rfl (Tidy_installed _ _) h
    hroom2 rfl rfl h1 h2⟩

/-! ## The portals a call of `ProcessRoom` goes through -/

theorem depth_ne {e frus : frustum_s} (h : frus.depth + 1 ≤ e.depth) : e ≠ frus := by
  intro he
  subst he
  omega

section Own

variable {k : Collab} {w : world_s} {cam : camera_s} {portal : portal_s} {frus : frustum_s}
  {base : List Event} {seen : List portal_s}

theorem OwnOK_append {s s2 : CRender} (u : List Event) (hs : OwnOK w portal frus base seen s)
    (htr : s2.trace = s.trace ++ u) (hwb : walkBlocks u = true)
    (hu1 : ∀ p b, Event.clip p frus b ∈ u → Through w portal p)
    (hu2 : ∀ p, Event.process p (frustum_s.clipped p frus) ∈ u → Through w portal p) :
    OwnOK w portal frus base seen s2 := by
  obtain ⟨t, ht, hb, h1, h2, h3⟩ := hs
  refine ⟨t ++ u, by rw [htr, ht, List.append_assoc], walkBlocks_append u hwb t hb, ?_, ?_, ?_⟩
  · intro p b hm
    rcases List.mem_append.mp hm with hm | hm
    · exact h1 p b hm
    · exact hu1 p b hm
  · intro p hm
    rcases List.mem_append.mp hm with hm | hm
    · exact h2 p hm
    · exact hu2 p hm
  · intro p hp hth
    obtain ⟨b, hb⟩ := h3 p hp hth
    exact ⟨b, List.mem_append_left _ hb⟩

theorem OwnOK_nested_fail (s : CRender) (p : portal_s) (e : frustum_s)
    (hd : frus.depth + 1 ≤ e.depth) (hs : OwnOK w portal frus base seen s) :
    OwnOK w portal frus base seen (s.log (Event.clip p e false)) := by
  refine OwnOK_append [Event.clip p e false] hs (log_trace _ _) (by simp [walkBlocks]) ?_ ?_
  · intro p' b hm
    simp only [List.mem_singleton, Event.clip.injEq] at hm
    exact absurd hm.2.1.symm (depth_ne hd)
  · intro p' hm
    simp only [List.mem_singleton] at hm
    exact Event.noConfusion hm

theorem OwnOK_nested_succ (s : CRender) (p : portal_s) (e : frustum_s)
    (hd : frus.depth + 1 ≤ e.depth) (hs : OwnOK w portal frus base seen s)
    (hc : k.clip s p e = true) :
    OwnOK w portal frus base seen
      ((enter k w cam p e s).log (Event.process p (frustum_s.clipped p e))) := by
  refine OwnOK_append [Event.clip p e true, Event.add p.dest_room,
    Event.process p (frustum_s.clipped p e)] hs ?_ (by simp [walkBlocks]) ?_ ?_
  · rw [log_trace, enter_trace k w cam p e s hc]
    simp
  · intro p' b hm
    simp only [List.mem_cons, List.mem_singleton, Event.clip.injEq, List.not_mem_nil,
      or_false] at hm
    rcases hm with hm | hm | hm
    · exact absurd hm.2.1.symm (depth_ne hd)
    · exact Event.noConfusion hm
    · exact Event.noConfusion hm
  · intro p' hm
    simp only [List.mem_cons, List.mem_singleton, List.not_mem_nil, or_false] at hm
    rcases hm with hm | hm | hm
    · exact Event.noConfusion hm
    · exact Event.noConfusion hm
    · simp only [Event.process.injEq, frustum_s.clipped.injEq] at hm
      exact absurd hm.2.2.symm (depth_ne hd)

theorem OwnOK_see {s : CRender} (a : portal_s) (hs : OwnOK w portal frus base seen s)
    (ha : Through w portal a → ∃ b, Event.clip a frus b ∈ s.trace.drop base.length) :
    OwnOK w portal frus base (a :: seen) s := by
  obtain ⟨t, ht, hb, h1, h2, h3⟩ := hs
  refine ⟨t, ht, hb, h1, h2, ?_⟩
  intro p hp hth
  rcases List.mem_cons.mp hp with hp | hp
  · subst hp
    obtain ⟨b, hb⟩ := ha hth
    rw [ht, List.drop_left] at hb
    exact ⟨b, hb⟩
  · exact h3 p hp hth

theorem OwnOK_own_fail (s : CRender) (a : portal_s) (hth : Through w portal a)
    (hs : OwnOK w portal frus base seen s) :
    OwnOK w portal frus base (a :: seen) (s.log (Event.clip a frus false)) := by
  have h1 : OwnOK w portal frus base seen (s.log (Event.clip a frus false)) := by
    refine OwnOK_append [Event.clip a frus false] hs (log_trace _ _) (by simp [walkBlocks])
      ?_ ?_
    · intro p' b hm
      simp only [List.mem_singleton, Event.clip.injEq] at hm
      rw [hm.1]
      exact hth
    · intro p' hm
      simp only [List.mem_singleton] at hm
      exact Event.noConfusion hm
  refine OwnOK_see a h1 (fun _ => ⟨false, ?_⟩)
  obtain ⟨t, ht, _⟩ := hs
  rw [log_trace, ht, List.append_assoc, List.drop_left]
  simp

theorem OwnOK_own_succ (s : CRender) (a : portal_s) (hth : Through w portal a)
    (hs : OwnOK w portal frus base seen s) (hc : k.clip s a frus = true) :
    OwnOK w portal frus base (a :: seen)
      ((enter k w cam a frus s).log (Event.process a (frustum_s.clipped a frus))) := by
  have htr : ((enter k w cam a frus s).log (Event.process a (frustum_s.clipped a frus))).trace
      = s.trace ++ [Event.clip a frus true, Event.add a.dest_room,
        Event.process a (frustum_s.clipped a frus)] := by
    rw [log_trace, enter_trace k w cam a frus s hc]
    simp
  have h1 : OwnOK w portal frus base seen
      ((enter k w cam a frus s).log (Event.process a (frustum_s.clipped a frus))) := by
    refine OwnOK_append _ hs htr (by simp [walkBlocks]) ?_ ?_
    · intro p' b hm
      simp only [List.mem_cons, List.mem_singleton, Event.clip.injEq, List.not_mem_nil,
        or_false] at hm
      rcases hm with hm | hm | hm
      · rw [hm.1]; exact hth
      · exact Event.noConfusion hm
      · exact Event.noConfusion hm
    · intro p' hm
      simp only [List.mem_cons, List.mem_singleton, List.not_mem_nil, or_false] at hm
      rcases hm with hm | hm | hm
      · exact Event.noConfusion hm
      · exact Event.noConfusion hm
      · simp only [Event.process.injEq, frustum_s.clipped.injEq] at hm
        rw [hm.1]; exact hth
  refine OwnOK_see a h1 (fun _ => ⟨true, ?_⟩)
  obtain ⟨t, ht, _⟩ := hs
  rw [htr, ht, List.append_assoc, List.drop_left]
  simp

/-- The loop of one call of `ProcessRoom`: the invariant holds at its end for all the
portals it went over. -/
theorem OwnOK_loop (fuel : Nat) :
    ∀ (l : List portal_s) (seen : List portal_s) (acc r : Nat × CRender),
      (∀ p ∈ l, p ∈ (w.rooms portal.dest_room).portals) →
      OwnOK w portal frus base seen acc.2 →
      l.foldlM (ProcessRoom_round k w cam (ProcessRoom k w cam fuel) portal.current_room frus)
        acc = some r →
      OwnOK w portal frus base (l.reverse ++ seen) r.2 := by
  intro l
  induction l with
  | nil =>
    intro seen acc r _ hs h
    simp only [List.foldlM_nil, pure, Option.some.injEq] at h
    subst h
    exact hs
  | cons a l ih =>
    intro seen acc r hl hs h
    rw [List.foldlM_cons] at h
    cases hq : ProcessRoom_round k w cam (ProcessRoom k w cam fuel) portal.current_room frus
        acc a with
    | none => rw [hq] at h; simp at h
    | some q =>
      rw [hq] at h
      simp only [Option.some_bind, bind] at h
      have hnext : OwnOK w portal frus base (a :: seen) q.2 := by
        by_cases hg : (w.rooms a.dest_room).active = true ∧ a.dest_room ≠ portal.current_room
        · have hth : Through w portal a := ⟨hl a (List.mem_cons_self _ _), hg.1, hg.2⟩
          by_cases hc : k.clip acc.2 a frus = true
          · rw [ProcessRoom_round_go k w cam _ _ frus acc a hg.1 hg.2 hc] at hq
            cases hq2 : ProcessRoom k w cam fuel a (frustum_s.clipped a frus)
                (enter k w cam a frus acc.2) with
            | none => rw [hq2] at hq; simp at hq
            | some q2 =>
              rw [hq2] at hq
              simp only [Option.map_some', Option.some.injEq] at hq
              subst hq
              exact ProcessRoom_induct (P := OwnOK w portal frus base (a :: seen))
                (d := frus.depth + 1)
                (fun s p e hd _ hs _ => OwnOK_nested_fail s p e hd hs)
                (fun s p e hd _ hs hcl => OwnOK_nested_succ s p e hd hs hcl)
                fuel a (frustum_s.clipped a frus) _ q2 (Nat.le_refl _)
                (OwnOK_own_succ acc.2 a hth hs hc) hq2
          · have hc2 : k.clip acc.2 a frus = false := by simpa using hc
            rw [ProcessRoom_round_fail k w cam _ _ frus acc a hg.1 hg.2 hc2] at hq
            simp only [Option.some.injEq] at hq
            subst hq
            exact OwnOK_own_fail acc.2 a hth hs
        · have hskip : (w.rooms a.dest_room).active = false ∨ a.dest_room = portal.current_room := by
            by_cases h1 : (w.rooms a.dest_room).active = true
            · right
              by_contra h2
              exact hg ⟨h1, h2⟩
            · left
              simpa using h1
          rw [ProcessRoom_round_skip k w cam _ _ frus acc a hskip] at hq
          simp only [Option.some.injEq] at hq
          subst hq
          exact OwnOK_see a hs (fun hth => absurd ⟨hth.2.1, hth.2.2⟩ hg)
      have := ih (a :: seen) q r (fun p hp => hl p (List.mem_cons_of_mem _ hp)) hnext h
      simpa using this

end Own

/-- C10, as amended.  A call `ProcessRoom(portal, frus)` that returns has made, after its
own entry, calls `t` of the shape `walkBlocks` (an `AddRoom` or `ProcessRoom` only right
after the successful clip of its portal) such that every clip against `frus` and every
recursion on a frustum clipped from `frus` goes through a portal of the destination room
that leads to an active room other than `portal->current_room`: never through a portal
whose destination is the room the walk just came from.  When `portal->current_room` and
the destination room are both active, every such portal of the destination room is clipped
against `frus` as parent; when one of them is not, the call returns at once and clips
nothing. -/
theorem C10_portals_gone_through (k : Collab) (w : world_s) (cam : camera_s) (fuel : Nat)
    (portal : portal_s) (frus : frustum_s) (s : CRender) (r : Nat × CRender)
    (h : ProcessRoom k w cam fuel portal frus s = some r) :
    ∃ t, r.2.trace = s.trace ++ Event.process portal frus :: t ∧ walkBlocks t = true ∧
      (∀ p b, Event.clip p frus b ∈ t → Through w portal p) ∧
      (∀ p, Event.process p (frustum_s.clipped p frus) ∈ t → Through w portal p) ∧
      ((w.rooms portal.current_room).active = true →
        (w.rooms portal.dest_room).active = true →
        ∀ p, Through w portal p → ∃ b, Event.clip p frus b ∈ t) ∧
      ((w.rooms portal.current_room).active = false ∨
        (w.rooms portal.dest_room).active = false → t = [] ∧ r.1 = 0) := by
  cases fuel with
  | zero => simp [ProcessRoom] at h
  | succ n =>
    by_cases hg : (w.rooms portal.current_room).active = true ∧
        (w.rooms portal.dest_room).active = true
    · rw [ProcessRoom_succ_eq k w cam n portal frus s hg.1 hg.2] at h
      have h0 : OwnOK w portal frus (s.trace ++ [Event.process portal frus]) []
          (0, s.log (Event.process portal frus)).2 :=
        ⟨[], by simp [log_trace], rfl, fun _ _ hm => absurd hm (List.not_mem_nil _),
          fun _ hm => absurd hm (List.not_mem_nil _),
          fun _ hm => absurd hm (List.not_mem_nil _)⟩
      obtain ⟨t, ht, hb, h1, h2, h3⟩ :=
        OwnOK_loop n (w.rooms portal.dest_room).portals [] _ r (fun _ hp => hp) h0 h
      refine ⟨t, by rw [ht]; simp, hb, h1, h2, ?_, ?_⟩
      · intro _ _ p hth
        exact h3 p (by simpa using hth.1) hth
      · intro hn
        rcases hn with hn | hn
        · rw [hg.1] at hn; exact Bool.noConfusion hn
        · rw [hg.2] at hn; exact Bool.noConfusion hn
    · have hstop : ProcessRoom k w cam (n + 1) portal frus s =
          some (0, s.log (Event.process portal frus)) := by
        rw [ProcessRoom]
        by_cases h1 : (w.rooms portal.current_room).active = true
        · have h2 : (w.rooms portal.dest_room).active = false := by
            by_contra h2
            exact hg ⟨h1, by simpa using h2⟩
          simp [h2]
        · simp [h1]
      rw [hstop] at h
      simp only [Option.some.injEq] at h
      subst h
      refine ⟨[], by simp [log_trace], rfl, fun _ _ hm => absurd hm (List.not_mem_nil _),
        fun _ hm => absurd hm (List.not_mem_nil _), ?_, fun _ => ⟨rfl, rfl⟩⟩
      intro h1 h2
      exact absurd ⟨h1, h2⟩ hg

/-- C10, witness: in the diamond, the call for the portal 0 → 1. -/
theorem C10_portals_gone_through_witness :
    ∃ r, ProcessRoom (scene fun _ _ => true) diamond camera0 3 (door 0 1)
        (frustum_s.clipped (door 0 1) frustum_s.camera)
        (installed (scene fun _ _ => true) diamond) = some r ∧
      ∃ t, r.2.trace = (installed (scene fun _ _ => true) diamond).trace ++
          Event.process (door 0 1) (frustum_s.clipped (door 0 1) frustum_s.camera) :: t ∧
        walkBlocks t = true ∧
        (∀ p b, Event.clip p (frustum_s.clipped (door 0 1) frustum_s.camera) b ∈ t →
          Through diamond (door 0 1) p) ∧
        (∀ p, Event.process p
            (frustum_s.clipped p (frustum_s.clipped (door 0 1) frustum_s.camera)) ∈ t →
          Through diamond (door 0 1) p) ∧
        ((diamond.rooms (door 0 1).current_room).active = true →
          (diamond.rooms (door 0 1).dest_room).active = true →
          ∀ p, Through diamond (door 0 1) p →
            ∃ b, Event.clip p (frustum_s.clipped (door 0 1) frustum_s.camera) b ∈ t) ∧
        ((diamond.rooms (door 0 1).current_room).active = false ∨
          (diamond.rooms (door 0 1).dest_room).active = false → t = [] ∧ r.1 = 0) := by
  obtain ⟨r, h⟩ := Option.isSome_iff_exists.mp
    (show (ProcessRoom (scene fun _ _ => true) diamond camera0 3 (door 0 1)
      (frustum_s.clipped (door 0 1) frustum_s.camera)
      (installed (scene fun _ _ => true) diamond)).isSome = true by decide)
  exact ⟨r, h, C10_portals_gone_through (scene fun _ _ => true) diamond camera0 3 (door 0 1)
    (frustum_s.clipped (door 0 1) frustum_s.camera) _ r h⟩

/-- C10, counterexample.  In `blocked` the camera's room 0 has a portal to room 1, which is
not active and has a portal to the active room 2.  The clip of 0 → 1 succeeds and
`ProcessRoom` is called for it; the portal 1 → 2 of its destination room leads to an active
room other than room 0, and it is not clipped: the four calls listed are all the calls of
the frame. -/
theorem C10_counterexample :
    (GenWorldList (scene fun _ _ => true) camera0 4
        (installed (scene fun _ _ => true) blocked)).map (fun s => s.trace) =
      some [Event.add 0, Event.clip (door 0 1) frustum_s.camera true, Event.add 1,
        Event.process (door 0 1) (frustum_s.clipped (door 0 1) frustum_s.camera)] ∧
    door 1 2 ∈ (blocked.rooms (door 0 1).dest_room).portals ∧
    (blocked.rooms (door 1 2).dest_room).active = true ∧
    (door 1 2).dest_room ≠ (door 0 1).current_room := by
  refine ⟨by decide, by decide, by decide, by decide⟩

/-! ## Tidiness from frame to frame -/

theorem RoomFor_scan {N : Nat} (k : Collab) (w : world_s) (cam : camera_s) :
    ∀ (l : List Nat) (s : CRender), RoomFor N s →
      RoomFor N (l.foldl (GenWorldList_scan k w cam) s) ∧
      (l.foldl (GenWorldList_scan k w cam) s).frustum = s.frustum := by
  intro l
  induction l with
  | nil => intro s h; exact ⟨h, rfl⟩
  | cons i l ih =>
    intro s h
    rw [List.foldl_cons]
    by_cases hv : k.Frustum_IsAABBVisible i cam = true
    · have hstep : GenWorldList_scan k w cam s i = (AddRoom k w cam i s).2 := by
        simp [GenWorldList_scan, hv]
      rw [hstep]
      obtain ⟨h1, h2⟩ := ih (AddRoom k w cam i s).2 (RoomFor_AddRoom k w cam i h)
      exact ⟨h1, by rw [h2, AddRoom_frustum]⟩
    · have hstep : GenWorldList_scan k w cam s i = s := by
        simp [GenWorldList_scan, hv]
      rw [hstep]
      exact ih s h

/-- A frame that starts tidy and does not fill the list up ends tidy: `Tidy` holds from
`SetWorld` on, frame after frame. -/
theorem Tidy_GenWorldList {k : Collab} {w : world_s} {cam : camera_s} {fuel : Nat}
    {s s' : CRender} (hw : s.m_world = some w) (ht : Tidy w s)
    (h : GenWorldList k cam fuel s = some s')
    (hroom : s'.r_list_active_count < s'.r_list_size) : Tidy w s' := by
  cases hc : k.Room_FindPosCogerrence cam with
  | some c =>
    have hN : RoomFor s.r_list_size s' :=
      GenWorldList_induct (P := RoomFor s.r_list_size)
        (fun s p e _ _ hs _ => hs)
        (fun s p e _ _ hs _ => RoomFor_enter k w cam p e hs) hw hc
        (RoomFor_first k w cam c s ht) h
    have hflag := hN.2 (hN.1 ▸ hroom)
    refine ⟨hflag, ?_⟩
    intro r ha hne
    rw [chains_GenWorldList hw hc ht h r ha] at hne
    have hex : ∃ p e, Event.clip p e true ∈ s'.trace ∧ p.dest_room = r := by
      by_contra hno
      apply hne
      rw [clipsInto_nil_iff]
      intro p e hm hd
      exact hno ⟨p, e, hm, hd⟩
    obtain ⟨p, e, hm, hd⟩ := hex
    have := (ClipsOK_GenWorldList hw hc h p e true hm).2 rfl (by rw [hd]; exact ha)
    rw [hd] at this
    exact hflag r this
  | none =>
    rw [GenWorldList_none hw hc] at h
    simp only [Option.some.injEq] at h
    subst h
    have h0 : RoomFor s.r_list_size (GenWorldList_begin k cam s) := by
      refine ⟨begin_size k cam s, ?_⟩
      intro _ r hr
      rw [(begin_clean k cam ht r).1] at hr
      exact Bool.noConfusion hr
    obtain ⟨h1, h2⟩ := RoomFor_scan k w cam (List.range w.room_count) _ h0
    refine ⟨h1.2 (h1.1 ▸ hroom), ?_⟩
    intro r ha hne
    rw [h2] at hne
    exact absurd ((begin_clean k cam ht r).2 ha) hne

/-! ## The capacity of the Render List -/

theorem enter_size (k : Collab) (w : world_s) (cam : camera_s) (p : portal_s) (e : frustum_s)
    (s : CRender) : (enter k w cam p e s).r_list_size = s.r_list_size := by
  unfold enter
  rw [AddRoom_size, PFI_size]

theorem InWorld_AddRoom {w : world_s} {s : CRender} (k : Collab) (cam : camera_s) (room : Nat)
    (hr : room < w.room_count) (h : InWorld w s) : InWorld w (AddRoom k w cam room s).2 := by
  intro r hm
  rw [AddRoom_listed] at hm
  split at hm
  · rcases List.mem_append.mp hm with hm | hm
    · exact h r hm
    · simp only [List.mem_singleton, Option.some.injEq] at hm
      rw [hm]; exact hr
  · exact h r hm

theorem InWorld_enter {w : world_s} {s : CRender} (k : Collab) (cam : camera_s) (p : portal_s)
    (e : frustum_s) (hr : p.dest_room < w.room_count) (h : InWorld w s) :
    InWorld w (enter k w cam p e s) := by
  unfold enter
  apply InWorld_AddRoom k cam _ hr
  intro r hm
  rw [PFI_listed] at hm
  exact h r hm

theorem InWorld_scan {w : world_s} (k : Collab) (cam : camera_s) :
    ∀ (l : List Nat) (s : CRender), (∀ i ∈ l, i < w.room_count) → InWorld w s →
      InWorld w (l.foldl (GenWorldList_scan k w cam) s) := by
  intro l
  induction l with
  | nil => intro s _ h; exact h
  | cons i l ih =>
    intro s hl h
    rw [List.foldl_cons]
    apply ih _ (fun j hj => hl j (List.mem_cons_of_mem _ hj))
    unfold GenWorldList_scan
    split
    · exact InWorld_AddRoom k cam i (hl i (List.mem_cons_self _ _)) h
    · exact h

theorem InWorld_GenWorldList {k : Collab} {w : world_s} {cam : camera_s} {fuel : Nat}
    {s s' : CRender} (hw : s.m_world = some w) (hwf : WellFormed w)
    (hloc : ∀ c, k.Room_FindPosCogerrence cam = some c → c < w.room_count)
    (h : GenWorldList k cam fuel s = some s') : InWorld w s' := by
  cases hc : k.Room_FindPosCogerrence cam with
  | some c =>
    refine GenWorldList_induct (P := InWorld w) (fun s p e _ _ hs _ => hs)
      (fun s p e _ hg hs _ => ?_) hw hc ?_ h
    · obtain ⟨x, hx⟩ := hg.2
      exact InWorld_enter k cam p e (hwf x p hx) hs
    · unfold GenWorldList_first
      apply InWorld_AddRoom k cam c (hloc c hc)
      intro r hm
      simp [listedRooms, GenWorldList_begin, CleanList] at hm
  | none =>
    rw [GenWorldList_none hw hc] at h
    simp only [Option.some.injEq] at h
    subst h
    apply InWorld_scan k cam _ _ (fun i hi => List.mem_range.mp hi)
    intro r hm
    simp [listedRooms, GenWorldList_begin, CleanList] at hm

/-- A list of distinct rooms of the world is no longer than the world has rooms. -/
theorem count_le_of_InWorld {w : world_s} {s : CRender} (h1 : ListOK s) (h2 : InWorld w s) :
    s.r_list_active_count ≤ w.room_count := by
  have hsub : listedRooms s ⊆ (List.range w.room_count).map some := by
    intro x hx
    cases x with
    | none => exact absurd hx h1.2.1
    | some r => exact List.mem_map.mpr ⟨r, List.mem_range.mpr (h2 r hx), rfl⟩
  have hlen := (List.subperm_of_subset h1.1 hsub).length_le
  simpa [listedRooms] using hlen

theorem AddsOK_AddRoom {w : world_s} {s : CRender} (k : Collab) (cam : camera_s) (room : Nat)
    (h : AddsOK w s) : AddsOK w (AddRoom k w cam room s).2 := by
  intro r hm ha
  rw [AddRoom_trace] at hm
  rw [AddRoom_flag]
  rcases List.mem_append.mp hm with hm | hm
  · rw [h r hm ha]; simp
  · simp only [List.mem_singleton, Event.add.injEq] at hm
    subst hm
    simp [ha]

theorem AddsOK_enter {w : world_s} {s : CRender} (k : Collab) (cam : camera_s) (p : portal_s)
    (e : frustum_s) (h : AddsOK w s) : AddsOK w (enter k w cam p e s) := by
  unfold enter
  apply AddsOK_AddRoom
  intro r hm ha
  rw [PFI_trace] at hm
  rw [PFI_flag]
  rcases List.mem_append.mp hm with hm | hm
  · exact h r hm ha
  · simp at hm

theorem AddsOK_log {w : world_s} {s : CRender} (ev : Event) (hev : ∀ r, ev ≠ Event.add r)
    (h : AddsOK w s) : AddsOK w (s.log ev) := by
  intro r hm ha
  rw [log_trace] at hm
  rw [log_flag]
  rcases List.mem_append.mp hm with hm | hm
  · exact h r hm ha
  · simp only [List.mem_singleton] at hm
    exact absurd hm.symm (hev r)

theorem AddsOK_scan {w : world_s} (k : Collab) (cam : camera_s) :
    ∀ (l : List Nat) (s : CRender), AddsOK w s →
      AddsOK w (l.foldl (GenWorldList_scan k w cam) s) := by
  intro l
  induction l with
  | nil => intro s h; exact h
  | cons i l ih =>
    intro s h
    rw [List.foldl_cons]
    apply ih
    unfold GenWorldList_scan
    split
    · exact AddsOK_AddRoom k cam i h
    · exact h

theorem AddsOK_begin (k : Collab) (w : world_s) (cam : camera_s) (s : CRender) :
    AddsOK w (GenWorldList_begin k cam s) := by
  intro r hm _
  rw [begin_trace] at hm
  exact absurd hm (List.not_mem_nil _)

theorem AddsOK_GenWorldList {k : Collab} {w : world_s} {cam : camera_s} {fuel : Nat}
    {s s' : CRender} (hw : s.m_world = some w)
    (h : GenWorldList k cam fuel s = some s') : AddsOK w s' := by
  cases hc : k.Room_FindPosCogerrence cam with
  | some c =>
    refine GenWorldList_induct (P := AddsOK w)
      (fun s p e _ _ hs _ => AddsOK_log _ (fun r hr => Event.noConfusion hr) hs)
      (fun s p e _ _ hs _ =>
        AddsOK_log _ (fun r hr => Event.noConfusion hr) (AddsOK_enter k cam p e hs)) hw hc ?_ h
    unfold GenWorldList_first
    apply AddsOK_AddRoom
    intro r hm _
    exact absurd hm (List.not_mem_nil _)
  | none =>
    rw [GenWorldList_none hw hc] at h
    simp only [Option.some.injEq] at h
    subst h
    exact AddsOK_scan k cam _ _ (AddsOK_begin k w cam s)

theorem size_GenWorldList {k : Collab} {w : world_s} {cam : camera_s} {fuel : Nat}
    {s s' : CRender} (hw : s.m_world = some w)
    (h : GenWorldList k cam fuel s = some s') : s'.r_list_size = s.r_list_size := by
  cases hc : k.Room_FindPosCogerrence cam with
  | some c =>
    refine GenWorldList_induct (P := fun t => t.r_list_size = s.r_list_size)
      (fun s p e _ _ hs _ => hs)
      (fun s p e _ _ hs _ => by
        show (CRender.log _ (enter k w cam p e s)).r_list_size = _
        rw [log_size, enter_size]; exact hs) hw hc ?_ h
    show (AddRoom k w cam c _).2.r_list_size = _
    rw [AddRoom_size]
    exact begin_size k cam s
  | none =>
    rw [GenWorldList_none hw hc] at h
    simp only [Option.some.injEq] at h
    subst h
    have : ∀ (l : List Nat) (t : CRender),
        (l.foldl (GenWorldList_scan k w cam) t).r_list_size = t.r_list_size := by
      intro l
      induction l with
      | nil => intro t; rfl
      | cons i l ih =>
        intro t
        rw [List.foldl_cons, ih]
        unfold GenWorldList_scan
        split
        · exact AddRoom_size k w cam i t
        · rfl
    rw [this]
    exact begin_size k cam s

theorem WellFormed_diamond : WellFormed diamond := by
  intro r p hp
  rcases r with _ | _ | _ | _ | r
  · simp only [diamond, List.mem_cons, List.mem_singleton, List.not_mem_nil, or_false] at hp
    rcases hp with rfl | rfl <;> decide
  · simp only [diamond, List.mem_singleton] at hp
    subst hp; decide
  · simp only [diamond, List.mem_singleton] at hp
    subst hp; decide
  · simp [diamond] at hp
  · simp [diamond] at hp

/-- C15. A frame built by `GenWorldList` in a renderer as `SetWorld` and the frames since
leave it (`m_world = w`, capacity `room_count + 128`, tidy), for a world whose portals lead
to rooms of the world and a camera located in a room of the world if in any: at the end
`r_list_active_count <= room_count < r_list_size`; the list was never full, so every
active room `AddRoom` was called for is in the list; and the renderer is tidy again, so
the same holds in the next frame. -/
theorem C15_capacity_suffices (k : Collab) (w : world_s) (cam : camera_s) (fuel : Nat)
    (s s' : CRender) (hw : s.m_world = some w) (hsize : s.r_list_size = w.room_count + 128)
    (hwf : WellFormed w)
    (hloc : ∀ c, k.Room_FindPosCogerrence cam = some c → c < w.room_count)
    (ht : Tidy w s) (h : GenWorldList k cam fuel s = some s') :
    s'.r_list_active_count ≤ w.room_count ∧ w.room_count < s'.r_list_size ∧
      (∀ r, Event.add r ∈ s'.trace → (w.rooms r).active = true → some r ∈ listedRooms s') ∧
      Tidy w s' := by
  have hle := count_le_of_InWorld (ListOK_GenWorldList hw h) (InWorld_GenWorldList hw hwf hloc h)
  have hsz : s'.r_list_size = w.room_count + 128 := by rw [size_GenWorldList hw h, hsize]
  have hroom : s'.r_list_active_count < s'.r_list_size := by omega
  have htidy := Tidy_GenWorldList hw ht h hroom
  refine ⟨hle, by omega, ?_, htidy⟩
  intro r hm ha
  exact htidy.1 r (AddsOK_GenWorldList hw h r hm ha)

/-- C15, witness: the diamond right after `SetWorld`. -/
theorem C15_capacity_suffices_witness :
    ∃ s', GenWorldList (scene fun _ _ => true) camera0 4
        (installed (scene fun _ _ => true) diamond) = some s' ∧
      s'.r_list_active_count ≤ diamond.room_count ∧ diamond.room_count < s'.r_list_size ∧
      (∀ r, Event.add r ∈ s'.trace → (diamond.rooms r).active = true →
        some r ∈ listedRooms s') ∧
      Tidy diamond s' := by
  obtain ⟨s', h⟩ := Option.isSome_iff_exists.mp
    (show (GenWorldList (scene fun _ _ => true) camera0 4
      (installed (scene fun _ _ => true) diamond)).isSome = true by decide)
  exact ⟨s', h, C15_capacity_suffices (scene fun _ _ => true) diamond camera0 4 _ s'
    (installed_world _ _) (by decide) WellFormed_diamond
    (fun c hc => by
      have : c = 0 := by simpa [scene] using hc.symm
      subst this; decide)
    (Tidy_installed _ _) h⟩

/-! ## `SetWorld` and `AddRoom` -/

/-- C17. After `SetWorld(world)` with a non-null world whose `room_count + 128` is
representable in the `uint32_t` in which the sum is computed: the capacity `r_list_size` is
`room_count + 128`, `r_list_active_count` is 0, every entry of the list is inactive with a
null room and distance 0, and every room of the world has `is_in_r_list = 0`. -/
theorem C17_SetWorld_resets (k : Collab) (w : world_s) (s : CRender)
    (hfit : w.room_count + 128 < 2 ^ 32) :
    (SetWorld k (some w) s).r_list_size = w.room_count + 128 ∧
      (SetWorld k (some w) s).r_list_active_count = 0 ∧
      (∀ i, i < (SetWorld k (some w) s).r_list_size →
        (SetWorld k (some w) s).r_list i = { room := none, active := 0, dist := 0 }) ∧
      (∀ r, r < w.room_count → (SetWorld k (some w) s).is_in_r_list r = false) ∧
      (SetWorld k (some w) s).m_world = some w := by
  have hsz : (SetWorld k (some w) s).r_list_size = w.room_count + 128 :=
    Nat.mod_eq_of_lt hfit
  refine ⟨hsz, rfl, ?_, ?_, rfl⟩
  · intro i hi
    have hi2 : i < (w.room_count + 128) % 2 ^ 32 := hi
    show (if i < (w.room_count + 128) % 2 ^ 32 then _ else _) = _
    rw [if_pos hi2]
  · intro r hr
    show (if r < w.room_count then false else _) = false
    rw [if_pos hr]

/-- C17, witness: `SetWorld(diamond)` in a renderer that holds a frame. -/
theorem C17_SetWorld_resets_witness :
    diamond.room_count + 128 < 2 ^ 32 ∧
      (SetWorld (scene fun _ _ => true) (some diamond) used).r_list_size =
        diamond.room_count + 128 ∧
      (SetWorld (scene fun _ _ => true) (some diamond) used).r_list_active_count = 0 ∧
      (∀ i, i < (SetWorld (scene fun _ _ => true) (some diamond) used).r_list_size →
        (SetWorld (scene fun _ _ => true) (some diamond) used).r_list i =
          { room := none, active := 0, dist := 0 }) ∧
      (∀ r, r < diamond.room_count →
        (SetWorld (scene fun _ _ => true) (some diamond) used).is_in_r_list r = false) ∧
      (SetWorld (scene fun _ _ => true) (some diamond) used).m_world = some diamond :=
  ⟨by decide, C17_SetWorld_resets _ diamond used (by decide)⟩

/-- C16. When the Render List is full, `AddRoom` on an active room that is not flagged
returns 0 and leaves the entries, `r_list_active_count` and the capacity as they are; it
returns as in the other cases, nothing tells the caller that the room was dropped, and the
room is flagged `is_in_r_list` all the same. -/
theorem C16_full_list_drops (k : Collab) (w : world_s) (cam : camera_s) (room : Nat)
    (s : CRender) (hfull : s.r_list_active_count = s.r_list_size)
    (hact : (w.rooms room).active = true) (hflag : s.is_in_r_list room = false) :
    (AddRoom k w cam room s).1 = 0 ∧
      (AddRoom k w cam room s).2.r_list = s.r_list ∧
      (AddRoom k w cam room s).2.r_list_active_count = s.r_list_active_count ∧
      (AddRoom k w cam room s).2.r_list_size = s.r_list_size ∧
      (AddRoom k w cam room s).2.r_flags = s.r_flags ∧
      (AddRoom k w cam room s).2.is_in_r_list room = true := by
  have h3 : ¬ s.r_list_active_count < s.r_list_size := by omega
  simp [AddRoom, CRender.log, hact, hflag, h3]

/-- C16, witness: room 0 of the diamond and a full list of capacity 1. -/
theorem C16_full_list_drops_witness :
    (AddRoom (scene fun _ _ => true) diamond camera0 0 full).1 = 0 ∧
      (AddRoom (scene fun _ _ => true) diamond camera0 0 full).2.r_list = full.r_list ∧
      (AddRoom (scene fun _ _ => true) diamond camera0 0 full).2.r_list_active_count =
        full.r_list_active_count ∧
      (AddRoom (scene fun _ _ => true) diamond camera0 0 full).2.r_list_size =
        full.r_list_size ∧
      (AddRoom (scene fun _ _ => true) diamond camera0 0 full).2.r_flags = full.r_flags ∧
      (AddRoom (scene fun _ _ => true) diamond camera0 0 full).2.is_in_r_list 0 = true :=
  C16_full_list_drops _ diamond camera0 0 full rfl rfl rfl

theorem CleanList_fold_entries (l : List Nat) :
    ∀ (s : CRender), l.Nodup →
      (∀ x, (l.foldl CleanList_step s).active_frustums x =
        if some x ∈ l.map (fun i => (s.r_list i).room) then 0 else s.active_frustums x) ∧
      (∀ j, j ∈ l →
        (l.foldl CleanList_step s).r_list j = { room := none, active := 0, dist := 0 }) := by
  induction l with
  | nil => intro s _; simp
  | cons i l ih =>
    intro s hnd
    obtain ⟨hi, hl⟩ := List.nodup_cons.mp hnd
    obtain ⟨h1, h2⟩ := ih (CleanList_step s i) hl
    have hmap : l.map (fun j => ((CleanList_step s i).r_list j).room) =
        l.map (fun j => (s.r_list j).room) := by
      apply List.map_congr_left
      intro j hj
      have : j ≠ i := fun hji => hi (hji ▸ hj)
      simp [CleanList_step, this]
    rw [List.foldl_cons]
    refine ⟨?_, ?_⟩
    · intro x
      rw [h1 x, hmap]
      by_cases hx : some x = (s.r_list i).room
      · simp [CleanList_step, hx]
      · simp only [List.map_cons, List.mem_cons, hx, false_or]
        simp [CleanList_step, hx]
    · intro j hj
      rcases List.mem_cons.mp hj with hj | hj
      · subst hj
        rw [(CleanList_fold l (CleanList_step s j) hl).2.2.1 j hi]
        simp [CleanList_step]
      · exact h2 j hj

/-- The entries and the counts after `CleanList`: the entries that were in use are cleared,
and `active_frustums` is reset for the listed rooms, kept for the others. -/
theorem CleanList_entries (k : Collab) (s : CRender) :
    (∀ x, (CleanList k s).active_frustums x =
      if some x ∈ listedRooms s then 0 else s.active_frustums x) ∧
    (∀ i, i < s.r_list_active_count →
      (CleanList k s).r_list i = { room := none, active := 0, dist := 0 }) := by
  obtain ⟨e1, e2, _, _, _, _⟩ := CleanList_character_same s
  have e3 : (CleanList_character s).active_frustums = s.active_frustums := by
    unfold CleanList_character
    split
    · split <;> rfl
    · rfl
  obtain ⟨h1, h2⟩ :=
    CleanList_fold_entries (List.range (CleanList_character s).r_list_active_count)
      (CleanList_character s) (List.nodup_range _)
  unfold listedRooms
  rw [← e1, ← e2, ← e3]
  exact ⟨h1, fun i hi => h2 i (List.mem_range.mpr hi)⟩

theorem ChainsCounted_CleanList {w : world_s} {s : CRender} (k : Collab)
    (h : ChainsCounted w s) : ChainsCounted w (CleanList k s) := by
  intro r ha
  rw [(CleanList_entries k s).1 r, (CleanList_spec k s).2.1 r]
  split
  · rfl
  · exact h r ha

theorem AddRoom_active_frustums (k : Collab) (w : world_s) (cam : camera_s) (room : Nat)
    (s : CRender) : (AddRoom k w cam room s).2.active_frustums = s.active_frustums := by
  unfold AddRoom
  simp only [log_flag, log_count, log_size]
  split <;> [rfl; (split <;> rfl)]

theorem ChainsCounted_AddRoom {w : world_s} {s : CRender} (k : Collab) (cam : camera_s)
    (room : Nat) (h : ChainsCounted w s) : ChainsCounted w (AddRoom k w cam room s).2 := by
  intro r ha
  rw [AddRoom_active_frustums, AddRoom_frustum]
  exact h r ha

theorem PFI_active_frustums (k : Collab) (p : portal_s) (e : frustum_s) (s : CRender)
    (x : Nat) :
    (PortalFrustumIntersect k p e s).2.active_frustums x =
      if k.clip s p e = true ∧ x = p.dest_room then s.active_frustums x + 1
      else s.active_frustums x := by
  unfold PortalFrustumIntersect
  by_cases h : k.clip s p e = true <;> by_cases hx : x = p.dest_room <;>
    simp [h, hx, CRender.log]

theorem ChainsCounted_enter {w : world_s} {s : CRender} (k : Collab) (cam : camera_s)
    (p : portal_s) (e : frustum_s) (h : ChainsCounted w s) :
    ChainsCounted w (enter k w cam p e s) := by
  unfold enter
  apply ChainsCounted_AddRoom
  intro r ha
  rw [PFI_active_frustums, PFI_frustum]
  split
  · rw [List.length_append, h r ha]; rfl
  · exact h r ha

theorem ChainsCounted_scan {w : world_s} (k : Collab) (cam : camera_s) :
    ∀ (l : List Nat) (s : CRender), ChainsCounted w s →
      ChainsCounted w (l.foldl (GenWorldList_scan k w cam) s) := by
  intro l
  induction l with
  | nil => intro s h; exact h
  | cons i l ih =>
    intro s h
    rw [List.foldl_cons]
    apply ih
    unfold GenWorldList_scan
    split
    · exact ChainsCounted_AddRoom k cam i h
    · exact h

theorem ChainsCounted_GenWorldList {k : Collab} {w : world_s} {cam : camera_s} {fuel : Nat}
    {s s' : CRender} (hw : s.m_world = some w) (ht : Tidy w s) (hj : ChainsCounted w s)
    (h : GenWorldList k cam fuel s = some s') : ChainsCounted w s' := by
  have hb : ChainsCounted w (GenWorldList_begin k cam s) := ChainsCounted_CleanList k hj
  cases hc : k.Room_FindPosCogerrence cam with
  | some c =>
    refine GenWorldList_induct (P := ChainsCounted w) (fun s p e _ _ hs _ => hs)
      (fun s p e _ _ hs _ => ChainsCounted_enter k cam p e hs) hw hc ?_ h
    unfold GenWorldList_first
    apply ChainsCounted_AddRoom
    intro r ha
    show (GenWorldList_begin k cam s).active_frustums r =
      (if r = c then [] else (GenWorldList_begin k cam s).frustum r).length
    rw [hb r ha]
    split
    · rw [(begin_clean k cam ht r).2 ha]
    · rfl
  | none =>
    rw [GenWorldList_none hw hc] at h
    simp only [Option.some.injEq] at h
    subst h
    exact ChainsCounted_scan k cam _ _ hb

theorem ChainsCounted_installed (k : Collab) (w : world_s) :
    ChainsCounted w (installed k w) := fun _ _ => rfl

/-- C18, amended. After the `CleanList` pass that follows a frame built by `GenWorldList`
(started in a renderer as `SetWorld` and the frames since leave it, in a world whose
portals lead to rooms of the world), the Render List is empty, the entries that were in
use are cleared, no room is flagged `is_in_r_list`, and every active room has
`active_frustums = 0` and an empty frustum chain. -/
theorem C18_CleanList_after_frame (k : Collab) (w : world_s) (cam : camera_s) (fuel : Nat)
    (s s' : CRender) (hw : s.m_world = some w) (hsize : s.r_list_size = w.room_count + 128)
    (hwf : WellFormed w)
    (hloc : ∀ c, k.Room_FindPosCogerrence cam = some c → c < w.room_count)
    (ht : Tidy w s) (hj : ChainsCounted w s) (h : GenWorldList k cam fuel s = some s') :
    (CleanList k s').r_list_active_count = 0 ∧
      (∀ i, i < s'.r_list_active_count →
        (CleanList k s').r_list i = { room := none, active := 0, dist := 0 }) ∧
      (∀ r, (CleanList k s').is_in_r_list r = false) ∧
      (∀ r, (w.rooms r).active = true →
        (CleanList k s').active_frustums r = 0 ∧ (CleanList k s').frustum r = []) := by
  have hle := count_le_of_InWorld (ListOK_GenWorldList hw h) (InWorld_GenWorldList hw hwf hloc h)
  have hsz : s'.r_list_size = w.room_count + 128 := by rw [size_GenWorldList hw h, hsize]
  have htidy := Tidy_GenWorldList hw ht h (by omega)
  have hcount := ChainsCounted_GenWorldList hw ht hj h
  refine ⟨rfl, (CleanList_entries k s').2, ?_, ?_⟩
  · intro r
    rw [(CleanList_spec k s').1 r]
    split
    · rfl
    · rename_i hm
      by_contra hf
      exact hm (htidy.1 r (by simpa using hf))
  · intro r ha
    rw [(CleanList_entries k s').1 r, (CleanList_spec k s').2.1 r]
    by_cases hm : some r ∈ listedRooms s'
    · rw [if_pos hm, if_pos hm]
      exact ⟨rfl, rfl⟩
    · rw [if_neg hm, if_neg hm]
      have hnil : s'.frustum r = [] := by
        by_contra hne
        exact hm (htidy.2 r ha hne)
      rw [hcount r ha, hnil]
      exact ⟨rfl, rfl⟩

/-- C18, witness: the frame of the diamond right after `SetWorld`. -/
theorem C18_CleanList_after_frame_witness :
    ∃ s', GenWorldList (scene fun _ _ => true) camera0 4
        (installed (scene fun _ _ => true) diamond) = some s' ∧
      (CleanList (scene fun _ _ => true) s').r_list_active_count = 0 ∧
      (∀ i, i < s'.r_list_active_count →
        (CleanList (scene fun _ _ => true) s').r_list i =
          { room := none, active := 0, dist := 0 }) ∧
      (∀ r, (CleanList (scene fun _ _ => true) s').is_in_r_list r = false) ∧
      (∀ r, (diamond.rooms r).active = true →
        (CleanList (scene fun _ _ => true) s').active_frustums r = 0 ∧
        (CleanList (scene fun _ _ => true) s').frustum r = []) := by
  obtain ⟨s', h⟩ := Option.isSome_iff_exists.mp
    (show (GenWorldList (scene fun _ _ => true) camera0 4
      (installed (scene fun _ _ => true) diamond)).isSome = true by decide)
  exact ⟨s', h, C18_CleanList_after_frame (scene fun _ _ => true) diamond camera0 4 _ s'
    (installed_world _ _) (by decide) WellFormed_diamond
    (fun c hc => by
      have : c = 0 := by simpa [scene] using hc.symm
      subst this; decide)
    (Tidy_installed _ _) (ChainsCounted_installed _ _) h⟩

/-- C18, counterexample: in the world `blocked` the camera's room 0 has a portal into
room 1, which is not active.  The clip of that portal registers a frustum in room 1,
`AddRoom` does not list the room, and `CleanList`, which resets the rooms of the list,
leaves room 1 with `active_frustums = 1` and the frustum in its chain. -/
theorem C18_counterexample :
    (GenWorldList (scene fun _ _ => true) camera0 4
        (installed (scene fun _ _ => true) blocked)).map
      (fun s => (decide (1 < blocked.room_count), listedRooms s,
        (CleanList (scene fun _ _ => true) s).active_frustums 1,
        (CleanList (scene fun _ _ => true) s).frustum 1)) =
      some (true, [some 0], 1, [frustum_s.clipped (door 0 1) frustum_s.camera]) := by
  decide

/-! ## The value returned by `ProcessRoom` -/

/-- C20. The value `ProcessRoom` returns is not the number of rooms the call adds to the
Render List (`r_list_active_count` after the call minus before it).
In the diamond, `ProcessRoom(0 → 1)` called from `GenWorldList` returns 1, the number of
portals of room 1 whose clip succeeded, while the call adds rooms 2 and 3.
In the triangle, with clips that succeed up to depth 2, the nested `ProcessRoom(1 → 2)`
returns 1 for the clip of 2 → 0, while room 0 is in the list already and no room is
added. -/
theorem C20_ProcessRoom_return_value :
    (ProcessRoom (scene fun _ _ => true) diamond camera0 4 (door 0 1)
        (frustum_s.clipped (door 0 1) frustum_s.camera)
        (entered (scene fun _ _ => true) diamond (door 0 1))).map
      (fun r => (r.1, r.2.r_list_active_count -
        (entered (scene fun _ _ => true) diamond (door 0 1)).r_list_active_count,
        listedRooms (entered (scene fun _ _ => true) diamond (door 0 1)),
        listedRooms r.2)) =
      some (1, 2, [some 0, some 1], [some 0, some 1, some 2, some 3]) ∧
    (ProcessRoom (scene fun _ e => decide (e.depth < 3)) triangle camera0 4 (door 1 2)
        (frustum_s.clipped (door 1 2) (frustum_s.clipped (door 0 1) frustum_s.camera))
        (enter (scene fun _ e => decide (e.depth < 3)) triangle camera0 (door 1 2)
          (frustum_s.clipped (door 0 1) frustum_s.camera)
          ((entered (scene fun _ e => decide (e.depth < 3)) triangle (door 0 1)).log
            (Event.process (door 0 1) (frustum_s.clipped (door 0 1) frustum_s.camera))))).map
      (fun r => (r.1, r.2.r_list_active_count, listedRooms r.2)) =
      some (1, 3, [some 0, some 1, some 2]) ∧
    listedRooms (enter (scene fun _ e => decide (e.depth < 3)) triangle camera0 (door 1 2)
          (frustum_s.clipped (door 0 1) frustum_s.camera)
          ((entered (scene fun _ e => decide (e.depth < 3)) triangle (door 0 1)).log
            (Event.process (door 0 1) (frustum_s.clipped (door 0 1) frustum_s.camera)))) =
      [some 0, some 1, some 2] := by
  refine ⟨by decide, by decide, by decide⟩

/-! ## Drawing the BSP tree -/

theorem drawCalls_append (a b : List gl_call) :
    drawCalls (a ++ b) = drawCalls a ++ drawCalls b := by
  simp [drawCalls, List.filterMap_append]

theorem drawCalls_blend_switch (d : DrawCollab) (t : Nat) :
    drawCalls (blend_switch d t) = [] := by
  unfold blend_switch
  repeat' split
  all_goals rfl

theorem drawCalls_draw (n i : Nat) (l : List gl_call) :
    drawCalls (gl_call.glDrawElements n i :: l) = (n, i) :: drawCalls l := rfl

theorem drawCalls_bind (t : Nat) (l : List gl_call) :
    drawCalls (gl_call.glBindTexture t :: l) = drawCalls l := rfl

theorem drawCalls_nil : drawCalls [] = [] := rfl

/-- The effect of one call of `DrawBSPPolygon`. -/
theorem DrawBSPPolygon_spec (d : DrawCollab) (w : world_s) (p : bsp_polygon_s) (s : CRender) :
    (DrawBSPPolygon d w p s).bsp_drawn = s.bsp_drawn ++ [p] ∧
    drawCalls (DrawBSPPolygon d w p s).gl =
      drawCalls s.gl ++ [(p.vertex_count, p.indexes)] ∧
    (DrawBSPPolygon d w p s).m_active_transparency = p.transparency ∧
    (DrawBSPPolygon d w p s).m_active_texture = w.textures p.tex_index ∧
    (DrawBSPPolygon d w p s).gl =
      s.gl ++ (if s.m_active_transparency = p.transparency then []
          else blend_switch d p.transparency) ++
        (if s.m_active_texture = w.textures p.tex_index then []
          else [gl_call.glBindTexture (w.textures p.tex_index)]) ++
        [gl_call.glDrawElements p.vertex_count p.indexes] := by
  by_cases h1 : s.m_active_transparency = p.transparency <;>
    by_cases h2 : s.m_active_texture = w.textures p.tex_index <;>
    refine ⟨?_, ?_, ?_, ?_, ?_⟩ <;>
    simp [DrawBSPPolygon, h1, h2, drawCalls_append, drawCalls_blend_switch, drawCalls_draw,
      drawCalls_bind, drawCalls_nil]

theorem DrawBSPPolygons_spec (d : DrawCollab) (w : world_s) :
    ∀ (l : List bsp_polygon_s) (s : CRender),
      (DrawBSPPolygons d w l s).bsp_drawn = s.bsp_drawn ++ l ∧
      drawCalls (DrawBSPPolygons d w l s).gl =
        drawCalls s.gl ++ l.map (fun p => (p.vertex_count, p.indexes)) := by
  intro l
  induction l with
  | nil => intro s; simp [DrawBSPPolygons]
  | cons p l ih =>
    intro s
    obtain ⟨h1, h2⟩ := ih (DrawBSPPolygon d w p s)
    obtain ⟨g1, g2, _⟩ := DrawBSPPolygon_spec d w p s
    have hstep : DrawBSPPolygons d w (p :: l) s =
        DrawBSPPolygons d w l (DrawBSPPolygon d w p s) := rfl
    rw [hstep, h1, h2, g1, g2]
    simp

theorem B2F_child (d : DrawCollab) (w : world_s) (c : bsp_node_s)
    (ih : ∀ s, c ≠ bsp_node_s.null → ∃ s', DrawBSPBackToFront d w c s = some s' ∧
      s'.bsp_drawn = s.bsp_drawn ++ backToFront_order d c ∧
      drawCalls s'.gl = drawCalls s.gl ++
        (backToFront_order d c).map (fun p => (p.vertex_count, p.indexes)))
    (s : CRender) :
    ∃ s1, (if c = bsp_node_s.null then some s else DrawBSPBackToFront d w c s) = some s1 ∧
      s1.bsp_drawn = s.bsp_drawn ++ backToFront_order d c ∧
      drawCalls s1.gl = drawCalls s.gl ++
        (backToFront_order d c).map (fun p => (p.vertex_count, p.indexes)) := by
  by_cases hc : c = bsp_node_s.null
  · subst hc
    exact ⟨s, by simp, by simp [backToFront_order], by simp [backToFront_order]⟩
  · rw [if_neg hc]
    exact ih s hc

/-- On a root that is not NULL `DrawBSPBackToFront` returns, having called `DrawBSPPolygon`
for the polygons of `backToFront_order` in that order and issued one draw call for each. -/
theorem B2F_run (d : DrawCollab) (w : world_s) :
    ∀ (t : bsp_node_s) (s : CRender), t ≠ bsp_node_s.null →
      ∃ s', DrawBSPBackToFront d w t s = some s' ∧
        s'.bsp_drawn = s.bsp_drawn ++ backToFront_order d t ∧
        drawCalls s'.gl = drawCalls s.gl ++
          (backToFront_order d t).map (fun p => (p.vertex_count, p.indexes)) := by
  intro t
  induction t with
  | null => intro s h; exact absurd rfl h
  | node plane front back pf pb ihf ihb =>
    intro s _
    by_cases hd : 0 ≤ d.vec3_plane_dist plane
    · obtain ⟨s1, e1, a1, b1⟩ := B2F_child d w back ihb s
      obtain ⟨a2, b2⟩ := DrawBSPPolygons_spec d w pb s1
      obtain ⟨a3, b3⟩ := DrawBSPPolygons_spec d w pf (DrawBSPPolygons d w pb s1)
      obtain ⟨s4, e4, a4, b4⟩ := B2F_child d w front ihf
        (DrawBSPPolygons d w pf (DrawBSPPolygons d w pb s1))
      refine ⟨s4, ?_, ?_, ?_⟩
      · rw [DrawBSPBackToFront, if_pos hd, e1]
        exact e4
      · rw [a4, a3, a2, a1]
        simp [backToFront_order, hd]
      · rw [b4, b3, b2, b1]
        simp [backToFront_order, hd]
    · obtain ⟨s1, e1, a1, b1⟩ := B2F_child d w front ihf s
      obtain ⟨a2, b2⟩ := DrawBSPPolygons_spec d w pf s1
      obtain ⟨a3, b3⟩ := DrawBSPPolygons_spec d w pb (DrawBSPPolygons d w pf s1)
      obtain ⟨s4, e4, a4, b4⟩ := B2F_child d w back ihb
        (DrawBSPPolygons d w pb (DrawBSPPolygons d w pf s1))
      refine ⟨s4, ?_, ?_, ?_⟩
      · rw [DrawBSPBackToFront, if_neg hd, e1]
        exact e4
      · rw [a4, a3, a2, a1]
        simp [backToFront_order, hd]
      · rw [b4, b3, b2, b1]
        simp [backToFront_order, hd]

theorem F2B_child (d : DrawCollab) (w : world_s) (c : bsp_node_s)
    (ih : ∀ s, c ≠ bsp_node_s.null → ∃ s', DrawBSPFrontToBack d w c s = some s' ∧
      s'.bsp_drawn = s.bsp_drawn ++ frontToBack_order d c)
    (s : CRender) :
    ∃ s1, (if c = bsp_node_s.null then some s else DrawBSPFrontToBack d w c s) = some s1 ∧
      s1.bsp_drawn = s.bsp_drawn ++ frontToBack_order d c := by
  by_cases hc : c = bsp_node_s.null
  · subst hc
    exact ⟨s, by simp, by simp [frontToBack_order]⟩
  · rw [if_neg hc]
    exact ih s hc

theorem F2B_run (d : DrawCollab) (w : world_s) :
    ∀ (t : bsp_node_s) (s : CRender), t ≠ bsp_node_s.null →
      ∃ s', DrawBSPFrontToBack d w t s = some s' ∧
        s'.bsp_drawn = s.bsp_drawn ++ frontToBack_order d t := by
  intro t
  induction t with
  | null => intro s h; exact absurd rfl h
  | node plane front back pf pb ihf ihb =>
    intro s _
    by_cases hd : 0 ≤ d.vec3_plane_dist plane
    · obtain ⟨s1, e1, a1⟩ := F2B_child d w front ihf s
      obtain ⟨a2, _⟩ := DrawBSPPolygons_spec d w pf s1
      obtain ⟨a3, _⟩ := DrawBSPPolygons_spec d w pb (DrawBSPPolygons d w pf s1)
      obtain ⟨s4, e4, a4⟩ := F2B_child d w back ihb
        (DrawBSPPolygons d w pb (DrawBSPPolygons d w pf s1))
      refine ⟨s4, ?_, ?_⟩
      · rw [DrawBSPFrontToBack, if_pos hd, e1]
        exact e4
      · rw [a4, a3, a2, a1]
        simp [frontToBack_order, hd]
    · obtain ⟨s1, e1, a1⟩ := F2B_child d w back ihb s
      obtain ⟨a2, _⟩ := DrawBSPPolygons_spec d w pb s1
      obtain ⟨a3, _⟩ := DrawBSPPolygons_spec d w pf (DrawBSPPolygons d w pb s1)
      obtain ⟨s4, e4, a4⟩ := F2B_child d w front ihf
        (DrawBSPPolygons d w pf (DrawBSPPolygons d w pb s1))
      refine ⟨s4, ?_, ?_⟩
      · rw [DrawBSPFrontToBack, if_neg hd, e1]
        exact e4
      · rw [a4, a3, a2, a1]
        simp [frontToBack_order, hd]

theorem emittedB2F_eq (d : DrawCollab) (w : world_s) (t : bsp_node_s) :
    emittedB2F d w t = backToFront_order d t := by
  by_cases ht : t = bsp_node_s.null
  · subst ht; rfl
  · obtain ⟨s', e, a, _⟩ := B2F_run d w t {} ht
    unfold emittedB2F
    rw [e]
    show s'.bsp_drawn = _
    rw [a]
    rfl

theorem emittedF2B_eq (d : DrawCollab) (w : world_s) (t : bsp_node_s) :
    emittedF2B d w t = frontToBack_order d t := by
  by_cases ht : t = bsp_node_s.null
  · subst ht; rfl
  · obtain ⟨s', e, a⟩ := F2B_run d w t {} ht
    unfold emittedF2B
    rw [e]
    show s'.bsp_drawn = _
    rw [a]
    rfl

theorem order_split (d : DrawCollab) (N : bsp_node_s) :
    ∀ (root : bsp_node_s), N ∈ subnodes root →
      ∃ pre post, backToFront_order d root = pre ++ backToFront_order d N ++ post := by
  intro root
  induction root with
  | null => intro h; exact absurd h (List.not_mem_nil _)
  | node plane front back pf pb ihf ihb =>
    intro h
    rcases List.mem_cons.mp h with h | h
    · exact ⟨[], [], by rw [h]; simp⟩
    · rcases List.mem_append.mp h with h | h
      · obtain ⟨pre, post, e⟩ := ihf h
        by_cases hd : 0 ≤ d.vec3_plane_dist plane
        · exact ⟨backToFront_order d back ++ pb ++ pf ++ pre, post, by
            simp [backToFront_order, hd, e]⟩
        · exact ⟨pre, post ++ pf ++ pb ++ backToFront_order d back, by
            simp [backToFront_order, hd, e]⟩
      · obtain ⟨pre, post, e⟩ := ihb h
        by_cases hd : 0 ≤ d.vec3_plane_dist plane
        · exact ⟨pre, post ++ pb ++ pf ++ backToFront_order d front, by
            simp [backToFront_order, hd, e]⟩
        · exact ⟨backToFront_order d front ++ pf ++ pb ++ pre, post, by
            simp [backToFront_order, hd, e]⟩

theorem order_perm (d : DrawCollab) :
    ∀ (t : bsp_node_s), (backToFront_order d t).Perm (polygons t) := by
  intro t
  induction t with
  | null => exact List.Perm.refl _
  | node plane front back pf pb ihf ihb =>
    rw [List.perm_iff_count]
    intro x
    have hf := List.perm_iff_count.mp ihf x
    have hb := List.perm_iff_count.mp ihb x
    by_cases hd : 0 ≤ d.vec3_plane_dist plane
    · simp only [backToFront_order, hd, if_true, polygons, List.count_append]
      omega
    · simp only [backToFront_order, hd, if_false, polygons, List.count_append]
      omega

theorem subnodes_ne_null {N root : bsp_node_s} (h : N ∈ subnodes root) :
    root ≠ bsp_node_s.null := by
  intro hr
  subst hr
  exact absurd h (List.not_mem_nil _)

/-- C11. For every tree, every node `N` of it and every side test (camera position), the
sequence of polygons emitted by `DrawBSPBackToFront` holds, as one block, what is emitted
for the far child of `N` followed by the far side list of `N`, and right behind it the near
side list of `N` followed by what is emitted for the near child; the camera is in front
when the signed distance is `>= 0`.  What is emitted for a child is all polygons of its
subtree, and the function returns on this root from every state. -/
theorem C11_back_to_front_order (d : DrawCollab) (w : world_s) (root : bsp_node_s)
    (plane : Nat) (front back : bsp_node_s) (pf pb : List bsp_polygon_s)
    (hN : bsp_node_s.node plane front back pf pb ∈ subnodes root) :
    (∃ pre post, emittedB2F d w root = pre ++
      (if 0 ≤ d.vec3_plane_dist plane then
        (emittedB2F d w back ++ pb) ++ (pf ++ emittedB2F d w front)
      else (emittedB2F d w front ++ pf) ++ (pb ++ emittedB2F d w back)) ++ post) ∧
    (emittedB2F d w front).Perm (polygons front) ∧
    (emittedB2F d w back).Perm (polygons back) ∧
    ∀ s, ∃ s', DrawBSPBackToFront d w root s = some s' ∧
      s'.bsp_drawn = s.bsp_drawn ++ emittedB2F d w root := by
  refine ⟨?_, ?_, ?_, ?_⟩
  · obtain ⟨pre, post, e⟩ := order_split d _ root hN
    refine ⟨pre, post, ?_⟩
    rw [emittedB2F_eq, emittedB2F_eq, emittedB2F_eq, e]
    by_cases hd : 0 ≤ d.vec3_plane_dist plane
    · simp [backToFront_order, hd]
    · simp [backToFront_order, hd]
  · rw [emittedB2F_eq]; exact order_perm d front
  · rw [emittedB2F_eq]; exact order_perm d back
  · intro s
    obtain ⟨s', e, a, _⟩ := B2F_run d w root s (subnodes_ne_null hN)
    exact ⟨s', e, by rw [a, emittedB2F_eq]⟩

/-- C11, witness: the back child of `tree3`, whose plane has the camera behind it. -/
theorem C11_back_to_front_order_witness :
    (∃ pre post, emittedB2F viewer diamond tree3 = pre ++
      (if 0 ≤ viewer.vec3_plane_dist 2 then
        (emittedB2F viewer diamond bsp_node_s.null ++ [poly 6]) ++
          ([poly 5] ++ emittedB2F viewer diamond bsp_node_s.null)
      else (emittedB2F viewer diamond bsp_node_s.null ++ [poly 5]) ++
          ([poly 6] ++ emittedB2F viewer diamond bsp_node_s.null)) ++ post) ∧
    (emittedB2F viewer diamond bsp_node_s.null).Perm (polygons bsp_node_s.null) ∧
    (emittedB2F viewer diamond bsp_node_s.null).Perm (polygons bsp_node_s.null) ∧
    ∀ s, ∃ s', DrawBSPBackToFront viewer diamond tree3 s = some s' ∧
      s'.bsp_drawn = s.bsp_drawn ++ emittedB2F viewer diamond tree3 :=
  C11_back_to_front_order viewer diamond tree3 2 bsp_node_s.null bsp_node_s.null
    [poly 5] [poly 6] (by decide)

theorem reverse_short {α : Type} (l : List α) (h : l.length ≤ 1) : l.reverse = l := by
  match l, h with
  | [], _ => rfl
  | [_], _ => rfl
  | _ :: _ :: _, h => simp at h

theorem F2B_reverse (d : DrawCollab) :
    ∀ (t : bsp_node_s),
      frontToBack_order d t = (backToFront_order d (reverseLists t)).reverse := by
  intro t
  induction t with
  | null => rfl
  | node plane front back pf pb ihf ihb =>
    by_cases hd : 0 ≤ d.vec3_plane_dist plane
    · simp [frontToBack_order, backToFront_order, reverseLists, hd, ihf, ihb]
    · simp [frontToBack_order, backToFront_order, reverseLists, hd, ihf, ihb]

theorem reverseLists_short (d : DrawCollab) :
    ∀ (t : bsp_node_s), shortLists t = true →
      backToFront_order d (reverseLists t) = backToFront_order d t := by
  intro t
  induction t with
  | null => intro _; rfl
  | node plane front back pf pb ihf ihb =>
    intro h
    simp only [shortLists, Bool.and_eq_true, decide_eq_true_eq] at h
    obtain ⟨⟨⟨h1, h2⟩, h3⟩, h4⟩ := h
    simp only [reverseLists, backToFront_order, ihf h3, ihb h4, reverse_short pf h1,
      reverse_short pb h2]

/-- C12, amended. For every tree and every side test, `DrawBSPFrontToBack` visits the
children and the side lists in the opposite order of `DrawBSPBackToFront` and emits each
side list in its own order: its sequence is the reverse of what `DrawBSPBackToFront` emits
for the tree with every side list reversed.  It is the reverse of the sequence of
`DrawBSPBackToFront` when no side list holds two polygons.  On a root that is not NULL the
function returns from every state. -/
theorem C12_front_to_back_mirrors (d : DrawCollab) (w : world_s) (t : bsp_node_s) :
    emittedF2B d w t = (emittedB2F d w (reverseLists t)).reverse ∧
    (shortLists t = true → emittedF2B d w t = (emittedB2F d w t).reverse) ∧
    (t ≠ bsp_node_s.null → ∀ s, ∃ s', DrawBSPFrontToBack d w t s = some s' ∧
      s'.bsp_drawn = s.bsp_drawn ++ emittedF2B d w t) := by
  refine ⟨?_, ?_, ?_⟩
  · rw [emittedF2B_eq, emittedB2F_eq, F2B_reverse]
  · intro h
    rw [emittedF2B_eq, emittedB2F_eq, F2B_reverse, reverseLists_short d t h]
  · intro ht s
    obtain ⟨s', e, a⟩ := F2B_run d w t s ht
    exact ⟨s', e, by rw [a, emittedF2B_eq]⟩

/-- C12, witness: `tree3`, whose side lists hold one polygon each. -/
theorem C12_front_to_back_mirrors_witness :
    emittedF2B viewer diamond tree3 = (emittedB2F viewer diamond tree3).reverse ∧
    ∀ s, ∃ s', DrawBSPFrontToBack viewer diamond tree3 s = some s' ∧
      s'.bsp_drawn = s.bsp_drawn ++ emittedF2B viewer diamond tree3 :=
  ⟨(C12_front_to_back_mirrors viewer diamond tree3).2.1 (by decide),
   (C12_front_to_back_mirrors viewer diamond tree3).2.2 (by decide)⟩

/-- C12, counterexample: a single node with the polygons 1 and 2 in its front list.  Both
functions emit 1 and then 2; the sequence of `DrawBSPFrontToBack` is not the reverse of the
one of `DrawBSPBackToFront`. -/
theorem C12_counterexample :
    emittedB2F viewer diamond pair = [poly 1, poly 2] ∧
    emittedF2B viewer diamond pair = [poly 1, poly 2] ∧
    emittedF2B viewer diamond pair ≠ (emittedB2F viewer diamond pair).reverse := by
  refine ⟨by decide, by decide, by decide⟩

/-- C13. On a root that is not NULL `DrawBSPBackToFront` returns, and the calls of
`glDrawElements` it issues are one per polygon, in the order the polygons are traversed,
whatever their blend modes and texture indices are.  One call of `DrawBSPPolygon` issues
the blend call of the polygon's mode if the active mode differs, binds the polygon's
texture if the active texture differs, and then draws the polygon; afterwards
`m_active_transparency` is the polygon's mode and `m_active_texture` its texture. -/
theorem C13_draw_calls_in_order (d : DrawCollab) (w : world_s) (t : bsp_node_s)
    (s : CRender) (ht : t ≠ bsp_node_s.null) :
    (∃ s', DrawBSPBackToFront d w t s = some s' ∧
      s'.bsp_drawn = s.bsp_drawn ++ emittedB2F d w t ∧
      drawCalls s'.gl = drawCalls s.gl ++
        (emittedB2F d w t).map (fun p => (p.vertex_count, p.indexes))) ∧
    ∀ (p : bsp_polygon_s) (s0 : CRender),
      (DrawBSPPolygon d w p s0).gl =
        s0.gl ++ (if s0.m_active_transparency = p.transparency then []
            else blend_switch d p.transparency) ++
          (if s0.m_active_texture = w.textures p.tex_index then []
            else [gl_call.glBindTexture (w.textures p.tex_index)]) ++
          [gl_call.glDrawElements p.vertex_count p.indexes] ∧
      drawCalls (blend_switch d p.transparency) = [] ∧
      drawCalls (DrawBSPPolygon d w p s0).gl =
        drawCalls s0.gl ++ [(p.vertex_count, p.indexes)] ∧
      (DrawBSPPolygon d w p s0).bsp_drawn = s0.bsp_drawn ++ [p] ∧
      (DrawBSPPolygon d w p s0).m_active_transparency = p.transparency ∧
      (DrawBSPPolygon d w p s0).m_active_texture = w.textures p.tex_index := by
  constructor
  · obtain ⟨s', e, a, b⟩ := B2F_run d w t s ht
    exact ⟨s', e, by rw [a, emittedB2F_eq], by rw [b, emittedB2F_eq]⟩
  · intro p s0
    obtain ⟨h1, h2, h3, h4, h5⟩ := DrawBSPPolygon_spec d w p s0
    exact ⟨h5, drawCalls_blend_switch d _, h2, h1, h3, h4⟩

/-- C13, witness: `tree3` drawn from the initial state; the six polygons are drawn in the
order 5, 6, 2, 1, 4, 3 of the traversal. -/
theorem C13_draw_calls_in_order_witness :
    emittedB2F viewer diamond tree3 = [poly 5, poly 6, poly 2, poly 1, poly 4, poly 3] ∧
    (∃ s', DrawBSPBackToFront viewer diamond tree3 {} = some s' ∧
      s'.bsp_drawn = ({} : CRender).bsp_drawn ++ emittedB2F viewer diamond tree3 ∧
      drawCalls s'.gl = drawCalls ({} : CRender).gl ++
        (emittedB2F viewer diamond tree3).map (fun p => (p.vertex_count, p.indexes))) :=
  ⟨by decide, (C13_draw_calls_in_order viewer diamond tree3 {} (by decide)).1⟩

/-! ## The lists inserted into the dynamic BSP tree -/

theorem mem_on_room {α : Type} (f : Nat → List α) (x : α) (l : List (Option Nat)) :
    x ∈ l.flatMap (on_room f) ↔ ∃ r, some r ∈ l ∧ x ∈ f r := by
  rw [List.mem_flatMap]
  constructor
  · rintro ⟨a, ha, hx⟩
    cases a with
    | none => exact absurd hx (List.not_mem_nil _)
    | some r => exact ⟨r, ha, hx⟩
  · rintro ⟨r, hr, hx⟩
    exact ⟨some r, hr, hx⟩

theorem mem_bone_lists (w : world_s) (e : Nat) (x : poly_source) :
    x ∈ bone_lists w e ↔ ∃ j, j < (w.entities e).bone_tags.length ∧
      ((w.entities e).bone_tags.getD j {}).mesh_base.transparency_polygons ≠ none ∧
      x = poly_source.bone e j := by
  unfold bone_lists
  rw [List.mem_filterMap]
  constructor
  · rintro ⟨j, hj, hx⟩
    split at hx
    · rename_i ht
      exact ⟨j, List.mem_range.mp hj, ht, by simpa using hx.symm⟩
    · exact Option.noConfusion hx
  · rintro ⟨j, hj, ht, hx⟩
    exact ⟨j, List.mem_range.mpr hj, by rw [if_pos ht, hx]⟩

theorem mem_room_mesh_lists (w : world_s) (r : Nat) (x : poly_source) :
    x ∈ room_mesh_lists w r ↔
      (∃ m, (w.rooms r).mesh = some m ∧ m.transparency_polygons ≠ none) ∧
      x = poly_source.room_mesh r := by
  unfold room_mesh_lists
  cases hm : (w.rooms r).mesh with
  | none => simp
  | some m =>
    by_cases ht : m.transparency_polygons = none
    · simp [ht]
    · simp [ht]

theorem static_mesh_gate_iff (d : DrawCollab) (w : world_s) (s : CRender) (r j : Nat) :
    static_mesh_gate d w s r j = true ↔
      ((w.rooms r).static_mesh.getD j {}).mesh.transparency_polygons ≠ none ∧
      d.Frustum_IsOBBVisibleInFrustumList ((w.rooms r).static_mesh.getD j {}).obb
        (room_frustums s r) = true := by
  unfold static_mesh_gate
  rw [Bool.and_eq_true, decide_eq_true_iff]

theorem mem_static_mesh_calls (d : DrawCollab) (w : world_s) (s : CRender) (r : Nat)
    (x : poly_source) :
    x ∈ static_mesh_calls d w s r ↔ ∃ j, j < (w.rooms r).static_mesh_count ∧
      ((w.rooms r).static_mesh.getD j {}).mesh.transparency_polygons ≠ none ∧
      d.Frustum_IsOBBVisibleInFrustumList ((w.rooms r).static_mesh.getD j {}).obb
        (room_frustums s r) = true ∧
      x = poly_source.static_mesh r j := by
  unfold static_mesh_calls
  rw [List.mem_filterMap]
  constructor
  · rintro ⟨j, hj, hx⟩
    split at hx
    · rename_i ht
      have ht2 := (static_mesh_gate_iff d w s r j).mp ht
      exact ⟨j, List.mem_range.mp hj, ht2.1, ht2.2, by simpa using hx.symm⟩
    · exact Option.noConfusion hx
  · rintro ⟨j, hj, h1, h2, hx⟩
    exact ⟨j, List.mem_range.mpr hj,
      by rw [if_pos ((static_mesh_gate_iff d w s r j).mpr ⟨h1, h2⟩), hx]⟩

theorem mem_entity_lists (k : Collab) (d : DrawCollab) (w : world_s) (s : CRender) (r : Nat)
    (x : poly_source) :
    x ∈ entity_lists k d w s r ↔
      ∃ e, e ∈ held k w r ∧ entity_gate d w s r e = true ∧ x ∈ bone_lists w e := by
  unfold entity_lists
  rw [List.mem_flatMap]
  constructor
  · rintro ⟨e, he, hx⟩
    split at hx
    · rename_i hg
      exact ⟨e, he, hg, hx⟩
    · exact absurd hx (List.not_mem_nil _)
  · rintro ⟨e, he, hg, hx⟩
    exact ⟨e, he, by rw [if_pos hg]; exact hx⟩

theorem mem_character_lists (d : DrawCollab) (w : world_s) (x : poly_source) :
    x ∈ character_lists d w ↔ ∃ c, d.engine_world_Character = some c ∧
      (w.entities c).transparency_flags = d.MESH_HAS_TRANSPARENCY ∧ x ∈ bone_lists w c := by
  unfold character_lists
  cases hc : d.engine_world_Character with
  | none => simp
  | some c =>
    by_cases hf : (w.entities c).transparency_flags = d.MESH_HAS_TRANSPARENCY
    · simp [hf]
    · simp [hf]

theorem flatMap_unique {α β : Type} {f : α → List β} {l : List α} (h : (l.flatMap f).Nodup)
    {a b : α} (ha : a ∈ l) (hb : b ∈ l) {x : β} (hxa : x ∈ f a) (hxb : x ∈ f b) : a = b := by
  by_contra hab
  have hp := (List.nodup_flatMap.mp h).2
  exact List.Pairwise.forall (fun _ _ hd => List.Disjoint.symm hd) hp ha hb hab hxa hxb

theorem nodup_flatMap_of {α β : Type} {f : α → List β} {l : List α} (hl : l.Nodup)
    (h1 : ∀ a ∈ l, (f a).Nodup)
    (h2 : ∀ a ∈ l, ∀ b ∈ l, ∀ x, x ∈ f a → x ∈ f b → a = b) : (l.flatMap f).Nodup :=
  List.nodup_flatMap.mpr ⟨h1, hl.pairwise_of_forall_ne
    (fun a ha b hb hab x hxa hxb => hab (h2 a ha b hb x hxa hxb))⟩

theorem bone_lists_nodup (w : world_s) (e : Nat) : (bone_lists w e).Nodup := by
  unfold bone_lists
  apply List.Nodup.filterMap _ (List.nodup_range _)
  intro a a' b hb hb'
  split at hb <;> split at hb' <;> simp at hb hb'
  rw [← hb'] at hb
  simpa using hb

theorem static_mesh_calls_nodup (d : DrawCollab) (w : world_s) (s : CRender) (r : Nat) :
    (static_mesh_calls d w s r).Nodup := by
  unfold static_mesh_calls
  apply List.Nodup.filterMap _ (List.nodup_range _)
  intro a a' b hb hb'
  split at hb <;> split at hb' <;> simp at hb hb'
  rw [← hb'] at hb
  simpa using hb

theorem room_mesh_lists_nodup (w : world_s) (r : Nat) : (room_mesh_lists w r).Nodup := by
  unfold room_mesh_lists
  split
  · split
    · exact List.nodup_singleton _
    · exact List.nodup_nil
  · exact List.nodup_nil

theorem entity_lists_nodup (k : Collab) (d : DrawCollab) (w : world_s) (s : CRender) (r : Nat)
    (hh : (held k w r).Nodup) : (entity_lists k d w s r).Nodup := by
  unfold entity_lists
  apply nodup_flatMap_of hh
  · intro e _
    split
    · exact bone_lists_nodup w e
    · exact List.nodup_nil
  · intro a _ b _ x hxa hxb
    split at hxa
    · split at hxb
      · obtain ⟨j, _, _, e1⟩ := (mem_bone_lists w a x).mp hxa
        obtain ⟨j', _, _, e2⟩ := (mem_bone_lists w b x).mp hxb
        rw [e1] at e2
        exact (poly_source.bone.inj e2).1
      · exact absurd hxb (List.not_mem_nil _)
    · exact absurd hxa (List.not_mem_nil _)

theorem character_lists_nodup (d : DrawCollab) (w : world_s) : (character_lists d w).Nodup := by
  unfold character_lists
  split
  · split
    · exact bone_lists_nodup w _
    · exact List.nodup_nil
  · exact List.nodup_nil

/-- When the listed rooms are distinct, each entity is held once by them and the Character
is not held by them, no call of `AddNewPolygonList` is made twice. -/
theorem DrawList_calls_nodup (k : Collab) (d : DrawCollab) (w : world_s) (s : CRender)
    (hl : (listedRooms s).Nodup) (hheld : (heldEntities k w s).Nodup)
    (hchar : ∀ c, d.engine_world_Character = some c → c ∉ heldEntities k w s) :
    (DrawList_calls k d w s).Nodup := by
  have hA : ((listedRooms s).flatMap (on_room (room_mesh_lists w))).Nodup := by
    apply nodup_flatMap_of hl
    · intro a _
      cases a with
      | none => exact List.nodup_nil
      | some r => exact room_mesh_lists_nodup w r
    · intro a _ b _ x hxa hxb
      cases a with
      | none => exact absurd hxa (List.not_mem_nil _)
      | some r =>
        cases b with
        | none => exact absurd hxb (List.not_mem_nil _)
        | some r' =>
          have e1 := ((mem_room_mesh_lists w r x).mp hxa).2
          have e2 := ((mem_room_mesh_lists w r' x).mp hxb).2
          rw [e1] at e2
          rw [poly_source.room_mesh.inj e2]
  have hB : ((listedRooms s).flatMap
      (on_room fun r => static_mesh_calls d w s r ++ entity_lists k d w s r)).Nodup := by
    apply nodup_flatMap_of hl
    · intro a ha
      cases a with
      | none => exact List.nodup_nil
      | some r =>
        refine List.nodup_append.mpr ⟨static_mesh_calls_nodup d w s r,
          entity_lists_nodup k d w s r ((List.nodup_flatMap.mp hheld).1 (some r) ha), ?_⟩
        intro x hx1 hx2
        obtain ⟨j, _, _, _, e1⟩ := (mem_static_mesh_calls d w s r x).mp hx1
        obtain ⟨e, _, _, hb⟩ := (mem_entity_lists k d w s r x).mp hx2
        obtain ⟨j', _, _, e2⟩ := (mem_bone_lists w e x).mp hb
        rw [e1] at e2
        exact poly_source.noConfusion e2
    · intro a ha b hb x hxa hxb
      cases a with
      | none => exact absurd hxa (List.not_mem_nil _)
      | some r =>
        cases b with
        | none => exact absurd hxb (List.not_mem_nil _)
        | some r' =>
          rcases List.mem_append.mp hxa with h1 | h1 <;>
            rcases List.mem_append.mp hxb with h2 | h2
          · obtain ⟨j, _, _, _, e1⟩ := (mem_static_mesh_calls d w s r x).mp h1
            obtain ⟨j', _, _, _, e2⟩ := (mem_static_mesh_calls d w s r' x).mp h2
            rw [e1] at e2
            rw [(poly_source.static_mesh.inj e2).1]
          · obtain ⟨j, _, _, _, e1⟩ := (mem_static_mesh_calls d w s r x).mp h1
            obtain ⟨e, _, _, hb2⟩ := (mem_entity_lists k d w s r' x).mp h2
            obtain ⟨j', _, _, e2⟩ := (mem_bone_lists w e x).mp hb2
            rw [e1] at e2
            exact poly_source.noConfusion e2
          · obtain ⟨j, _, _, _, e1⟩ := (mem_static_mesh_calls d w s r' x).mp h2
            obtain ⟨e, _, _, hb2⟩ := (mem_entity_lists k d w s r x).mp h1
            obtain ⟨j', _, _, e2⟩ := (mem_bone_lists w e x).mp hb2
            rw [e1] at e2
            exact poly_source.noConfusion e2
          · obtain ⟨e, he, _, hb1⟩ := (mem_entity_lists k d w s r x).mp h1
            obtain ⟨e', he', _, hb2⟩ := (mem_entity_lists k d w s r' x).mp h2
            obtain ⟨j, _, _, e1⟩ := (mem_bone_lists w e x).mp hb1
            obtain ⟨j', _, _, e2⟩ := (mem_bone_lists w e' x).mp hb2
            rw [e1] at e2
            have hee : e = e' := (poly_source.bone.inj e2).1
            rw [← hee] at he'
            exact flatMap_unique hheld ha hb he he'
  have hAB : ((listedRooms s).flatMap (on_room (room_mesh_lists w))).Disjoint
      ((listedRooms s).flatMap
        (on_room fun r => static_mesh_calls d w s r ++ entity_lists k d w s r)) := by
    intro x hx1 hx2
    obtain ⟨r, _, h1⟩ := (mem_on_room _ x _).mp hx1
    obtain ⟨r', _, h2⟩ := (mem_on_room _ x _).mp hx2
    have e1 := ((mem_room_mesh_lists w r x).mp h1).2
    rcases List.mem_append.mp h2 with h2 | h2
    · obtain ⟨j, _, _, _, e2⟩ := (mem_static_mesh_calls d w s r' x).mp h2
      rw [e1] at e2
      exact poly_source.noConfusion e2
    · obtain ⟨e, _, _, hb2⟩ := (mem_entity_lists k d w s r' x).mp h2
      obtain ⟨j', _, _, e2⟩ := (mem_bone_lists w e x).mp hb2
      rw [e1] at e2
      exact poly_source.noConfusion e2
  refine List.nodup_append.mpr ⟨List.nodup_append.mpr ⟨hA, hB, hAB⟩,
    character_lists_nodup d w, ?_⟩
  intro x hx1 hx2
  obtain ⟨c, hc, _, hb⟩ := (mem_character_lists d w x).mp hx2
  obtain ⟨j, _, _, e0⟩ := (mem_bone_lists w c x).mp hb
  rcases List.mem_append.mp hx1 with hx1 | hx1
  · obtain ⟨r, _, h1⟩ := (mem_on_room _ x _).mp hx1
    have e1 := ((mem_room_mesh_lists w r x).mp h1).2
    rw [e1] at e0
    exact poly_source.noConfusion e0
  · obtain ⟨r, hr, h1⟩ := (mem_on_room _ x _).mp hx1
    rcases List.mem_append.mp h1 with h1 | h1
    · obtain ⟨j', _, _, _, e1⟩ := (mem_static_mesh_calls d w s r x).mp h1
      rw [e1] at e0
      exact poly_source.noConfusion e0
    · obtain ⟨e, he, _, hb2⟩ := (mem_entity_lists k d w s r x).mp h1
      obtain ⟨j', _, _, e1⟩ := (mem_bone_lists w e x).mp hb2
      rw [e1] at e0
      have hec : e = c := (poly_source.bone.inj e0).1
      rw [hec] at he
      exact hchar c hc ((mem_on_room _ c _).mpr ⟨r, hr, he⟩)

theorem mem_lists_room_mesh (k : Collab) (d : DrawCollab) (w : world_s) (s : CRender)
    (r : Nat) :
    poly_source.room_mesh r ∈ DrawList_calls k d w s ↔
      some r ∈ listedRooms s ∧
      ∃ m, (w.rooms r).mesh = some m ∧ m.transparency_polygons ≠ none := by
  unfold DrawList_calls
  constructor
  · intro h
    rcases List.mem_append.mp h with h | h
    · rcases List.mem_append.mp h with h | h
      · obtain ⟨r', hr', h1⟩ := (mem_on_room _ _ _).mp h
        obtain ⟨hm, e⟩ := (mem_room_mesh_lists w r' _).mp h1
        rw [← poly_source.room_mesh.inj e] at hr' hm
        exact ⟨hr', hm⟩
      · obtain ⟨r', _, h1⟩ := (mem_on_room _ _ _).mp h
        rcases List.mem_append.mp h1 with h1 | h1
        · obtain ⟨j, _, _, _, e⟩ := (mem_static_mesh_calls d w s r' _).mp h1
          exact poly_source.noConfusion e
        · obtain ⟨e, _, _, hb⟩ := (mem_entity_lists k d w s r' _).mp h1
          obtain ⟨j, _, _, e2⟩ := (mem_bone_lists w e _).mp hb
          exact poly_source.noConfusion e2
    · obtain ⟨c, _, _, hb⟩ := (mem_character_lists d w _).mp h
      obtain ⟨j, _, _, e2⟩ := (mem_bone_lists w c _).mp hb
      exact poly_source.noConfusion e2
  · rintro ⟨hr, hm⟩
    apply List.mem_append_left
    apply List.mem_append_left
    exact (mem_on_room _ _ _).mpr ⟨r, hr, (mem_room_mesh_lists w r _).mpr ⟨hm, rfl⟩⟩

theorem mem_lists_static_mesh (k : Collab) (d : DrawCollab) (w : world_s) (s : CRender)
    (r j : Nat) :
    poly_source.static_mesh r j ∈ DrawList_calls k d w s ↔
      some r ∈ listedRooms s ∧ j < (w.rooms r).static_mesh_count ∧
      ((w.rooms r).static_mesh.getD j {}).mesh.transparency_polygons ≠ none ∧
      d.Frustum_IsOBBVisibleInFrustumList ((w.rooms r).static_mesh.getD j {}).obb
        (room_frustums s r) = true := by
  unfold DrawList_calls
  constructor
  · intro h
    rcases List.mem_append.mp h with h | h
    · rcases List.mem_append.mp h with h | h
      · obtain ⟨r', _, h1⟩ := (mem_on_room _ _ _).mp h
        exact poly_source.noConfusion ((mem_room_mesh_lists w r' _).mp h1).2
      · obtain ⟨r', hr', h1⟩ := (mem_on_room _ _ _).mp h
        rcases List.mem_append.mp h1 with h1 | h1
        · obtain ⟨j', hj, ht, hv, e⟩ := (mem_static_mesh_calls d w s r' _).mp h1
          obtain ⟨e1, e2⟩ := poly_source.static_mesh.inj e
          subst e1; subst e2
          exact ⟨hr', hj, ht, hv⟩
        · obtain ⟨e, _, _, hb⟩ := (mem_entity_lists k d w s r' _).mp h1
          obtain ⟨j', _, _, e2⟩ := (mem_bone_lists w e _).mp hb
          exact poly_source.noConfusion e2
    · obtain ⟨c, _, _, hb⟩ := (mem_character_lists d w _).mp h
      obtain ⟨j', _, _, e2⟩ := (mem_bone_lists w c _).mp hb
      exact poly_source.noConfusion e2
  · rintro ⟨hr, hj, ht, hv⟩
    apply List.mem_append_left
    apply List.mem_append_right
    exact (mem_on_room _ _ _).mpr ⟨r, hr, List.mem_append_left _
      ((mem_static_mesh_calls d w s r _).mpr ⟨j, hj, ht, hv, rfl⟩)⟩

theorem mem_lists_bone (k : Collab) (d : DrawCollab) (w : world_s) (s : CRender)
    (e j : Nat) (hne : d.engine_world_Character ≠ some e) :
    poly_source.bone e j ∈ DrawList_calls k d w s ↔
      (∃ r, some r ∈ listedRooms s ∧ e ∈ held k w r ∧ entity_gate d w s r e = true) ∧
      j < (w.entities e).bone_tags.length ∧
      ((w.entities e).bone_tags.getD j {}).mesh_base.transparency_polygons ≠ none := by
  unfold DrawList_calls
  constructor
  · intro h
    rcases List.mem_append.mp h with h | h
    · rcases List.mem_append.mp h with h | h
      · obtain ⟨r', _, h1⟩ := (mem_on_room _ _ _).mp h
        exact poly_source.noConfusion ((mem_room_mesh_lists w r' _).mp h1).2
      · obtain ⟨r', hr', h1⟩ := (mem_on_room _ _ _).mp h
        rcases List.mem_append.mp h1 with h1 | h1
        · obtain ⟨j', _, _, _, e2⟩ := (mem_static_mesh_calls d w s r' _).mp h1
          exact poly_source.noConfusion e2
        · obtain ⟨e', he, hg, hb⟩ := (mem_entity_lists k d w s r' _).mp h1
          obtain ⟨j', hj, ht, e2⟩ := (mem_bone_lists w e' _).mp hb
          obtain ⟨e3, e4⟩ := poly_source.bone.inj e2
          subst e3; subst e4
          exact ⟨⟨r', hr', he, hg⟩, hj, ht⟩
    · obtain ⟨c, hc, _, hb⟩ := (mem_character_lists d w _).mp h
      obtain ⟨j', _, _, e2⟩ := (mem_bone_lists w c _).mp hb
      rw [← (poly_source.bone.inj e2).1] at hc
      exact absurd hc hne
  · rintro ⟨⟨r, hr, he, hg⟩, hj, ht⟩
    apply List.mem_append_left
    apply List.mem_append_right
    exact (mem_on_room _ _ _).mpr ⟨r, hr, List.mem_append_right _
      ((mem_entity_lists k d w s r _).mpr
        ⟨e, he, hg, (mem_bone_lists w e _).mpr ⟨j, hj, ht, rfl⟩⟩)⟩

/-! ## The loops of the transparent pass -/

/-- With `static_mesh_count` at `2 ^ 16` or more the loop of line 341 does not end: on no
fuel does it return. -/
theorem static_mesh_loop_hangs (d : DrawCollab) (w : world_s) (s : CRender) (r : Nat)
    (h : 2 ^ 16 ≤ (w.rooms r).static_mesh_count) :
    ∀ (fuel j : Nat) (acc : List poly_source), j < 2 ^ 16 →
      static_mesh_loop d w s r fuel j acc = none := by
  intro fuel
  induction fuel with
  | zero => intro j acc _; rfl
  | succ n ih =>
    intro j acc hj
    rw [static_mesh_loop, if_pos (Nat.lt_of_lt_of_le hj h)]
    exact ih _ _ (Nat.mod_lt _ (by decide))

theorem static_mesh_loop_run (d : DrawCollab) (w : world_s) (s : CRender) (r : Nat)
    (h : (w.rooms r).static_mesh_count < 2 ^ 16) :
    ∀ (n j : Nat) (acc : List poly_source), j + n = (w.rooms r).static_mesh_count →
      static_mesh_loop d w s r (n + 1) j acc =
        some (acc ++ (List.range' j n).filterMap fun i =>
          if static_mesh_gate d w s r i then some (poly_source.static_mesh r i) else none) := by
  intro n
  induction n with
  | zero =>
    intro j acc hj
    rw [static_mesh_loop, if_neg (by omega)]
    simp
  | succ n ih =>
    intro j acc hj
    have hmod : (j + 1) % 2 ^ 16 = j + 1 := Nat.mod_eq_of_lt (by omega)
    rw [static_mesh_loop, if_pos (by omega), hmod, ih (j + 1) _ (by omega)]
    rw [List.range'_succ, List.filterMap_cons]
    by_cases hg : static_mesh_gate d w s r j = true
    · simp [hg]
    · simp [hg]

/-- When `static_mesh_count` is below `2 ^ 16` the loop over the static meshes ends, with
the calls of the closed form. -/
theorem static_mesh_lists_eq (d : DrawCollab) (w : world_s) (s : CRender) (r : Nat)
    (h : (w.rooms r).static_mesh_count < 2 ^ 16) :
    static_mesh_lists d w s r = some (static_mesh_calls d w s r) := by
  unfold static_mesh_lists static_mesh_calls
  rw [static_mesh_loop_run d w s r h _ 0 [] (Nat.zero_add _), List.nil_append,
    List.range_eq_range']

theorem static_mesh_lists_none (d : DrawCollab) (w : world_s) (s : CRender) (r : Nat)
    (h : 2 ^ 16 ≤ (w.rooms r).static_mesh_count) : static_mesh_lists d w s r = none :=
  static_mesh_loop_hangs d w s r h _ 0 [] (by decide)

theorem DrawList_rounds_eq (k : Collab) (d : DrawCollab) (w : world_s) (s : CRender) :
    ∀ (l : List (Option Nat)),
      (∀ r, some r ∈ l → (w.rooms r).static_mesh_count < 2 ^ 16) →
      DrawList_rounds k d w s l =
        some (l.flatMap
          (on_room fun r => static_mesh_calls d w s r ++ entity_lists k d w s r)) := by
  intro l
  induction l with
  | nil => intro _; rfl
  | cons a l ih =>
    intro h
    have ih2 := ih (fun r hr => h r (List.mem_cons_of_mem _ hr))
    cases a with
    | none =>
      rw [DrawList_rounds, ih2, List.flatMap_cons]
      rfl
    | some r =>
      rw [DrawList_rounds, static_mesh_lists_eq d w s r (h r (List.mem_cons_self _ _))]
      simp only [ih2, List.flatMap_cons, on_room]

/-- When the static meshes of every listed room are fewer than `2 ^ 16` the transparent
pass gets to its end, with the calls of the closed form. -/
theorem DrawList_lists_eq (k : Collab) (d : DrawCollab) (w : world_s) (s : CRender)
    (h : ∀ r, some r ∈ listedRooms s → (w.rooms r).static_mesh_count < 2 ^ 16) :
    DrawList_lists k d w s = some (DrawList_calls k d w s) := by
  unfold DrawList_lists DrawList_calls
  rw [DrawList_rounds_eq k d w s _ h]

/-- With `2 ^ 16` static meshes or more in a listed room the transparent pass does not get
to its end. -/
theorem DrawList_lists_none (k : Collab) (d : DrawCollab) (w : world_s) (s : CRender)
    (r : Nat) (hr : some r ∈ listedRooms s) (h : 2 ^ 16 ≤ (w.rooms r).static_mesh_count) :
    DrawList_lists k d w s = none := by
  have hl : ∀ (l : List (Option Nat)), some r ∈ l → DrawList_rounds k d w s l = none := by
    intro l
    induction l with
    | nil => intro hm; exact absurd hm (List.not_mem_nil _)
    | cons a l ih =>
      intro hm
      cases a with
      | none =>
        rw [DrawList_rounds]
        rcases List.mem_cons.mp hm with e | hm2
        · exact Option.noConfusion e
        · exact ih hm2
      | some r' =>
        rw [DrawList_rounds]
        rcases List.mem_cons.mp hm with e | hm2
        · rw [← Option.some.inj e, static_mesh_lists_none d w s r h]
        · rw [ih hm2]
          cases static_mesh_lists d w s r' <;> rfl
  unfold DrawList_lists
  rw [hl _ hr]

theorem count_flatMap_le_one {α β : Type} [DecidableEq β] (f : α → List β) (x : β) :
    ∀ (l : List α), l.Nodup → (∀ a ∈ l, (f a).count x ≤ 1) →
      (∀ a ∈ l, ∀ b ∈ l, x ∈ f a → x ∈ f b → a = b) → (l.flatMap f).count x ≤ 1 := by
  intro l
  induction l with
  | nil => intro _ _ _; simp
  | cons a l ih =>
    intro hn h1 h2
    rw [List.flatMap_cons, List.count_append]
    have hn2 := List.nodup_cons.mp hn
    by_cases hx : x ∈ f a
    · have h0 : (l.flatMap f).count x = 0 := by
        apply List.count_eq_zero.mpr
        intro hm
        obtain ⟨b, hb, hxb⟩ := List.mem_flatMap.mp hm
        have hab := h2 a (List.mem_cons_self _ _) b (List.mem_cons_of_mem _ hb) hx hxb
        rw [← hab] at hb
        exact hn2.1 hb
      rw [h0]
      exact h1 a (List.mem_cons_self _ _)
    · rw [List.count_eq_zero.mpr hx, Nat.zero_add]
      exact ih hn2.2 (fun b hb => h1 b (List.mem_cons_of_mem _ hb))
        (fun b hb c hc => h2 b (List.mem_cons_of_mem _ hb) c (List.mem_cons_of_mem _ hc))

theorem count_flatMap_mono {α β γ : Type} [DecidableEq β] [DecidableEq γ] (f : α → List β)
    (g : α → List γ) (x : β) (y : γ) :
    ∀ (l : List α), (∀ a ∈ l, (f a).count x ≤ (g a).count y) →
      (l.flatMap f).count x ≤ (l.flatMap g).count y := by
  intro l
  induction l with
  | nil => intro _; simp
  | cons a l ih =>
    intro h
    rw [List.flatMap_cons, List.flatMap_cons, List.count_append, List.count_append]
    exact Nat.add_le_add (h a (List.mem_cons_self _ _))
      (ih fun b hb => h b (List.mem_cons_of_mem _ hb))

theorem count_flatMap_le {α β : Type} [DecidableEq α] [DecidableEq β] (f : α → List β)
    (x : β) (y : α) :
    ∀ (l : List α), (∀ a ∈ l, (f a).count x ≤ if a = y then 1 else 0) →
      (l.flatMap f).count x ≤ l.count y := by
  intro l
  induction l with
  | nil => intro _; simp
  | cons a l ih =>
    intro h
    rw [List.flatMap_cons, List.count_append, List.count_cons]
    have h1 := h a (List.mem_cons_self _ _)
    have h2 := ih fun b hb => h b (List.mem_cons_of_mem _ hb)
    by_cases e : a = y
    · simp only [e, if_true] at h1
      simp only [e, beq_self_eq_true, if_true]
      omega
    · simp only [e, if_false] at h1
      have e2 : (a == y) = false := by simpa using e
      simp only [e2]
      simp only [Bool.false_eq_true, if_false]
      omega

theorem count_le_one_of_nodup {β : Type} [DecidableEq β] {l : List β} (h : l.Nodup)
    (x : β) : l.count x ≤ 1 :=
  List.nodup_iff_count_le_one.mp h x

theorem bone_not_room_mesh (w : world_s) (l : List (Option Nat)) (e j : Nat) :
    poly_source.bone e j ∉ l.flatMap (on_room (room_mesh_lists w)) := by
  intro hm
  obtain ⟨r, _, h1⟩ := (mem_on_room _ _ _).mp hm
  exact poly_source.noConfusion ((mem_room_mesh_lists w r _).mp h1).2

theorem static_not_room_mesh (w : world_s) (l : List (Option Nat)) (r j : Nat) :
    poly_source.static_mesh r j ∉ l.flatMap (on_room (room_mesh_lists w)) := by
  intro hm
  obtain ⟨r', _, h1⟩ := (mem_on_room _ _ _).mp hm
  exact poly_source.noConfusion ((mem_room_mesh_lists w r' _).mp h1).2

theorem not_bone_of_character {d : DrawCollab} {w : world_s} {x : poly_source}
    (h : ∀ e j, x ≠ poly_source.bone e j) : x ∉ character_lists d w := by
  intro hm
  obtain ⟨c, _, _, hb⟩ := (mem_character_lists d w x).mp hm
  obtain ⟨j, _, _, e2⟩ := (mem_bone_lists w c x).mp hb
  exact h c j e2

theorem not_bone_of_entity {k : Collab} {d : DrawCollab} {w : world_s} {s : CRender}
    {r : Nat} {x : poly_source} (h : ∀ e j, x ≠ poly_source.bone e j) :
    x ∉ entity_lists k d w s r := by
  intro hm
  obtain ⟨e, _, _, hb⟩ := (mem_entity_lists k d w s r x).mp hm
  obtain ⟨j, _, _, e2⟩ := (mem_bone_lists w e x).mp hb
  exact h e j e2

/-- In a pass over distinct rooms the mesh of a room is inserted at most once. -/
theorem count_room_mesh (k : Collab) (d : DrawCollab) (w : world_s) (s : CRender)
    (hl : (listedRooms s).Nodup) (r : Nat) :
    (DrawList_calls k d w s).count (poly_source.room_mesh r) ≤ 1 := by
  have hx : ∀ e j, poly_source.room_mesh r ≠ poly_source.bone e j :=
    fun _ _ c => poly_source.noConfusion c
  unfold DrawList_calls
  rw [List.count_append, List.count_append]
  have hB : ((listedRooms s).flatMap (on_room fun r =>
      static_mesh_calls d w s r ++ entity_lists k d w s r)).count
      (poly_source.room_mesh r) = 0 := by
    apply List.count_eq_zero.mpr
    intro hm
    obtain ⟨r', _, h1⟩ := (mem_on_room _ _ _).mp hm
    rcases List.mem_append.mp h1 with h1 | h1
    · obtain ⟨j, _, _, _, e⟩ := (mem_static_mesh_calls d w s r' _).mp h1
      exact poly_source.noConfusion e
    · exact not_bone_of_entity hx h1
  have hC : (character_lists d w).count (poly_source.room_mesh r) = 0 :=
    List.count_eq_zero.mpr (not_bone_of_character hx)
  rw [hB, hC]
  have hA : ((listedRooms s).flatMap (on_room (room_mesh_lists w))).count
      (poly_source.room_mesh r) ≤ 1 := by
    apply count_flatMap_le_one _ _ _ hl
    · intro a _
      cases a with
      | none => simp [on_room]
      | some r' => exact count_le_one_of_nodup (room_mesh_lists_nodup w r') _
    · intro a _ b _ ha hb
      cases a with
      | none => exact absurd ha (List.not_mem_nil _)
      | some r1 =>
        cases b with
        | none => exact absurd hb (List.not_mem_nil _)
        | some r2 =>
          have e1 := poly_source.room_mesh.inj ((mem_room_mesh_lists w r1 _).mp ha).2
          have e2 := poly_source.room_mesh.inj ((mem_room_mesh_lists w r2 _).mp hb).2
          rw [← e1, ← e2]
  omega

/-- In a pass over distinct rooms a static mesh is inserted at most once. -/
theorem count_static_mesh (k : Collab) (d : DrawCollab) (w : world_s) (s : CRender)
    (hl : (listedRooms s).Nodup) (r j : Nat) :
    (DrawList_calls k d w s).count (poly_source.static_mesh r j) ≤ 1 := by
  have hx : ∀ e i, poly_source.static_mesh r j ≠ poly_source.bone e i :=
    fun _ _ c => poly_source.noConfusion c
  unfold DrawList_calls
  rw [List.count_append, List.count_append]
  have hA : ((listedRooms s).flatMap (on_room (room_mesh_lists w))).count
      (poly_source.static_mesh r j) = 0 :=
    List.count_eq_zero.mpr (static_not_room_mesh w _ r j)
  have hC : (character_lists d w).count (poly_source.static_mesh r j) = 0 :=
    List.count_eq_zero.mpr (not_bone_of_character hx)
  rw [hA, hC]
  have hB : ((listedRooms s).flatMap (on_room fun r =>
      static_mesh_calls d w s r ++ entity_lists k d w s r)).count
      (poly_source.static_mesh r j) ≤ 1 := by
    apply count_flatMap_le_one _ _ _ hl
    · intro a _
      cases a with
      | none => simp [on_room]
      | some r' =>
        show (static_mesh_calls d w s r' ++ entity_lists k d w s r').count _ ≤ 1
        rw [List.count_append, List.count_eq_zero.mpr (not_bone_of_entity hx), Nat.add_zero]
        exact count_le_one_of_nodup (static_mesh_calls_nodup d w s r') _
    · intro a _ b _ ha hb
      cases a with
      | none => exact absurd ha (List.not_mem_nil _)
      | some r1 =>
        cases b with
        | none => exact absurd hb (List.not_mem_nil _)
        | some r2 =>
          have g : ∀ r', poly_source.static_mesh r j ∈
              static_mesh_calls d w s r' ++ entity_lists k d w s r' → r = r' := by
            intro r' hm
            rcases List.mem_append.mp hm with h1 | h1
            · obtain ⟨i, _, _, _, e⟩ := (mem_static_mesh_calls d w s r' _).mp h1
              exact (poly_source.static_mesh.inj e).1
            · exact absurd h1 (not_bone_of_entity hx)
          rw [← g r1 ha, ← g r2 hb]
  omega

/-- A bone of the entity `e` is inserted at most as often as the containers of the listed
rooms hold `e`, and once more when `e` is the Character. -/
theorem count_bone (k : Collab) (d : DrawCollab) (w : world_s) (s : CRender) (e j : Nat) :
    (DrawList_calls k d w s).count (poly_source.bone e j) ≤
      (heldEntities k w s).count e + if d.engine_world_Character = some e then 1 else 0 := by
  unfold DrawList_calls
  rw [List.count_append, List.count_append,
    List.count_eq_zero.mpr (bone_not_room_mesh w _ e j), Nat.zero_add]
  have hB : ((listedRooms s).flatMap (on_room fun r =>
      static_mesh_calls d w s r ++ entity_lists k d w s r)).count (poly_source.bone e j) ≤
      (heldEntities k w s).count e := by
    unfold heldEntities
    apply count_flatMap_mono
    intro a _
    cases a with
    | none => simp [on_room]
    | some r =>
      show (static_mesh_calls d w s r ++ entity_lists k d w s r).count _ ≤ (held k w r).count e
      have h0 : (static_mesh_calls d w s r).count (poly_source.bone e j) = 0 := by
        apply List.count_eq_zero.mpr
        intro hm
        obtain ⟨i, _, _, _, e2⟩ := (mem_static_mesh_calls d w s r _).mp hm
        exact poly_source.noConfusion e2
      rw [List.count_append, h0, Nat.zero_add]
      unfold entity_lists
      apply count_flatMap_le
      intro a _
      by_cases hae : a = e
      · rw [if_pos hae]
        split
        · exact count_le_one_of_nodup (bone_lists_nodup w a) _
        · simp
      · rw [if_neg hae]
        apply Nat.le_of_eq
        apply List.count_eq_zero.mpr
        intro hm
        split at hm
        · obtain ⟨i, _, _, e2⟩ := (mem_bone_lists w a _).mp hm
          exact hae (poly_source.bone.inj e2).1.symm
        · exact absurd hm (List.not_mem_nil _)
  have hC : (character_lists d w).count (poly_source.bone e j) ≤
      if d.engine_world_Character = some e then 1 else 0 := by
    by_cases hc : d.engine_world_Character = some e
    · rw [if_pos hc]
      exact count_le_one_of_nodup (character_lists_nodup d w) _
    · rw [if_neg hc]
      apply Nat.le_of_eq
      apply List.count_eq_zero.mpr
      intro hm
      obtain ⟨c, hc2, _, hb⟩ := (mem_character_lists d w _).mp hm
      obtain ⟨i, _, _, e2⟩ := (mem_bone_lists w c _).mp hb
      rw [← (poly_source.bone.inj e2).1] at hc2
      exact hc hc2
  omega

theorem entity_gate_iff (d : DrawCollab) (w : world_s) (s : CRender) (r e : Nat) :
    entity_gate d w s r e = true ↔
      (w.entities e).transparency_flags = d.MESH_HAS_TRANSPARENCY ∧
      (w.entities e).state_flags &&& d.ENTITY_STATE_VISIBLE ≠ 0 ∧
      d.Frustum_IsOBBVisibleInFrustumList (w.entities e).obb (room_frustums s r) = true := by
  unfold entity_gate
  rw [Bool.and_eq_true, Bool.and_eq_true, decide_eq_true_iff, decide_eq_true_iff, and_assoc]

/-- C14, counterexample: the Character of `hall` is held by the containers of room 0, which
is in the Render List.  The polygons of its transparent bone are inserted by the loop over
the containers of room 0 and again by the block for the Character. -/
theorem C14_counterexample :
    (GenWorldList (scene fun _ _ => true) camera0 4
        (installed (scene fun _ _ => true) hall)).map
      (fun s => (listedRooms s, DrawList_lists (scene fun _ _ => true) player hall s)) =
      some ([some 0], some [poly_source.room_mesh 0, poly_source.static_mesh 0 0,
        poly_source.bone 7 0, poly_source.bone 7 0]) := by
  decide

/-- C14, amended. In one pass of `DrawList` over a Render List of distinct rooms, each with
fewer than `2 ^ 16` static meshes (the range of the `uint16_t` counter of line 341), the
pass gets to its end and `AddNewPolygonList` is called exactly once for each listed room
whose mesh has transparent polygons, exactly once for each static mesh of a listed room
that has transparent polygons and passes the OBB test, and exactly once for each
transparent bone of each entity other than the Character that is held by one container of
the listed rooms, has `MESH_HAS_TRANSPARENCY`, is visible and passes the OBB test.  The
transparent polygons of an entity held by at most one container of the listed rooms are
not inserted twice, unless the entity is the Character and a listed room holds it.  No
other call is made for a room, a static mesh or an entity other than the Character, and
when each entity is held at most once and the Character is not held, no call at all is
made twice. -/
theorem C14_transparent_lists_once (k : Collab) (d : DrawCollab) (w : world_s) (s : CRender)
    (hl : ListOK s)
    (hsm : ∀ r, some r ∈ listedRooms s → (w.rooms r).static_mesh_count < 2 ^ 16) :
    ∃ L, DrawList_lists k d w s = some L ∧
      DrawList_transparency k d w s = some { s with bsp_lists := s.bsp_lists ++ L } ∧
      (∀ r, some r ∈ listedRooms s →
        (∃ m, (w.rooms r).mesh = some m ∧ m.transparency_polygons ≠ none) →
        L.count (poly_source.room_mesh r) = 1) ∧
      (∀ r j, some r ∈ listedRooms s → j < (w.rooms r).static_mesh_count →
        ((w.rooms r).static_mesh.getD j {}).mesh.transparency_polygons ≠ none →
        d.Frustum_IsOBBVisibleInFrustumList ((w.rooms r).static_mesh.getD j {}).obb
          (room_frustums s r) = true →
        L.count (poly_source.static_mesh r j) = 1) ∧
      (∀ e j, d.engine_world_Character ≠ some e → (heldEntities k w s).count e = 1 →
        (∃ r, some r ∈ listedRooms s ∧ e ∈ held k w r ∧
          (w.entities e).transparency_flags = d.MESH_HAS_TRANSPARENCY ∧
          (w.entities e).state_flags &&& d.ENTITY_STATE_VISIBLE ≠ 0 ∧
          d.Frustum_IsOBBVisibleInFrustumList (w.entities e).obb
            (room_frustums s r) = true) →
        j < (w.entities e).bone_tags.length →
        ((w.entities e).bone_tags.getD j {}).mesh_base.transparency_polygons ≠ none →
        L.count (poly_source.bone e j) = 1) ∧
      (∀ e j, (heldEntities k w s).count e ≤ 1 →
        (d.engine_world_Character = some e → e ∉ heldEntities k w s) →
        L.count (poly_source.bone e j) ≤ 1) ∧
      (∀ r, poly_source.room_mesh r ∈ L ↔
        some r ∈ listedRooms s ∧
        ∃ m, (w.rooms r).mesh = some m ∧ m.transparency_polygons ≠ none) ∧
      (∀ r j, poly_source.static_mesh r j ∈ L ↔
        some r ∈ listedRooms s ∧ j < (w.rooms r).static_mesh_count ∧
        ((w.rooms r).static_mesh.getD j {}).mesh.transparency_polygons ≠ none ∧
        d.Frustum_IsOBBVisibleInFrustumList ((w.rooms r).static_mesh.getD j {}).obb
          (room_frustums s r) = true) ∧
      (∀ e j, d.engine_world_Character ≠ some e →
        (poly_source.bone e j ∈ L ↔
          (∃ r, some r ∈ listedRooms s ∧ e ∈ held k w r ∧
            (w.entities e).transparency_flags = d.MESH_HAS_TRANSPARENCY ∧
            (w.entities e).state_flags &&& d.ENTITY_STATE_VISIBLE ≠ 0 ∧
            d.Frustum_IsOBBVisibleInFrustumList (w.entities e).obb
              (room_frustums s r) = true) ∧
          j < (w.entities e).bone_tags.length ∧
          ((w.entities e).bone_tags.getD j {}).mesh_base.transparency_polygons ≠ none)) ∧
      ((heldEntities k w s).Nodup →
        (∀ c, d.engine_world_Character = some c → c ∉ heldEntities k w s) → L.Nodup) := by
  have hL := DrawList_lists_eq k d w s hsm
  have hgate : ∀ e, (∃ r, some r ∈ listedRooms s ∧ e ∈ held k w r ∧
      entity_gate d w s r e = true) ↔
      ∃ r, some r ∈ listedRooms s ∧ e ∈ held k w r ∧
        (w.entities e).transparency_flags = d.MESH_HAS_TRANSPARENCY ∧
        (w.entities e).state_flags &&& d.ENTITY_STATE_VISIBLE ≠ 0 ∧
        d.Frustum_IsOBBVisibleInFrustumList (w.entities e).obb
          (room_frustums s r) = true := by
    intro e
    constructor
    · rintro ⟨r, h1, h2, h3⟩
      exact ⟨r, h1, h2, (entity_gate_iff d w s r e).mp h3⟩
    · rintro ⟨r, h1, h2, h3⟩
      exact ⟨r, h1, h2, (entity_gate_iff d w s r e).mpr h3⟩
  refine ⟨DrawList_calls k d w s, hL, ?_, ?_, ?_, ?_, ?_, mem_lists_room_mesh k d w s,
    mem_lists_static_mesh k d w s, ?_, DrawList_calls_nodup k d w s hl.1⟩
  · unfold DrawList_transparency
    rw [hL]
  · intro r hr hm
    have h1 := count_room_mesh k d w s hl.1 r
    have h2 := List.count_pos_iff.mpr ((mem_lists_room_mesh k d w s r).mpr ⟨hr, hm⟩)
    omega
  · intro r j hr hj ht hv
    have h1 := count_static_mesh k d w s hl.1 r j
    have h2 := List.count_pos_iff.mpr
      ((mem_lists_static_mesh k d w s r j).mpr ⟨hr, hj, ht, hv⟩)
    omega
  · intro e j hne hc hg hj ht
    have h1 := count_bone k d w s e j
    rw [if_neg hne, hc] at h1
    have h2 := List.count_pos_iff.mpr
      ((mem_lists_bone k d w s e j hne).mpr ⟨(hgate e).mpr hg, hj, ht⟩)
    omega
  · intro e j hc hch
    have h1 := count_bone k d w s e j
    by_cases hce : d.engine_world_Character = some e
    · rw [if_pos hce, List.count_eq_zero.mpr (hch hce)] at h1
      omega
    · rw [if_neg hce] at h1
      omega
  · intro e j hne
    rw [mem_lists_bone k d w s e j hne, hgate e]

/-- C14, witness: the frame of `hall` with no Character set in `engine_world`; the calls
are for the mesh of room 0, its static mesh and the first bone of entity 7, each made
once. -/
theorem C14_transparent_lists_once_witness :
    ∃ s, GenWorldList (scene fun _ _ => true) camera0 4
        (installed (scene fun _ _ => true) hall) = some s ∧
      DrawList_lists (scene fun _ _ => true) viewer hall s =
        some [poly_source.room_mesh 0, poly_source.static_mesh 0 0, poly_source.bone 7 0] ∧
      ∃ L, DrawList_lists (scene fun _ _ => true) viewer hall s = some L ∧
        L.count (poly_source.room_mesh 0) = 1 ∧
        L.count (poly_source.static_mesh 0 0) = 1 ∧
        L.count (poly_source.bone 7 0) = 1 ∧
        L.Nodup := by
  obtain ⟨s, h⟩ := Option.isSome_iff_exists.mp
    (show (GenWorldList (scene fun _ _ => true) camera0 4
      (installed (scene fun _ _ => true) hall)).isSome = true by decide)
  have h1 : (GenWorldList (scene fun _ _ => true) camera0 4
      (installed (scene fun _ _ => true) hall)).map
      (fun s => (DrawList_lists (scene fun _ _ => true) viewer hall s,
        heldEntities (scene fun _ _ => true) hall s, listedRooms s,
        static_mesh_gate viewer hall s 0 0, entity_gate viewer hall s 0 7)) =
      some (some [poly_source.room_mesh 0, poly_source.static_mesh 0 0,
        poly_source.bone 7 0], [7], [some 0], true, true) := by decide
  rw [h] at h1
  simp only [Option.map_some', Option.some.injEq, Prod.mk.injEq] at h1
  obtain ⟨g1, g2, g3, g4, g5⟩ := h1
  have hin : some 0 ∈ listedRooms s := by rw [g3]; exact List.mem_singleton.mpr rfl
  obtain ⟨L, hL, _, c1, c2, c3, _, _, _, _, c4⟩ :=
    C14_transparent_lists_once (scene fun _ _ => true) viewer hall s
      (ListOK_GenWorldList (installed_world _ _) h)
      (fun r hr => by
        rw [g3] at hr
        have e := Option.some.inj (List.mem_singleton.mp hr)
        rw [e]
        decide)
  refine ⟨s, h, g1, L, hL, c1 0 hin ⟨_, rfl, by decide⟩, ?_, ?_, ?_⟩
  · have hg := (static_mesh_gate_iff viewer hall s 0 0).mp g4
    exact c2 0 0 hin (by decide) hg.1 hg.2
  · exact c3 7 0 (by simp [viewer]) (by rw [g2]; decide) ⟨0, hin, by decide,
      (entity_gate_iff viewer hall s 0 7).mp g5⟩ (by decide) (by decide)
  · exact c4 (by rw [g2]; exact List.nodup_singleton _) (fun c hc => by simp [viewer] at hc)

/-! ## The two traversals of the BSP tree -/

theorem order_perm_front (d : DrawCollab) :
    ∀ (t : bsp_node_s), (frontToBack_order d t).Perm (polygons t) := by
  intro t
  induction t with
  | null => exact List.Perm.refl _
  | node plane front back pf pb ihf ihb =>
    rw [List.perm_iff_count]
    intro x
    have hf := List.perm_iff_count.mp ihf x
    have hb := List.perm_iff_count.mp ihb x
    by_cases hd : 0 ≤ d.vec3_plane_dist plane
    · simp only [frontToBack_order, hd, if_true, polygons, List.count_append]
      omega
    · simp only [frontToBack_order, hd, if_false, polygons, List.count_append]
      omega

/-- C26. For every tree and every side test, what `DrawBSPBackToFront` emits and what
`DrawBSPFrontToBack` emits are permutations of the polygons held by the side lists of the
nodes of the tree: every polygon is emitted as often as the tree holds it, and the two
traversals emit the same multiset.  On a root that is not NULL both functions return from
every state, having drawn these polygons. -/
theorem C26_traversals_emit_all (d : DrawCollab) (w : world_s) (t : bsp_node_s) :
    (emittedB2F d w t).Perm (polygons t) ∧
    (emittedF2B d w t).Perm (polygons t) ∧
    (emittedB2F d w t).Perm (emittedF2B d w t) ∧
    (t ≠ bsp_node_s.null → ∀ s,
      (∃ s', DrawBSPBackToFront d w t s = some s' ∧
        s'.bsp_drawn = s.bsp_drawn ++ emittedB2F d w t) ∧
      (∃ s', DrawBSPFrontToBack d w t s = some s' ∧
        s'.bsp_drawn = s.bsp_drawn ++ emittedF2B d w t)) := by
  have h1 : (emittedB2F d w t).Perm (polygons t) := by
    rw [emittedB2F_eq]; exact order_perm d t
  have h2 : (emittedF2B d w t).Perm (polygons t) := by
    rw [emittedF2B_eq]; exact order_perm_front d t
  refine ⟨h1, h2, h1.trans h2.symm, ?_⟩
  intro ht s
  obtain ⟨s1, e1, a1, _⟩ := B2F_run d w t s ht
  obtain ⟨s2, e2, a2⟩ := F2B_run d w t s ht
  exact ⟨⟨s1, e1, by rw [a1, emittedB2F_eq]⟩, ⟨s2, e2, by rw [a2, emittedF2B_eq]⟩⟩

/-- C26, witness: `tree3`, drawn from the initial state. -/
theorem C26_traversals_emit_all_witness :
    emittedB2F viewer diamond tree3 = [poly 5, poly 6, poly 2, poly 1, poly 4, poly 3] ∧
    emittedF2B viewer diamond tree3 = [poly 3, poly 4, poly 1, poly 2, poly 6, poly 5] ∧
    polygons tree3 = [poly 1, poly 2, poly 3, poly 4, poly 5, poly 6] ∧
    (∃ s', DrawBSPBackToFront viewer diamond tree3 {} = some s' ∧
      s'.bsp_drawn = ({} : CRender).bsp_drawn ++ emittedB2F viewer diamond tree3) ∧
    (∃ s', DrawBSPFrontToBack viewer diamond tree3 {} = some s' ∧
      s'.bsp_drawn = ({} : CRender).bsp_drawn ++ emittedF2B viewer diamond tree3) :=
  ⟨by decide, by decide, by decide,
    (C26_traversals_emit_all viewer diamond tree3).2.2.2 (by decide) {}⟩

theorem mirror_order (d : DrawCollab) (f : Nat → Int)
    (hneg : ∀ plane, 0 ≤ f plane ↔ ¬ 0 ≤ d.vec3_plane_dist plane) :
    ∀ (t : bsp_node_s),
      frontToBack_order d t = backToFront_order { d with vec3_plane_dist := f } t := by
  intro t
  induction t with
  | null => rfl
  | node plane front back pf pb ihf ihb =>
    by_cases hd : 0 ≤ d.vec3_plane_dist plane
    · have hf : ¬ 0 ≤ f plane := fun h => (hneg plane).mp h hd
      simp only [frontToBack_order, backToFront_order, hd, hf, if_true, if_false, ihf, ihb]
    · have hf : 0 ≤ f plane := (hneg plane).mpr hd
      simp only [frontToBack_order, backToFront_order, hd, hf, if_true, if_false, ihf, ihb]

theorem blend_switch_mirror (d : DrawCollab) (f : Nat → Int) (t : Nat) :
    blend_switch { d with vec3_plane_dist := f } t = blend_switch d t := rfl

theorem DrawBSPPolygons_mirror (d : DrawCollab) (w : world_s) (f : Nat → Int)
    (l : List bsp_polygon_s) (s : CRender) :
    DrawBSPPolygons { d with vec3_plane_dist := f } w l s = DrawBSPPolygons d w l s := rfl

theorem mirror_run (d : DrawCollab) (w : world_s) (f : Nat → Int)
    (hneg : ∀ plane, 0 ≤ f plane ↔ ¬ 0 ≤ d.vec3_plane_dist plane) :
    ∀ (t : bsp_node_s) (s : CRender),
      DrawBSPFrontToBack d w t s = DrawBSPBackToFront { d with vec3_plane_dist := f } w t s := by
  intro t
  induction t with
  | null => intro s; rfl
  | node plane front back pf pb ihf ihb =>
    intro s
    by_cases hd : 0 ≤ d.vec3_plane_dist plane
    · have hf : ¬ 0 ≤ f plane := fun h => (hneg plane).mp h hd
      rw [DrawBSPFrontToBack, DrawBSPBackToFront, if_pos hd, if_neg hf]
      simp only [ihf, ihb, DrawBSPPolygons_mirror]
    · have hf : 0 ≤ f plane := (hneg plane).mpr hd
      rw [DrawBSPFrontToBack, DrawBSPBackToFront, if_neg hd, if_pos hf]
      simp only [ihf, ihb, DrawBSPPolygons_mirror]

/-- C27. For every tree, `DrawBSPFrontToBack` under a side test is `DrawBSPBackToFront`
under the side test with the negated outcome at every plane: the two calls emit the same
sequence of polygons and, from every state, do the same. -/
theorem C27_mirror_in_camera_side (d : DrawCollab) (w : world_s) (f : Nat → Int)
    (t : bsp_node_s)
    (hneg : ∀ plane, 0 ≤ f plane ↔ ¬ 0 ≤ d.vec3_plane_dist plane) :
    emittedF2B d w t = emittedB2F { d with vec3_plane_dist := f } w t ∧
    ∀ s, DrawBSPFrontToBack d w t s =
      DrawBSPBackToFront { d with vec3_plane_dist := f } w t s := by
  refine ⟨?_, mirror_run d w f hneg t⟩
  rw [emittedF2B_eq, emittedB2F_eq]
  exact mirror_order d f hneg t

/-- C27, witness: `tree3` seen by `viewer` and from the other side of every plane. -/
theorem C27_mirror_in_camera_side_witness :
    emittedF2B viewer diamond tree3 =
      emittedB2F { viewer with vec3_plane_dist := mirrored.vec3_plane_dist } diamond tree3 ∧
    ∀ s, DrawBSPFrontToBack viewer diamond tree3 s =
      DrawBSPBackToFront { viewer with vec3_plane_dist := mirrored.vec3_plane_dist }
        diamond tree3 s :=
  C27_mirror_in_camera_side viewer diamond mirrored.vec3_plane_dist tree3 (by
    intro plane
    by_cases h : plane = 2 <;> simp [viewer, mirrored, h])

/-! ## The skybox bit of `r_flags` -/

theorem AddRoom_r_flags (k : Collab) (w : world_s) (cam : camera_s) (room : Nat)
    (s : CRender) :
    (AddRoom k w cam room s).2.r_flags =
      if AddRoom_pushes w room s = true ∧ (w.rooms room).flags &&& k.TR_ROOM_FLAG_SKYBOX ≠ 0
      then s.r_flags ||| k.R_DRAW_SKYBOX else s.r_flags := by
  unfold AddRoom AddRoom_pushes
  simp only [log_flag, log_count, log_size]
  by_cases h1 : s.is_in_r_list room = true <;> by_cases h2 : (w.rooms room).active = true <;>
    by_cases h3 : s.r_list_active_count < s.r_list_size <;>
    by_cases h4 : (w.rooms room).flags &&& k.TR_ROOM_FLAG_SKYBOX = 0 <;>
    simp [h1, h2, h3, h4, CRender.log]

theorem PFI_r_flags (k : Collab) (p : portal_s) (e : frustum_s) (s : CRender) :
    (PortalFrustumIntersect k p e s).2.r_flags = s.r_flags := by
  unfold PortalFrustumIntersect
  split <;> rfl

theorem CleanList_fold_r_flags (l : List Nat) :
    ∀ (s : CRender), (l.foldl CleanList_step s).r_flags = s.r_flags := by
  induction l with
  | nil => intro s; rfl
  | cons i l ih => intro s; rw [List.foldl_cons, ih]; rfl

theorem CleanList_r_flags (k : Collab) (s : CRender) :
    (CleanList k s).r_flags = s.r_flags &&& (s.r_flags ^^^ k.R_DRAW_SKYBOX) := by
  have e : (CleanList_character s).r_flags = s.r_flags := by
    unfold CleanList_character
    split
    · split <;> rfl
    · rfl
  show ((List.range _).foldl CleanList_step (CleanList_character s)).r_flags &&&
    (((List.range _).foldl CleanList_step (CleanList_character s)).r_flags ^^^ _) = _
  rw [CleanList_fold_r_flags, e]

theorem testBit_clear (x n m : Nat) :
    (x &&& (x ^^^ 2 ^ n)).testBit m = (x.testBit m && decide (m ≠ n)) := by
  rw [Nat.testBit_and, Nat.testBit_xor, Nat.testBit_two_pow]
  by_cases h : n = m
  · subst h; cases x.testBit n <;> simp
  · have h2 : m ≠ n := fun e => h e.symm
    cases x.testBit m <;> simp [h, h2]

theorem testBit_set (x n : Nat) : (x ||| 2 ^ n).testBit n = true := by
  rw [Nat.testBit_or, Nat.testBit_two_pow]
  simp

theorem SkyOK_AddRoom {k : Collab} {w : world_s} {n : Nat} {s : CRender} (cam : camera_s)
    (room : Nat) (hR : k.R_DRAW_SKYBOX = 2 ^ n) (h : SkyOK k w n s) :
    SkyOK k w n (AddRoom k w cam room s).2 := by
  unfold SkyOK at h ⊢
  rw [AddRoom_r_flags, AddRoom_listed]
  by_cases hp : AddRoom_pushes w room s = true
  · by_cases hf : (w.rooms room).flags &&& k.TR_ROOM_FLAG_SKYBOX = 0
    · rw [if_neg (fun c => c.2 hf), if_pos hp, h]
      constructor
      · rintro ⟨r, hr, hs⟩
        exact ⟨r, List.mem_append_left _ hr, hs⟩
      · rintro ⟨r, hr, hs⟩
        rcases List.mem_append.mp hr with hr | hr
        · exact ⟨r, hr, hs⟩
        · simp only [List.mem_singleton, Option.some.injEq] at hr
          subst hr
          exact absurd hf hs
    · rw [if_pos ⟨hp, hf⟩, if_pos hp, hR]
      constructor
      · intro _
        exact ⟨room, List.mem_append_right _ (List.mem_singleton.mpr rfl), hf⟩
      · intro _
        exact testBit_set _ _
  · rw [if_neg (fun c => hp c.1), if_neg hp]
    exact h

theorem SkyOK_enter {k : Collab} {w : world_s} {n : Nat} {s : CRender} (cam : camera_s)
    (p : portal_s) (e : frustum_s) (hR : k.R_DRAW_SKYBOX = 2 ^ n) (h : SkyOK k w n s) :
    SkyOK k w n (enter k w cam p e s) := by
  unfold enter
  apply SkyOK_AddRoom cam _ hR
  unfold SkyOK
  rw [PFI_r_flags, PFI_listed]
  exact h

theorem SkyOK_begin (k : Collab) (w : world_s) (cam : camera_s) (n : Nat) (s : CRender)
    (hR : k.R_DRAW_SKYBOX = 2 ^ n) : SkyOK k w n (GenWorldList_begin k cam s) := by
  unfold SkyOK
  have e : (GenWorldList_begin k cam s).r_flags = (CleanList k s).r_flags := rfl
  rw [e, CleanList_r_flags, hR, testBit_clear, begin_listed]
  simp

theorem SkyOK_scan {k : Collab} {w : world_s} {n : Nat} (cam : camera_s)
    (hR : k.R_DRAW_SKYBOX = 2 ^ n) :
    ∀ (l : List Nat) (s : CRender), SkyOK k w n s →
      SkyOK k w n (l.foldl (GenWorldList_scan k w cam) s) := by
  intro l
  induction l with
  | nil => intro s h; exact h
  | cons i l ih =>
    intro s h
    rw [List.foldl_cons]
    apply ih
    unfold GenWorldList_scan
    split
    · exact SkyOK_AddRoom cam i hR h
    · exact h

/-- C25. With `R_DRAW_SKYBOX` the bit `n`: after `GenWorldList`, bit `n` of `r_flags` is set
if and only if a room of the Render List has `TR_ROOM_FLAG_SKYBOX` in its flags; and
`CleanList`, in every state, clears bit `n` and leaves every other bit of `r_flags` as it
is. -/
theorem C25_skybox_bit (k : Collab) (w : world_s) (cam : camera_s) (fuel n : Nat)
    (s s' : CRender) (hR : k.R_DRAW_SKYBOX = 2 ^ n) (hw : s.m_world = some w)
    (h : GenWorldList k cam fuel s = some s') :
    (s'.r_flags.testBit n = true ↔
      ∃ r, some r ∈ listedRooms s' ∧ (w.rooms r).flags &&& k.TR_ROOM_FLAG_SKYBOX ≠ 0) ∧
    ∀ t : CRender, (CleanList k t).r_flags.testBit n = false ∧
      ∀ m, m ≠ n → (CleanList k t).r_flags.testBit m = t.r_flags.testBit m := by
  constructor
  · cases hc : k.Room_FindPosCogerrence cam with
    | some c =>
      refine GenWorldList_induct (P := SkyOK k w n) (fun s p e _ _ hs _ => hs)
        (fun s p e _ _ hs _ => SkyOK_enter cam p e hR hs) hw hc ?_ h
      unfold GenWorldList_first
      apply SkyOK_AddRoom cam c hR
      unfold SkyOK
      have e : (GenWorldList_begin k cam s).r_flags = (CleanList k s).r_flags := rfl
      show (GenWorldList_begin k cam s).r_flags.testBit n = true ↔
        ∃ r, some r ∈ listedRooms (GenWorldList_begin k cam s) ∧ _
      rw [e, CleanList_r_flags, hR, testBit_clear, begin_listed]
      simp
    | none =>
      rw [GenWorldList_none hw hc] at h
      simp only [Option.some.injEq] at h
      subst h
      exact SkyOK_scan cam hR _ _ (SkyOK_begin k w cam n s hR)
  · intro t
    rw [CleanList_r_flags, hR]
    refine ⟨by rw [testBit_clear]; simp, ?_⟩
    intro m hm
    rw [testBit_clear]
    simp [hm]

/-- C25, witness: the frame of `skyworld`, whose room 1 has the skybox flag; bit 13 is
`R_DRAW_SKYBOX` in `scene`. -/
theorem C25_skybox_bit_witness :
    ∃ s', GenWorldList (scene fun _ _ => true) camera0 4
        (installed (scene fun _ _ => true) skyworld) = some s' ∧
      listedRooms s' = [some 0, some 1] ∧ s'.r_flags = 2 ^ 13 ∧
      (s'.r_flags.testBit 13 = true ↔
        ∃ r, some r ∈ listedRooms s' ∧
          (skyworld.rooms r).flags &&& (scene fun _ _ => true).TR_ROOM_FLAG_SKYBOX ≠ 0) ∧
      ∀ t : CRender, (CleanList (scene fun _ _ => true) t).r_flags.testBit 13 = false ∧
        ∀ m, m ≠ 13 →
          (CleanList (scene fun _ _ => true) t).r_flags.testBit m = t.r_flags.testBit m := by
  obtain ⟨s', h⟩ := Option.isSome_iff_exists.mp
    (show (GenWorldList (scene fun _ _ => true) camera0 4
      (installed (scene fun _ _ => true) skyworld)).isSome = true by decide)
  have h1 : (GenWorldList (scene fun _ _ => true) camera0 4
      (installed (scene fun _ _ => true) skyworld)).map
      (fun s => (listedRooms s, s.r_flags)) = some ([some 0, some 1], 2 ^ 13) := by decide
  rw [h] at h1
  simp only [Option.map_some', Option.some.injEq, Prod.mk.injEq] at h1
  obtain ⟨g1, g2⟩ := C25_skybox_bit (scene fun _ _ => true) skyworld camera0 4 13 _ s' rfl
    (installed_world _ _) h
  exact ⟨s', h, h1.1, h1.2, g1, g2⟩

/-! ## Only active rooms are listed -/

theorem AllActive_AddRoom {w : world_s} {s : CRender} (k : Collab) (cam : camera_s)
    (room : Nat) (h : AllActive w s) : AllActive w (AddRoom k w cam room s).2 := by
  intro r hm
  rw [AddRoom_listed] at hm
  split at hm
  · rename_i hp
    rcases List.mem_append.mp hm with hm | hm
    · exact h r hm
    · simp only [List.mem_singleton, Option.some.injEq] at hm
      subst hm
      simp only [AddRoom_pushes, Bool.and_eq_true, Bool.not_eq_true', decide_eq_true_eq] at hp
      exact hp.1.2
  · exact h r hm

theorem AllActive_enter {w : world_s} {s : CRender} (k : Collab) (cam : camera_s)
    (p : portal_s) (e : frustum_s) (h : AllActive w s) : AllActive w (enter k w cam p e s) := by
  unfold enter
  apply AllActive_AddRoom
  intro r hm
  rw [PFI_listed] at hm
  exact h r hm

theorem AllActive_scan {w : world_s} (k : Collab) (cam : camera_s) :
    ∀ (l : List Nat) (s : CRender), AllActive w s →
      AllActive w (l.foldl (GenWorldList_scan k w cam) s) := by
  intro l
  induction l with
  | nil => intro s h; exact h
  | cons i l ih =>
    intro s h
    rw [List.foldl_cons]
    apply ih
    unfold GenWorldList_scan
    split
    · exact AllActive_AddRoom k cam i h
    · exact h

theorem AllActive_begin (k : Collab) (w : world_s) (cam : camera_s) (s : CRender) :
    AllActive w (GenWorldList_begin k cam s) := by
  intro r hm
  rw [begin_listed] at hm
  exact absurd hm (List.not_mem_nil _)

theorem AllActive_GenWorldList {k : Collab} {w : world_s} {cam : camera_s} {fuel : Nat}
    {s s' : CRender} (hw : s.m_world = some w)
    (h : GenWorldList k cam fuel s = some s') : AllActive w s' := by
  cases hc : k.Room_FindPosCogerrence cam with
  | some c =>
    refine GenWorldList_induct (P := AllActive w) (fun s p e _ _ hs _ => hs)
      (fun s p e _ _ hs _ => AllActive_enter k cam p e hs) hw hc ?_ h
    unfold GenWorldList_first
    apply AllActive_AddRoom
    intro r hm
    exact absurd hm (List.not_mem_nil _)
  | none =>
    rw [GenWorldList_none hw hc] at h
    simp only [Option.some.injEq] at h
    subst h
    exact AllActive_scan k cam _ _ (AllActive_begin k w cam s)

theorem no_clip_scan (k : Collab) (w : world_s) (cam : camera_s) :
    ∀ (l : List Nat) (s : CRender), (∀ p e b, Event.clip p e b ∉ s.trace) →
      ∀ p e b, Event.clip p e b ∉ (l.foldl (GenWorldList_scan k w cam) s).trace := by
  intro l
  induction l with
  | nil => intro s h; exact h
  | cons i l ih =>
    intro s h
    rw [List.foldl_cons]
    apply ih
    unfold GenWorldList_scan
    split
    · intro p e b hm
      rw [AddRoom_trace] at hm
      rcases List.mem_append.mp hm with hm | hm
      · exact h p e b hm
      · simp at hm
    · exact h

/-- A call of `ProcessRoom` for a portal whose source or destination room is not active
returns 0 at once: it clips nothing and adds nothing. -/
theorem ProcessRoom_inactive (k : Collab) (w : world_s) (cam : camera_s) (fuel : Nat)
    (portal : portal_s) (frus : frustum_s) (s : CRender)
    (h : (w.rooms portal.current_room).active = false ∨
      (w.rooms portal.dest_room).active = false) :
    ProcessRoom k w cam (fuel + 1) portal frus s =
      some (0, s.log (Event.process portal frus)) := by
  rw [ProcessRoom]
  rcases h with h | h <;> simp [h]

/-- C24, amended. After `GenWorldList`, on the portal walk and on the full scan, every room
of the Render List is active: a room that is not active is never listed.  `ProcessRoom`
never expands such a room: called for a portal whose destination (or source) room is not
active it returns 0 at once, and no clip of the frame against a generated frustum, that is
no clip made by `ProcessRoom`, leads into a room that is not active. -/
theorem C24_listed_rooms_active (k : Collab) (w : world_s) (cam : camera_s) (fuel : Nat)
    (s s' : CRender) (hw : s.m_world = some w) (h : GenWorldList k cam fuel s = some s') :
    (∀ r, some r ∈ listedRooms s' → (w.rooms r).active = true) ∧
    (∀ n portal frus t,
      (w.rooms portal.current_room).active = false ∨
        (w.rooms portal.dest_room).active = false →
      ProcessRoom k w cam (n + 1) portal frus t =
        some (0, t.log (Event.process portal frus))) ∧
    (∀ p e b, Event.clip p e b ∈ s'.trace → 0 < e.depth →
      (w.rooms p.dest_room).active = true) := by
  refine ⟨AllActive_GenWorldList hw h, fun n portal frus t hi =>
    ProcessRoom_inactive k w cam n portal frus t hi, ?_⟩
  cases hc : k.Room_FindPosCogerrence cam with
  | some c =>
    intro p e b hm
    exact (ClipsOK_GenWorldList hw hc h p e b hm).1
  | none =>
    rw [GenWorldList_none hw hc] at h
    simp only [Option.some.injEq] at h
    subst h
    intro p e b hm
    exact absurd hm (no_clip_scan k w cam _ _
      (fun p e b hm => by rw [begin_trace] at hm; exact absurd hm (List.not_mem_nil _)) p e b)

/-- C24, witness: the frame of `blocked`, whose room 1 is not active: room 0 alone is
listed. -/
theorem C24_listed_rooms_active_witness :
    ∃ s', GenWorldList (scene fun _ _ => true) camera0 4
        (installed (scene fun _ _ => true) blocked) = some s' ∧
      listedRooms s' = [some 0] ∧
      (∀ r, some r ∈ listedRooms s' → (blocked.rooms r).active = true) ∧
      (∀ n portal frus t,
        (blocked.rooms portal.current_room).active = false ∨
          (blocked.rooms portal.dest_room).active = false →
        ProcessRoom (scene fun _ _ => true) blocked camera0 (n + 1) portal frus t =
          some (0, t.log (Event.process portal frus))) ∧
      (∀ p e b, Event.clip p e b ∈ s'.trace → 0 < e.depth →
        (blocked.rooms p.dest_room).active = true) := by
  obtain ⟨s', h⟩ := Option.isSome_iff_exists.mp
    (show (GenWorldList (scene fun _ _ => true) camera0 4
      (installed (scene fun _ _ => true) blocked)).isSome = true by decide)
  have h1 : (GenWorldList (scene fun _ _ => true) camera0 4
      (installed (scene fun _ _ => true) blocked)).map listedRooms = some [some 0] := by
    decide
  rw [h] at h1
  simp only [Option.map_some', Option.some.injEq] at h1
  exact ⟨s', h, h1, C24_listed_rooms_active (scene fun _ _ => true) blocked camera0 4 _ s'
    (installed_world _ _) h⟩

/-- C24, counterexample: in `dark` the camera's room 0 is not active.  `GenWorldList` does
not list it, but walks its portals all the same: the portal 0 → 1 of the inactive room is
clipped and room 1 is listed through it. -/
theorem C24_counterexample :
    (dark.rooms 0).active = false ∧
    (GenWorldList (scene fun _ _ => true) camera0 4
        (installed (scene fun _ _ => true) dark)).map (fun s => (listedRooms s, s.trace)) =
      some ([some 1],
        [Event.add 0, Event.clip (door 0 1) frustum_s.camera true, Event.add 1,
          Event.process (door 0 1) (frustum_s.clipped (door 0 1) frustum_s.camera)]) := by
  constructor <;> decide

/-! ## Flagged rooms and listed rooms -/

theorem AddRoom_m_world (k : Collab) (w : world_s) (cam : camera_s) (room : Nat)
    (s : CRender) : (AddRoom k w cam room s).2.m_world = s.m_world := by
  unfold AddRoom
  simp only [log_flag, log_count, log_size]
  split <;> [rfl; (split <;> rfl)]

theorem PFI_m_world (k : Collab) (p : portal_s) (e : frustum_s) (s : CRender) :
    (PortalFrustumIntersect k p e s).2.m_world = s.m_world := by
  unfold PortalFrustumIntersect
  split <;> rfl

theorem m_world_GenWorldList {k : Collab} {w : world_s} {cam : camera_s} {fuel : Nat}
    {s s' : CRender} (hw : s.m_world = some w)
    (h : GenWorldList k cam fuel s = some s') : s'.m_world = some w := by
  have hb : (GenWorldList_begin k cam s).m_world = some w := by
    show (CleanList k s).m_world = some w
    rw [(CleanList_spec k s).2.2.2, hw]
  cases hc : k.Room_FindPosCogerrence cam with
  | some c =>
    refine GenWorldList_induct (P := fun t => t.m_world = some w)
      (fun s p e _ _ hs _ => hs)
      (fun s p e _ _ hs _ => by
        show (enter k w cam p e s).m_world = some w
        unfold enter
        rw [AddRoom_m_world, PFI_m_world]
        exact hs) hw hc ?_ h
    show (AddRoom k w cam c _).2.m_world = some w
    rw [AddRoom_m_world]
    exact hb
  | none =>
    rw [GenWorldList_none hw hc] at h
    simp only [Option.some.injEq] at h
    subst h
    have : ∀ (l : List Nat) (t : CRender),
        (l.foldl (GenWorldList_scan k w cam) t).m_world = t.m_world := by
      intro l
      induction l with
      | nil => intro t; rfl
      | cons i l ih =>
        intro t
        rw [List.foldl_cons, ih]
        unfold GenWorldList_scan
        split
        · exact AddRoom_m_world k w cam i t
        · rfl
    rw [this]
    exact hb

theorem begin_unflagged (k : Collab) (cam : camera_s) {s : CRender}
    (hf : ∀ r, s.is_in_r_list r = true → some r ∈ listedRooms s) (x : Nat) :
    (GenWorldList_begin k cam s).is_in_r_list x = false := by
  have h1 : (GenWorldList_begin k cam s).is_in_r_list x = (CleanList k s).is_in_r_list x := rfl
  rw [h1, (CleanList_spec k s).1 x]
  split
  · rfl
  · rename_i hm
    by_contra hne
    exact hm (hf x (by simpa using hne))

/-- A frame that starts with every flagged room listed keeps every flagged room listed as
long as the list is not full. -/
theorem RoomFor_GenWorldList {k : Collab} {w : world_s} {cam : camera_s} {fuel : Nat}
    {s s' : CRender} (hw : s.m_world = some w)
    (hf : ∀ r, s.is_in_r_list r = true → some r ∈ listedRooms s)
    (h : GenWorldList k cam fuel s = some s') : RoomFor s.r_list_size s' := by
  have h0 : RoomFor s.r_list_size (GenWorldList_begin k cam s) := by
    refine ⟨begin_size k cam s, ?_⟩
    intro _ r hr
    rw [begin_unflagged k cam hf r] at hr
    exact Bool.noConfusion hr
  cases hc : k.Room_FindPosCogerrence cam with
  | some c =>
    refine GenWorldList_induct (P := RoomFor s.r_list_size)
      (fun s p e _ _ hs _ => hs)
      (fun s p e _ _ hs _ => RoomFor_enter k w cam p e hs) hw hc ?_ h
    unfold GenWorldList_first
    apply RoomFor_AddRoom
    exact h0
  | none =>
    rw [GenWorldList_none hw hc] at h
    simp only [Option.some.injEq] at h
    subst h
    exact (RoomFor_scan k w cam (List.range w.room_count) _ h0).1

theorem ReachInv_empty {s : CRender} (hc : s.r_list_active_count = 0)
    (hf : ∀ r, s.is_in_r_list r = false)
    (hw : ∀ w, s.m_world = some w → WellFormed w ∧ s.r_list_size = w.room_count + 128) :
    ReachInv s := by
  refine ⟨ListOK_of_empty hc, ?_, ?_⟩
  · intro r hr
    rw [hf r] at hr
    exact Bool.noConfusion hr
  · intro w hm
    refine ⟨(hw w hm).1, (hw w hm).2, ?_⟩
    intro r hr
    simp [listedRooms, hc] at hr

theorem CleanList_unflagged (k : Collab) {s : CRender}
    (hf : ∀ r, s.is_in_r_list r = true → some r ∈ listedRooms s) (x : Nat) :
    (CleanList k s).is_in_r_list x = false := by
  rw [(CleanList_spec k s).1 x]
  split
  · rfl
  · rename_i hm
    by_contra hne
    exact hm (hf x (by simpa using hne))

theorem ReachInv_of_Reachable {k : Collab} {s : CRender} (h : Reachable k s) : ReachInv s := by
  induction h with
  | init =>
    exact ReachInv_empty rfl (fun _ => rfl) (fun w hm => Option.noConfusion hm)
  | @setWorld s w _ hfit hwf ih =>
    apply ReachInv_empty rfl
    · intro r
      show (if r < w.room_count then false else (CleanList k s).is_in_r_list r) = false
      split
      · rfl
      · exact CleanList_unflagged k ih.2.1 r
    · intro w' hm
      have e : w = w' := Option.some.inj hm
      subst e
      exact ⟨hwf, Nat.mod_eq_of_lt hfit⟩
  | @setNull s _ ih =>
    apply ReachInv_empty rfl
    · intro r
      exact CleanList_unflagged k ih.2.1 r
    · intro w hm
      exact Option.noConfusion hm
  | @frame s s' cam fuel _ hloc hrun ih =>
    cases hm : s.m_world with
    | none =>
      have : s' = s := by
        unfold GenWorldList at hrun
        rw [hm] at hrun
        exact (Option.some.inj hrun).symm
      rw [this]
      exact ih
    | some w =>
      obtain ⟨hwf, hsz, _⟩ := ih.2.2 w hm
      have hl := ListOK_GenWorldList hm hrun
      have hin := InWorld_GenWorldList hm hwf (fun c hc => hloc w c hm hc) hrun
      have hle := count_le_of_InWorld hl hin
      have hsize := size_GenWorldList hm hrun
      have hroom := RoomFor_GenWorldList hm ih.2.1 hrun
      refine ⟨hl, hroom.2 (by omega), ?_⟩
      intro w' hm'
      rw [m_world_GenWorldList hm hrun] at hm'
      have e : w = w' := Option.some.inj hm'
      subst e
      exact ⟨hwf, by rw [hsize, hsz], hin⟩
  | @addRoom s w cam room _ hm hroom ih =>
    obtain ⟨hwf, hsz, hin⟩ := ih.2.2 w hm
    have hl := ListOK_AddRoom k w cam room ih.1
    have hin2 := InWorld_AddRoom k cam room hroom hin
    have hle := count_le_of_InWorld hl hin2
    have hrf : RoomFor s.r_list_size (AddRoom k w cam room s).2 :=
      RoomFor_AddRoom k w cam room ⟨rfl, fun _ => ih.2.1⟩
    refine ⟨hl, hrf.2 (by omega), ?_⟩
    intro w' hm'
    rw [AddRoom_m_world, hm] at hm'
    have e : w = w' := Option.some.inj hm'
    subst e
    exact ⟨hwf, by rw [AddRoom_size, hsz], hin2⟩
  | @cleanList s _ ih =>
    apply ReachInv_empty rfl (CleanList_unflagged k ih.2.1)
    intro w hm
    rw [(CleanList_spec k s).2.2.2] at hm
    rw [(CleanList_spec k s).2.2.1]
    exact ⟨(ih.2.2 w hm).1, (ih.2.2 w hm).2.1⟩

/-- C23. In every state the renderer gets into from its construction through `SetWorld`,
`GenWorldList`, `AddRoom` on rooms of the current world and `CleanList`, a room is flagged
`is_in_r_list` if and only if it is in one of the entries
`r_list[0 .. r_list_active_count)`. -/
theorem C23_flag_iff_listed (k : Collab) (s : CRender) (h : Reachable k s) (r : Nat) :
    s.is_in_r_list r = true ↔ some r ∈ listedRooms s :=
  ⟨(ReachInv_of_Reachable h).2.1 r, (ReachInv_of_Reachable h).1.2.2 r⟩

/-- C23, witness: the state after `SetWorld(diamond)`, a frame, and `AddRoom` of room 3
again. -/
theorem C23_flag_iff_listed_witness :
    ∃ s', GenWorldList (scene fun _ e => decide (e.depth < 1)) camera0 4
        (installed (scene fun _ e => decide (e.depth < 1)) diamond) = some s' ∧
      listedRooms s' = [some 0, some 1, some 2] ∧
      ∀ r, (AddRoom (scene fun _ e => decide (e.depth < 1)) diamond camera0 3 s').2.is_in_r_list
          r = true ↔
        some r ∈ listedRooms
          (AddRoom (scene fun _ e => decide (e.depth < 1)) diamond camera0 3 s').2 := by
  obtain ⟨s', h⟩ := Option.isSome_iff_exists.mp
    (show (GenWorldList (scene fun _ e => decide (e.depth < 1)) camera0 4
      (installed (scene fun _ e => decide (e.depth < 1)) diamond)).isSome = true by decide)
  have h1 : (GenWorldList (scene fun _ e => decide (e.depth < 1)) camera0 4
      (installed (scene fun _ e => decide (e.depth < 1)) diamond)).map listedRooms =
      some [some 0, some 1, some 2] := by decide
  rw [h] at h1
  simp only [Option.map_some', Option.some.injEq] at h1
  have hr : Reachable (scene fun _ e => decide (e.depth < 1)) s' :=
    Reachable.frame camera0 4
      (Reachable.setWorld diamond Reachable.init (by decide) WellFormed_diamond)
      (fun w c hw hc => by
        have e1 : diamond = w := Option.some.inj hw
        have e2 : c = 0 := by simpa [scene] using hc.symm
        subst e1; subst e2; decide) h
  exact ⟨s', h, h1, C23_flag_iff_listed _ _
    (Reachable.addRoom diamond camera0 3 hr
      (m_world_GenWorldList (installed_world _ _) h) (by decide))⟩

/-! ## Two walks in succession -/

theorem AddRoom_fst (k : Collab) (w : world_s) (cam : camera_s) (room : Nat) (s : CRender) :
    (AddRoom k w cam room s).1 = if AddRoom_pushes w room s then 1 else 0 := by
  unfold AddRoom AddRoom_pushes
  simp only [log_flag, log_count, log_size]
  by_cases h1 : s.is_in_r_list room = true <;> by_cases h2 : (w.rooms room).active = true <;>
    by_cases h3 : s.r_list_active_count < s.r_list_size <;> simp [h1, h2, h3, CRender.log]

theorem AddRoom_r_list (k : Collab) (w : world_s) (cam : camera_s) (room : Nat) (s : CRender)
    (i : Nat) :
    (AddRoom k w cam room s).2.r_list i =
      if AddRoom_pushes w room s = true ∧ i = s.r_list_active_count then
        { room := some room, active := 1, dist := k.vec3_dist cam room }
      else s.r_list i := by
  unfold AddRoom AddRoom_pushes
  simp only [log_flag, log_count, log_size]
  by_cases h1 : s.is_in_r_list room = true <;> by_cases h2 : (w.rooms room).active = true <;>
    by_cases h3 : s.r_list_active_count < s.r_list_size <;>
    by_cases h4 : i = s.r_list_active_count <;> simp [h1, h2, h3, h4, CRender.log]

theorem SameList_pushes {a b : CRender} (w : world_s) (room : Nat) (h : SameList a b) :
    AddRoom_pushes w room a = AddRoom_pushes w room b := by
  obtain ⟨h1, h2, h3, _⟩ := h
  unfold AddRoom_pushes
  rw [h1, h2, h3]

theorem SameList_AddRoom {a b : CRender} (k : Collab) (w : world_s) (cam : camera_s)
    (room : Nat) (h : SameList a b) :
    (AddRoom k w cam room a).1 = (AddRoom k w cam room b).1 ∧
      SameList (AddRoom k w cam room a).2 (AddRoom k w cam room b).2 := by
  have hp := SameList_pushes w room h
  obtain ⟨h1, h2, h3, h4⟩ := h
  refine ⟨by rw [AddRoom_fst, AddRoom_fst, hp], ?_, ?_, ?_, ?_⟩
  · rw [AddRoom_count, AddRoom_count, hp, h1]
  · rw [AddRoom_size, AddRoom_size, h2]
  · funext x
    rw [AddRoom_flag, AddRoom_flag, h3]
  · intro i hi
    rw [AddRoom_r_list, AddRoom_r_list, hp, h1]
    by_cases hc : AddRoom_pushes w room b = true ∧ i = b.r_list_active_count
    · rw [if_pos hc, if_pos hc]
    · rw [if_neg hc, if_neg hc]
      apply h4
      rw [AddRoom_count, hp] at hi
      by_cases hq : AddRoom_pushes w room b = true
      · rw [if_pos hq] at hi
        have : i ≠ b.r_list_active_count := fun e => hc ⟨hq, e⟩
        omega
      · rw [if_neg hq] at hi
        exact hi

theorem SameList_log {a b : CRender} (e1 e2 : Event) (h : SameList a b) :
    SameList (a.log e1) (b.log e2) := h

theorem SameList_PFI {a b : CRender} (k : Collab) (hk : ClipFixed k) (p : portal_s)
    (e : frustum_s) (h : SameList a b) :
    (PortalFrustumIntersect k p e a).1 = (PortalFrustumIntersect k p e b).1 ∧
      SameList (PortalFrustumIntersect k p e a).2 (PortalFrustumIntersect k p e b).2 := by
  refine ⟨by rw [PFI_fst, PFI_fst, hk a b], ?_, ?_, ?_, ?_⟩
  · rw [PFI_count, PFI_count]; exact h.1
  · rw [PFI_size, PFI_size]; exact h.2.1
  · rw [PFI_flag, PFI_flag]; exact h.2.2.1
  · intro i hi
    rw [PFI_count] at hi
    rw [PFI_r_list, PFI_r_list]
    exact h.2.2.2 i hi

theorem foldlM_sim {α β : Type} (R : β → β → Prop) (f : β → α → Option β)
    (hstep : ∀ a b x a', R a b → f a x = some a' → ∃ b', f b x = some b' ∧ R a' b') :
    ∀ (l : List α) (a b a' : β), R a b → l.foldlM f a = some a' →
      ∃ b', l.foldlM f b = some b' ∧ R a' b' := by
  intro l
  induction l with
  | nil =>
    intro a b a' hr h
    simp only [List.foldlM_nil, pure, Option.some.injEq] at h
    subst h
    exact ⟨b, rfl, hr⟩
  | cons x l ih =>
    intro a b a' hr h
    rw [List.foldlM_cons] at h
    cases hq : f a x with
    | none => rw [hq] at h; simp at h
    | some q =>
      rw [hq] at h
      simp only [Option.some_bind, bind] at h
      obtain ⟨q', e1, r1⟩ := hstep a b x q hr hq
      obtain ⟨b', e2, r2⟩ := ih q q' a' r1 h
      refine ⟨b', ?_, r2⟩
      rw [List.foldlM_cons, e1]
      exact e2

theorem SameList_enter {a b : CRender} (k : Collab) (hk : ClipFixed k) (w : world_s)
    (cam : camera_s) (p : portal_s) (e : frustum_s) (h : SameList a b) :
    SameList (enter k w cam p e a) (enter k w cam p e b) := by
  unfold enter
  exact (SameList_AddRoom k w cam _ (SameList_PFI k hk p e h).2).2

theorem visit_sim {k : Collab} (hk : ClipFixed k) (w : world_s) (cam : camera_s)
    (run : portal_s → frustum_s → CRender → Option (Nat × CRender))
    (hrun : ∀ p f a b ra, SameList a b → run p f a = some ra →
      ∃ rb, run p f b = some rb ∧ ra.1 = rb.1 ∧ SameList ra.2 rb.2)
    (p : portal_s) (e : frustum_s) (a b : CRender) (va : Bool × CRender)
    (h : SameList a b) (hv : visit k w cam run p e a = some va) :
    ∃ vb, visit k w cam run p e b = some vb ∧ va.1 = vb.1 ∧ SameList va.2 vb.2 := by
  by_cases hc : k.clip a p e = true
  · have hc2 : k.clip b p e = true := by rw [← hk a b]; exact hc
    rw [visit_succ k w cam run p e a hc] at hv
    rw [visit_succ k w cam run p e b hc2]
    cases hq : run p (frustum_s.clipped p e) (enter k w cam p e a) with
    | none => rw [hq] at hv; simp at hv
    | some ra =>
      rw [hq] at hv
      simp only [Option.map_some', Option.some.injEq] at hv
      obtain ⟨rb, e1, _, r1⟩ := hrun p _ _ _ ra (SameList_enter k hk w cam p e h) hq
      rw [e1]
      refine ⟨(true, rb.2), rfl, ?_, ?_⟩
      · rw [← hv]
      · rw [← hv]; exact r1
  · have hc1 : k.clip a p e = false := by simpa using hc
    have hc2 : k.clip b p e = false := by rw [← hk a b]; exact hc1
    rw [visit_fail k w cam run p e a hc1] at hv
    rw [visit_fail k w cam run p e b hc2]
    simp only [Option.some.injEq] at hv
    refine ⟨_, rfl, ?_, ?_⟩
    · rw [← hv]
    · rw [← hv]; exact SameList_log _ _ h

theorem ProcessRoom_round_sim {k : Collab} (hk : ClipFixed k) (w : world_s) (cam : camera_s)
    (run : portal_s → frustum_s → CRender → Option (Nat × CRender))
    (hrun : ∀ p f a b ra, SameList a b → run p f a = some ra →
      ∃ rb, run p f b = some rb ∧ ra.1 = rb.1 ∧ SameList ra.2 rb.2)
    (src : Nat) (frus : frustum_s) (a b : Nat × CRender) (p : portal_s) (a' : Nat × CRender)
    (h : a.1 = b.1 ∧ SameList a.2 b.2)
    (hr : ProcessRoom_round k w cam run src frus a p = some a') :
    ∃ b', ProcessRoom_round k w cam run src frus b p = some b' ∧
      a'.1 = b'.1 ∧ SameList a'.2 b'.2 := by
  unfold ProcessRoom_round at hr ⊢
  split at hr
  · rename_i hg
    rw [if_pos hg]
    cases hv : visit k w cam run p frus a.2 with
    | none => rw [hv] at hr; simp at hr
    | some va =>
      obtain ⟨vb, e1, e2, r1⟩ := visit_sim hk w cam run hrun p frus a.2 b.2 va h.2 hv
      rw [hv] at hr
      rw [e1]
      obtain ⟨c, t⟩ := va
      obtain ⟨c', t'⟩ := vb
      simp only at e2 r1
      subst e2
      cases c with
      | true =>
        simp only [Option.some.injEq] at hr
        exact ⟨(b.1 + 1, t'), rfl, by rw [← hr, h.1], by rw [← hr]; exact r1⟩
      | false =>
        simp only [Option.some.injEq] at hr
        exact ⟨(b.1, t'), rfl, by rw [← hr, h.1], by rw [← hr]; exact r1⟩
  · rename_i hg
    rw [if_neg hg]
    simp only [Option.some.injEq] at hr
    exact ⟨b, rfl, by rw [← hr]; exact h.1, by rw [← hr]; exact h.2⟩

theorem ProcessRoom_sim {k : Collab} (hk : ClipFixed k) (w : world_s) (cam : camera_s) :
    ∀ (fuel : Nat) (p : portal_s) (f : frustum_s) (a b : CRender) (ra : Nat × CRender),
      SameList a b → ProcessRoom k w cam fuel p f a = some ra →
      ∃ rb, ProcessRoom k w cam fuel p f b = some rb ∧ ra.1 = rb.1 ∧ SameList ra.2 rb.2 := by
  intro fuel
  induction fuel with
  | zero => intro p f a b ra _ h; simp [ProcessRoom] at h
  | succ n ih =>
    intro p f a b ra hs h
    rw [ProcessRoom] at h ⊢
    split at h
    · rename_i hg
      rw [if_pos hg]
      simp only [Option.some.injEq] at h
      exact ⟨_, rfl, by rw [← h], by rw [← h]; exact SameList_log _ _ hs⟩
    · rename_i hg
      rw [if_neg hg]
      exact foldlM_sim (fun x y : Nat × CRender => x.1 = y.1 ∧ SameList x.2 y.2)
        (ProcessRoom_round k w cam (ProcessRoom k w cam n) p.current_room f)
        (fun x y q x' hxy hq =>
          ProcessRoom_round_sim hk w cam _ ih p.current_room f x y q x' hxy hq)
        (w.rooms p.dest_room).portals (0, a.log (Event.process p f))
        (0, b.log (Event.process p f)) ra ⟨rfl, SameList_log _ _ hs⟩ h

theorem GenWorldList_round_sim {k : Collab} (hk : ClipFixed k) (w : world_s) (cam : camera_s)
    (fuel : Nat) (a b : CRender) (p : portal_s) (a' : CRender) (h : SameList a b)
    (hr : GenWorldList_round k w cam fuel a p = some a') :
    ∃ b', GenWorldList_round k w cam fuel b p = some b' ∧ SameList a' b' := by
  unfold GenWorldList_round at hr ⊢
  cases hv : visit k w cam (ProcessRoom k w cam fuel) p frustum_s.camera a with
  | none => rw [hv] at hr; simp at hr
  | some va =>
    obtain ⟨vb, e1, _, r1⟩ :=
      visit_sim hk w cam _ (ProcessRoom_sim hk w cam fuel) p frustum_s.camera a b va h hv
    rw [hv] at hr
    rw [e1]
    simp only [Option.some.injEq] at hr
    exact ⟨vb.2, rfl, by rw [← hr]; exact r1⟩

theorem scan_sim (k : Collab) (w : world_s) (cam : camera_s) :
    ∀ (l : List Nat) (a b : CRender), SameList a b →
      SameList (l.foldl (GenWorldList_scan k w cam) a)
        (l.foldl (GenWorldList_scan k w cam) b) := by
  intro l
  induction l with
  | nil => intro a b h; exact h
  | cons i l ih =>
    intro a b h
    rw [List.foldl_cons, List.foldl_cons]
    apply ih
    unfold GenWorldList_scan
    split
    · exact (SameList_AddRoom k w cam i h).2
    · exact h

/-- Two frames whose walks start from the same list and flags, with the same clip outcomes,
end with the same list and flags; the second returns when the first does. -/
theorem GenWorldList_sim {k : Collab} (hk : ClipFixed k) {w : world_s} (cam : camera_s)
    (fuel : Nat) {a b a' : CRender} (ha : a.m_world = some w) (hb : b.m_world = some w)
    (h0 : SameList (GenWorldList_begin k cam a) (GenWorldList_begin k cam b))
    (h : GenWorldList k cam fuel a = some a') :
    ∃ b', GenWorldList k cam fuel b = some b' ∧ SameList a' b' := by
  unfold GenWorldList at h ⊢
  rw [ha] at h
  rw [hb]
  simp only at h ⊢
  cases hc : k.Room_FindPosCogerrence cam with
  | some c =>
    rw [hc] at h
    simp only at h ⊢
    refine foldlM_sim SameList (GenWorldList_round k w cam fuel)
      (fun x y q x' hxy hq => GenWorldList_round_sim hk w cam fuel x y q x' hxy hq)
      (w.rooms c).portals _ _ a' ?_ h
    unfold GenWorldList_first
    refine (SameList_AddRoom k w cam c ?_).2
    exact h0
  | none =>
    rw [hc] at h
    simp only [Option.some.injEq] at h ⊢
    exact ⟨_, rfl, by rw [← h]; exact scan_sim k w cam _ _ _ h0⟩

theorem ClipFixed_scene (ok : portal_s → frustum_s → Bool) : ClipFixed (scene ok) :=
  fun _ _ _ _ => rfl

/-- C21. In a state the renderer gets into, two calls of `GenWorldList` in succession with
the same camera (so the same answer of the room locator, the same distances) and clip
outcomes that do not depend on the state give the same Render List: when the first call
returns, the second returns with the same count, the same rooms in the same order and the
same entries (room, active flag, distance). -/
theorem C21_walk_deterministic (k : Collab) (cam : camera_s) (fuel : Nat) (s s1 : CRender)
    (hr : Reachable k s) (hk : ClipFixed k)
    (hloc : ∀ w c, s.m_world = some w → k.Room_FindPosCogerrence cam = some c →
      c < w.room_count)
    (h1 : GenWorldList k cam fuel s = some s1) :
    ∃ s2, GenWorldList k cam fuel s1 = some s2 ∧
      listedRooms s2 = listedRooms s1 ∧
      s2.r_list_active_count = s1.r_list_active_count ∧
      ∀ i, i < s1.r_list_active_count → s2.r_list i = s1.r_list i := by
  cases hm : s.m_world with
  | none =>
    have e : s1 = s := by
      unfold GenWorldList at h1
      rw [hm] at h1
      exact (Option.some.inj h1).symm
    subst e
    exact ⟨s1, h1, rfl, rfl, fun _ _ => rfl⟩
  | some w =>
    have hm1 := m_world_GenWorldList hm h1
    have hf := (ReachInv_of_Reachable hr).2.1
    have hf1 := (ReachInv_of_Reachable (Reachable.frame cam fuel hr hloc h1)).2.1
    have h0 : SameList (GenWorldList_begin k cam s) (GenWorldList_begin k cam s1) := by
      refine ⟨rfl, ?_, ?_, ?_⟩
      · rw [begin_size, begin_size, size_GenWorldList hm h1]
      · funext x
        rw [begin_unflagged k cam hf x, begin_unflagged k cam hf1 x]
      · intro i hi
        exact absurd hi (Nat.not_lt_zero i)
    obtain ⟨s2, e2, r2⟩ := GenWorldList_sim hk cam fuel hm hm1 h0 h1
    refine ⟨s2, e2, ?_, r2.1.symm, ?_⟩
    · exact listedRooms_congr r2.1.symm (fun i hi => (r2.2.2.2 i hi).symm)
    · intro i hi
      exact (r2.2.2.2 i hi).symm

/-- C21, witness: two frames of the diamond in succession, right after `SetWorld`. -/
theorem C21_walk_deterministic_witness :
    ∃ s1, GenWorldList (scene fun _ _ => true) camera0 4
        (installed (scene fun _ _ => true) diamond) = some s1 ∧
      listedRooms s1 = [some 0, some 1, some 2, some 3] ∧
      ∃ s2, GenWorldList (scene fun _ _ => true) camera0 4 s1 = some s2 ∧
        listedRooms s2 = listedRooms s1 ∧
        s2.r_list_active_count = s1.r_list_active_count ∧
        ∀ i, i < s1.r_list_active_count → s2.r_list i = s1.r_list i := by
  obtain ⟨s1, h⟩ := Option.isSome_iff_exists.mp
    (show (GenWorldList (scene fun _ _ => true) camera0 4
      (installed (scene fun _ _ => true) diamond)).isSome = true by decide)
  have h1 : (GenWorldList (scene fun _ _ => true) camera0 4
      (installed (scene fun _ _ => true) diamond)).map listedRooms =
      some [some 0, some 1, some 2, some 3] := by decide
  rw [h] at h1
  simp only [Option.map_some', Option.some.injEq] at h1
  exact ⟨s1, h, h1, C21_walk_deterministic (scene fun _ _ => true) camera0 4 _ s1
    (Reachable.setWorld diamond Reachable.init (by decide) WellFormed_diamond)
    (ClipFixed_scene _)
    (fun w c hw hc => by
      have e1 : diamond = w := Option.some.inj hw
      have e2 : c = 0 := by simpa [scene] using hc.symm
      subst e1; subst e2; decide) h⟩

/-! ## The frames of an animated texture -/

theorem Swinging_step (a : AnimCollab) (hdue : ∀ q, a.due q = true) (n r : Nat)
    (hn : 2 ≤ n) (hn16 : n < 2 ^ 16) (hr : r < 2 * (n - 1)) (q : anim_seq_s)
    (h : Swinging a n r q) :
    ∃ q', anim_step a q = some q' ∧
      Swinging a n (if r + 1 = 2 * (n - 1) then 0 else r + 1) q' := by
  obtain ⟨lock, uv, ty, rev, cf, cnt, ft⟩ := q
  obtain ⟨h1, h2, h3, h4, h5, h6, h7⟩ := h
  simp only at h1 h2 h3 h4 h5 h6 h7
  subst h1 h2 h3 h4
  have h16 : (2 : Nat) ^ 16 = 65536 := by norm_num
  rw [h16] at hn16
  cases rev with
  | true =>
    have hr0 : r = 0 ∨ cnt - 1 < r := by
      by_contra hc
      have := h6 (by omega) (by omega)
      exact Bool.noConfusion this
    rcases hr0 with hr0 | hr0
    · subst hr0
      have hcf : cf = 0 := by simpa using h5
      subst hcf
      refine ⟨_, by simp [anim_step, hdue]; rfl, ?_⟩
      have hne : ¬ (0 + 1 = 2 * (cnt - 1)) := by omega
      rw [if_neg hne]
      refine ⟨rfl, rfl, rfl, rfl, ?_, fun _ _ => rfl, ?_⟩
      · have : 0 + 1 ≤ cnt - 1 := by omega
        simp [this]
      · intro hc; omega
    · have hcf : cf = 2 * (cnt - 1) - r := by
        rw [h5, if_neg (by omega)]
      have hpos : 0 < cf := by omega
      have hne0 : cf ≠ 0 := by omega
      have e2 : (cf + 65535) % 65536 = cf - 1 := by omega
      refine ⟨_, by simp [anim_step, hdue, hne0, hpos, e2]; rfl, ?_⟩
      refine ⟨rfl, rfl, rfl, rfl, ?_, ?_, fun _ => rfl⟩
      · dsimp only
        by_cases he : r + 1 = 2 * (cnt - 1)
        · rw [if_pos he]
          simp only [Nat.zero_le, if_true]
          omega
        · rw [if_neg he, if_neg (by omega)]
          omega
      · intro hp hle
        by_cases he : r + 1 = 2 * (cnt - 1)
        · rw [if_pos he] at hp
          exact absurd hp (Nat.lt_irrefl 0)
        · rw [if_neg he] at hle
          omega
  | false =>
    have hr1 : r ≤ cnt - 1 := by
      by_contra hc
      have := h7 (by omega)
      exact Bool.noConfusion this
    have hcf : cf = r := by rw [h5, if_pos hr1]
    subst hcf
    have e3 : cnt ≠ 0 := by omega
    by_cases htop : cf = cnt - 1
    · have e1 : (cf : Int) = (cnt : Int) - 1 := by omega
      have e2 : (cf + 65535) % 65536 = cf - 1 := by omega
      have e4 : (cf - 1) % cnt = cf - 1 := Nat.mod_eq_of_lt (by omega)
      refine ⟨_, by simp [anim_step, hdue, e1, e2, e3, e4]; rfl, ?_⟩
      refine ⟨rfl, rfl, rfl, rfl, ?_, ?_, fun _ => rfl⟩
      · dsimp only
        by_cases he : cf + 1 = 2 * (cnt - 1)
        · rw [if_pos he]
          simp only [Nat.zero_le, if_true]
          omega
        · rw [if_neg he, if_neg (by omega)]
          omega
      · intro hp hle
        by_cases he : cf + 1 = 2 * (cnt - 1)
        · rw [if_pos he] at hp
          exact absurd hp (Nat.lt_irrefl 0)
        · rw [if_neg he] at hle
          omega
    · have e1 : ¬ (cf : Int) = (cnt : Int) - 1 := by omega
      have e1' : (cf : Int) < (cnt : Int) - 1 := by omega
      have e2 : (cf + 1) % 65536 = cf + 1 := by omega
      have e4 : (cf + 1) % cnt = cf + 1 := Nat.mod_eq_of_lt (by omega)
      refine ⟨_, by simp [anim_step, hdue, e1, e1', e2, e3, e4]; rfl, ?_⟩
      have he : ¬ (cf + 1 = 2 * (cnt - 1)) := by omega
      rw [if_neg he]
      refine ⟨rfl, rfl, rfl, rfl, ?_, fun _ _ => rfl, ?_⟩
      · dsimp only
        rw [if_pos (by omega)]
      · intro hc; omega

theorem succ_mod_cases (m P : Nat) (hP : 0 < P) :
    (m + 1) % P = if m % P + 1 = P then 0 else m % P + 1 := by
  have hlt := Nat.mod_lt m hP
  rw [Nat.add_mod]
  by_cases h : m % P + 1 = P
  · rw [if_pos h]
    by_cases h1 : P = 1
    · subst h1; simp [Nat.mod_one]
    · have : 1 % P = 1 := Nat.mod_eq_of_lt (by omega)
      rw [this, h, Nat.mod_self]
  · rw [if_neg h]
    have h1 : 1 < P := by omega
    have : 1 % P = 1 := Nat.mod_eq_of_lt h1
    rw [this]
    exact Nat.mod_eq_of_lt (by omega)

theorem UpdateAnimTextures_single (a : AnimCollab) (q : anim_seq_s) :
    UpdateAnimTextures a [q] = (anim_step a q).map (fun x => [x]) := by
  unfold UpdateAnimTextures
  cases h : anim_step a q with
  | none => simp [List.mapM, List.mapM.loop, h]
  | some x => simp [List.mapM, List.mapM.loop, h]

/-- A `TR_ANIMTEXTURE_REVERSE` sequence of `n >= 2` frames that starts at frame 0 on its way
up is, after `m` frame advances, at phase `m % (2 * (n - 1))` of its swing. -/
theorem Swinging_updates (a : AnimCollab) (hdue : ∀ q, a.due q = true) (n : Nat)
    (hn : 2 ≤ n) (hn16 : n < 2 ^ 16) (q0 : anim_seq_s) (h0 : Swinging a n 0 q0) :
    ∀ m, ∃ q, updates a m [q0] = some [q] ∧ Swinging a n (m % (2 * (n - 1))) q := by
  intro m
  induction m with
  | zero => exact ⟨q0, rfl, by simpa using h0⟩
  | succ m ih =>
    obtain ⟨q, e, hs⟩ := ih
    have hP : 0 < 2 * (n - 1) := by omega
    obtain ⟨q', e', hs'⟩ :=
      Swinging_step a hdue n _ hn hn16 (Nat.mod_lt m hP) q hs
    refine ⟨q', ?_, ?_⟩
    · show (updates a m [q0]).bind (UpdateAnimTextures a) = some [q']
      rw [e, Option.some_bind, UpdateAnimTextures_single, e']
      rfl
    · rw [succ_mod_cases m _ hP]
      exact hs'

theorem pingpong_period (n m : Nat) : pingpong n (m + 2 * (n - 1)) = pingpong n m := by
  unfold pingpong
  rw [Nat.add_mod_right]

theorem pingpong_step (n m : Nat) (hn : 2 ≤ n) :
    pingpong n (m + 1) = pingpong n m + 1 ∨ pingpong n m = pingpong n (m + 1) + 1 := by
  have hP : 0 < 2 * (n - 1) := by omega
  have hlt := Nat.mod_lt m hP
  unfold pingpong
  rw [succ_mod_cases m _ hP]
  by_cases h : m % (2 * (n - 1)) + 1 = 2 * (n - 1)
  · rw [if_pos h]
    right
    rw [if_pos (Nat.zero_le _)]
    by_cases h2 : m % (2 * (n - 1)) ≤ n - 1
    · rw [if_pos h2]; omega
    · rw [if_neg h2]; omega
  · rw [if_neg h]
    by_cases h2 : m % (2 * (n - 1)) + 1 ≤ n - 1
    · left
      rw [if_pos h2, if_pos (by omega)]
    · right
      rw [if_neg h2]
      by_cases h3 : m % (2 * (n - 1)) ≤ n - 1
      · rw [if_pos h3]; omega
      · rw [if_neg h3]; omega

/-- C29. A `TR_ANIMTEXTURE_REVERSE` sequence with `frames_count = n >= 2` that is at frame
0 (with `reverse_direction` false, or true as after a swing; not locked, not a
uv-rotation) is, after `m` calls of
`UpdateAnimTextures` that each find its frame time elapsed, at frame `pingpong n m` of the
sequence 0, 1, ..., n-1, n-2, ..., 1, 0, 1, ...: the frame index has period `2 * (n - 1)`
and two consecutive frames differ by exactly 1. -/
theorem C29_ping_pong (a : AnimCollab) (n : Nat) (q0 : anim_seq_s) (m : Nat)
    (hdue : ∀ q, a.due q = true) (hn : 2 ≤ n) (hn16 : n < 2 ^ 16)
    (htype : q0.anim_type = a.TR_ANIMTEXTURE_REVERSE) (hlock : q0.frame_lock = false)
    (huv : q0.uvrotate = false) (hcount : q0.frames_count = n)
    (hframe : q0.current_frame = 0) :
    (∃ q, updates a m [q0] = some [q] ∧ q.current_frame = pingpong n m ∧
      q.frames_count = n) ∧
    pingpong n (m + 2 * (n - 1)) = pingpong n m ∧
    (pingpong n (m + 1) = pingpong n m + 1 ∨ pingpong n m = pingpong n (m + 1) + 1) := by
  have h0 : Swinging a n 0 q0 :=
    ⟨hlock, huv, htype, hcount, by simpa using hframe, fun h _ => absurd h (Nat.lt_irrefl 0),
      fun h => absurd h (Nat.not_lt_zero _)⟩
  obtain ⟨q, e, hs⟩ := Swinging_updates a hdue n hn hn16 q0 h0 m
  exact ⟨⟨q, e, hs.2.2.2.2.1, hs.2.2.2.1⟩, pingpong_period n m, pingpong_step n m hn⟩

/-- C29, witness: four frames; after 7 advances the sequence is at frame 1, on its way
up. -/
theorem C29_ping_pong_witness :
    (List.range 9).map (pingpong 4) = [0, 1, 2, 3, 2, 1, 0, 1, 2] ∧
    (∃ q, updates ticking 7 [swing 4] = some [q] ∧ q.current_frame = pingpong 4 7 ∧
      q.frames_count = 4) ∧
    pingpong 4 (7 + 2 * (4 - 1)) = pingpong 4 7 ∧
    (pingpong 4 (7 + 1) = pingpong 4 7 + 1 ∨ pingpong 4 7 = pingpong 4 (7 + 1) + 1) :=
  ⟨by decide, C29_ping_pong ticking 4 (swing 4) 7 (fun _ => rfl) (by decide) (by decide)
    rfl rfl rfl rfl rfl⟩

/-- With two frames or more the frame index stays in range, and the frame count is left
as it is; a locked sequence is not touched. -/
theorem anim_step_in_range (a : AnimCollab) (q q' : anim_seq_s) (hn : 2 ≤ q.frames_count)
    (hcf : q.current_frame < q.frames_count) (h : anim_step a q = some q') :
    q'.current_frame < q'.frames_count ∧ q'.frames_count = q.frames_count ∧
      (q.frame_lock = true → q' = q) := by
  obtain ⟨lock, uv, ty, rev, cf, cnt, ft⟩ := q
  simp only at hn hcf
  have hpos : 0 < cnt := by omega
  have hmod : ∀ x, x % cnt < cnt := fun x => Nat.mod_lt x hpos
  cases lock with
  | true =>
    simp only [anim_step, if_true, Option.some.injEq] at h
    subst h
    exact ⟨hcf, rfl, fun _ => rfl⟩
  | false =>
    refine ⟨?_, ?_, fun e => Bool.noConfusion e⟩
    · unfold anim_step at h
      simp only [Bool.false_eq_true, if_false] at h
      repeat' split at h
      all_goals first
        | exact Option.noConfusion h
        | (simp only [Option.some.injEq] at h
           subst h
           dsimp only at *
           first
             | omega
             | exact hmod _)
    · unfold anim_step at h
      simp only [Bool.false_eq_true, if_false] at h
      repeat' split at h
      all_goals first
        | exact Option.noConfusion h
        | (simp only [Option.some.injEq] at h
           subst h
           rfl)

/-- C28. `UpdateAnimTextures` does not keep the frame index of every sequence in range.  A
`TR_ANIMTEXTURE_REVERSE` sequence with `frames_count = 1` at frame 0 is in range; its first
frame advance leaves it at frame 0 with `reverse_direction` set, and the next one, through
the branch of lines 184-188, which has no `%= frames_count`, puts `current_frame = 1`, which
is not below `frames_count = 1`. -/
theorem C28_frame_index_range :
    (swing 1).current_frame < (swing 1).frames_count ∧
    (updates ticking 1 [swing 1]).map
        (List.map fun q => (q.current_frame, q.frames_count, q.reverse_direction)) =
      some [(0, 1, true)] ∧
    (updates ticking 2 [swing 1]).map
        (List.map fun q => (q.current_frame, q.frames_count, q.reverse_direction)) =
      some [(1, 1, false)] ∧
    (UpdateAnimTextures ticking [{ swing 1 with reverse_direction := true }]).map
        (List.map fun q => (q.current_frame, q.frames_count)) = some [(1, 1)] := by
  refine ⟨by decide, by decide, by decide, by decide⟩

/-! ## The opaque pass of a frame -/

/-- C30. In `hall` the Character, entity 7, is held by the containers of room 0, which is
in the Render List.  `DrawList` draws it through `DrawEntity` before the rooms (line 305),
which leaves `was_rendered` clear; `DrawRoom` of room 0 finds it not rendered and calls
`DrawEntity` again: `DrawSkeletalModel` is invoked twice for entity 7 in one pass. -/
theorem C30_skeletal_draws :
    hall.Character = some 7 ∧
    (GenWorldList (scene fun _ _ => true) camera0 4
        (installed (scene fun _ _ => true) hall)).map
      (fun s => (listedRooms s, s.entity_was_rendered 7,
        (DrawList_rooms (scene fun _ _ => true) viewer hall s).draws)) =
      some ([some 0], false,
        [draw_event.skeletal 7, draw_event.room_mesh 0, draw_event.static_mesh 0 0,
          draw_event.skeletal 7]) := by
  constructor <;> decide

theorem static_drawn_iff (d : DrawCollab) (w : world_s) (room : Nat) (s : CRender) (i : Nat) :
    static_drawn d w room s i = true ↔
      s.mesh_was_rendered room i = false ∧
      d.Frustum_IsOBBVisibleInFrustumList ((w.rooms room).static_mesh.getD i {}).obb
        (room_frustums s room) = true ∧
      (((w.rooms room).static_mesh.getD i {}).hide ≠ 1 ∨
        s.r_flags &&& d.R_DRAW_DUMMY_STATICS ≠ 0) := by
  unfold static_drawn
  simp only [Bool.and_eq_true, Bool.not_eq_true', Bool.or_eq_true, decide_eq_true_eq]
  constructor
  · rintro ⟨⟨h1, h2⟩, h3⟩; exact ⟨h1, h2, h3⟩
  · rintro ⟨h1, h2, h3⟩; exact ⟨⟨h1, h2⟩, h3⟩

theorem DrawRoom_static_yes (d : DrawCollab) (w : world_s) (room : Nat) (s : CRender) (i : Nat)
    (h : static_drawn d w room s i = true) :
    DrawRoom_static d w room s i =
      { s with
        draws := s.draws ++ [draw_event.static_mesh room i]
        mesh_was_rendered := fun x j =>
          if x = room ∧ j = i then true else s.mesh_was_rendered x j } := by
  obtain ⟨h1, h2, h3⟩ := (static_drawn_iff d w room s i).mp h
  unfold DrawRoom_static
  generalize (w.rooms room).static_mesh.getD i {} = sm at h2 h3 ⊢
  rcases h3 with h3 | h3 <;> simp [h1, h2, h3]

theorem DrawRoom_static_no (d : DrawCollab) (w : world_s) (room : Nat) (s : CRender) (i : Nat)
    (h : static_drawn d w room s i = false) : DrawRoom_static d w room s i = s := by
  unfold DrawRoom_static
  unfold static_drawn at h
  generalize (w.rooms room).static_mesh.getD i {} = sm at h ⊢
  by_cases h1 : s.mesh_was_rendered room i = true
  · simp [h1]
  · by_cases h2 : d.Frustum_IsOBBVisibleInFrustumList sm.obb (room_frustums s room) = true
    · have h1' : s.mesh_was_rendered room i = false := by simpa using h1
      simp only [h1', h2, Bool.not_false, Bool.true_and, Bool.or_eq_false_iff,
        decide_eq_false_iff_not, ne_eq, not_not] at h
      simp [h1', h2, h.1, h.2]
    · simp [h1, h2]

theorem static_drawn_congr (d : DrawCollab) (w : world_s) (room : Nat) {s t : CRender}
    (i : Nat) (h1 : t.mesh_was_rendered room i = s.mesh_was_rendered room i)
    (h2 : t.frustum = s.frustum) (h3 : t.r_flags = s.r_flags) :
    static_drawn d w room t i = static_drawn d w room s i := by
  unfold static_drawn room_frustums
  rw [h1, h2, h3]

/-- The loop over the static meshes: the meshes that pass the test in the state at the
start are drawn, in order, and flagged; nothing else is written. -/
theorem statics_fold (d : DrawCollab) (w : world_s) (room : Nat) (l : List Nat) :
    ∀ (s : CRender), l.Nodup →
      (l.foldl (DrawRoom_static d w room) s).draws =
        s.draws ++ l.filterMap (fun i =>
          if static_drawn d w room s i then some (draw_event.static_mesh room i) else none) ∧
      (∀ x j, (l.foldl (DrawRoom_static d w room) s).mesh_was_rendered x j =
        if x = room ∧ j ∈ l ∧ static_drawn d w room s j = true then true
        else s.mesh_was_rendered x j) ∧
      (l.foldl (DrawRoom_static d w room) s).frustum = s.frustum ∧
      (l.foldl (DrawRoom_static d w room) s).r_flags = s.r_flags ∧
      (l.foldl (DrawRoom_static d w room) s).entity_was_rendered = s.entity_was_rendered := by
  induction l with
  | nil => intro s _; simp
  | cons i l ih =>
    intro s hnd
    obtain ⟨hi, hl⟩ := List.nodup_cons.mp hnd
    rw [List.foldl_cons]
    by_cases hd : static_drawn d w room s i = true
    · obtain ⟨g1, g2, g3, g4, g5⟩ := ih (DrawRoom_static d w room s i) hl
      have hst := DrawRoom_static_yes d w room s i hd
      have hc : ∀ j, j ∈ l → static_drawn d w room (DrawRoom_static d w room s i) j =
          static_drawn d w room s j := by
        intro j hj
        have hji : j ≠ i := fun e => hi (e ▸ hj)
        apply static_drawn_congr
        · rw [hst]; simp [hji]
        · rw [hst]
        · rw [hst]
      have hmap : l.filterMap (fun j =>
            if static_drawn d w room (DrawRoom_static d w room s i) j then
              some (draw_event.static_mesh room j) else none) =
          l.filterMap (fun j =>
            if static_drawn d w room s j then some (draw_event.static_mesh room j)
            else none) := by
        apply List.filterMap_congr
        intro j hj
        rw [hc j hj]
      refine ⟨?_, ?_, ?_, ?_, ?_⟩
      · rw [g1, hmap, hst]
        simp [hd]
      · intro x j
        rw [g2 x j]
        by_cases hx : x = room
        · by_cases hji : j = i
          · subst hji; subst hx
            rw [hst]
            simp [hd]
          · by_cases hjl : j ∈ l
            · rw [hc j hjl, hst]
              simp [hx, hji, hjl]
            · rw [hst]
              simp [hx, hji, hjl]
        · rw [hst]
          simp [hx]
      · rw [g3, hst]
      · rw [g4, hst]
      · rw [g5, hst]
    · have hd' : static_drawn d w room s i = false := by simpa using hd
      rw [DrawRoom_static_no d w room s i hd']
      obtain ⟨g1, g2, g3, g4, g5⟩ := ih s hl
      refine ⟨?_, ?_, g3, g4, g5⟩
      · rw [g1]
        simp [hd']
      · intro x j
        rw [g2 x j]
        by_cases hji : j = i
        · subst hji
          simp [hd', hi]
        · simp [hji]

theorem DrawEntity_fields (d : DrawCollab) (w : world_s) (e : Nat) (s : CRender) :
    (DrawEntity d w e s).mesh_was_rendered = s.mesh_was_rendered ∧
    (DrawEntity d w e s).entity_was_rendered = s.entity_was_rendered ∧
    (DrawEntity d w e s).frustum = s.frustum ∧
    (DrawEntity d w e s).r_flags = s.r_flags ∧
    ((DrawEntity d w e s).draws = s.draws ∨
      (DrawEntity d w e s).draws = s.draws ++ [draw_event.skeletal e] ∧
        s.entity_was_rendered e = false) := by
  unfold DrawEntity
  split
  · exact ⟨rfl, rfl, rfl, rfl, Or.inl rfl⟩
  · rename_i hc
    split
    · refine ⟨rfl, rfl, rfl, rfl, Or.inr ⟨rfl, ?_⟩⟩
      cases hw : s.entity_was_rendered e with
      | false => rfl
      | true => rw [hw] at hc; simp at hc
    · exact ⟨rfl, rfl, rfl, rfl, Or.inl rfl⟩

theorem DrawRoom_container_fields (k : Collab) (d : DrawCollab) (w : world_s) (room : Nat)
    (s : CRender) (cont : engine_container_s) :
    (DrawRoom_container k d w room s cont).mesh_was_rendered = s.mesh_was_rendered ∧
    (DrawRoom_container k d w room s cont).frustum = s.frustum ∧
    (DrawRoom_container k d w room s cont).r_flags = s.r_flags ∧
    ((DrawRoom_container k d w room s cont).draws = s.draws ∨
      (DrawRoom_container k d w room s cont).draws =
        s.draws ++ [draw_event.skeletal cont.object]) := by
  obtain ⟨g1, _, g3, g4, g5⟩ := DrawEntity_fields d w cont.object s
  unfold DrawRoom_container
  split
  · split
    · split
      · refine ⟨g1, g3, g4, ?_⟩
        rcases g5 with g5 | g5
        · exact Or.inl g5
        · exact Or.inr g5.1
      · exact ⟨rfl, rfl, rfl, Or.inl rfl⟩
    · exact ⟨rfl, rfl, rfl, Or.inl rfl⟩
  · exact ⟨rfl, rfl, rfl, Or.inl rfl⟩

theorem DrawnOnce_append {e : Nat} {s t : CRender} (l : List draw_event)
    (hd : t.draws = s.draws ++ l) (hl : draw_event.skeletal e ∉ l)
    (hw : t.entity_was_rendered e = s.entity_was_rendered e ∨ t.entity_was_rendered e = true)
    (h : DrawnOnce e s) : DrawnOnce e t := by
  have hc : t.draws.count (draw_event.skeletal e) = s.draws.count (draw_event.skeletal e) := by
    rw [hd, List.count_append, List.count_eq_zero.mpr hl, Nat.add_zero]
  unfold DrawnOnce at h ⊢
  rw [hc]
  rcases h with h | h
  · exact Or.inl h
  · refine Or.inr ⟨h.1, ?_⟩
    rcases hw with hw | hw
    · rw [hw]; exact h.2
    · exact hw

theorem DrawnOnce_DrawEntity {e : Nat} {s : CRender} (d : DrawCollab) (w : world_s) (c : Nat)
    (hce : c ≠ e) (h : DrawnOnce e s) : DrawnOnce e (DrawEntity d w c s) := by
  obtain ⟨_, g2, _, _, g5⟩ := DrawEntity_fields d w c s
  rcases g5 with g5 | g5
  · exact DrawnOnce_append [] (by rw [g5]; simp) (List.not_mem_nil _)
      (Or.inl (by rw [g2])) h
  · refine DrawnOnce_append [draw_event.skeletal c] g5.1 ?_ (Or.inl (by rw [g2])) h
    intro hm
    exact hce (draw_event.skeletal.inj (List.mem_singleton.mp hm)).symm

theorem DrawnOnce_container {e : Nat} {s : CRender} (k : Collab) (d : DrawCollab)
    (w : world_s) (room : Nat) (cont : engine_container_s) (h : DrawnOnce e s) :
    DrawnOnce e (DrawRoom_container k d w room s cont) := by
  by_cases hty : cont.object_type = k.OBJECT_ENTITY
  · by_cases hwas : s.entity_was_rendered cont.object = false
    · obtain ⟨_, g2, _, _, g5⟩ := DrawEntity_fields d w cont.object s
      by_cases hce : cont.object = e
      · have h0 : s.draws.count (draw_event.skeletal e) = 0 := by
          rcases h with h | h
          · exact h
          · rw [hce, h.2] at hwas
            exact Bool.noConfusion hwas
        have hflag : (DrawRoom_container k d w room s cont).entity_was_rendered e = true := by
          unfold DrawRoom_container
          rw [if_pos hty, if_pos hwas]
          simp [hce]
        have hdr : (DrawRoom_container k d w room s cont).draws = s.draws ∨
            (DrawRoom_container k d w room s cont).draws =
              s.draws ++ [draw_event.skeletal e] := by
          have := (DrawRoom_container_fields k d w room s cont).2.2.2
          rw [hce] at this
          exact this
        unfold DrawnOnce
        rcases hdr with hdr | hdr
        · left; rw [hdr]; exact h0
        · right
          refine ⟨?_, hflag⟩
          rw [hdr, List.count_append, h0]
          simp
      · have hdr := (DrawRoom_container_fields k d w room s cont).2.2.2
        have hflag : (DrawRoom_container k d w room s cont).entity_was_rendered e =
            s.entity_was_rendered e := by
          have hne : ¬ e = cont.object := fun c => hce c.symm
          unfold DrawRoom_container
          rw [if_pos hty, if_pos hwas]
          split
          · simp only [hne, if_false]
            rw [g2]
          · simp only [hne, if_false]
        rcases hdr with hdr | hdr
        · exact DrawnOnce_append [] (by rw [hdr]; simp) (List.not_mem_nil _) (Or.inl hflag) h
        · refine DrawnOnce_append [draw_event.skeletal cont.object] hdr ?_ (Or.inl hflag) h
          intro hm
          exact hce (draw_event.skeletal.inj (List.mem_singleton.mp hm)).symm
    · have : DrawRoom_container k d w room s cont = s := by
        unfold DrawRoom_container
        rw [if_pos hty, if_neg hwas]
      rw [this]; exact h
  · have : DrawRoom_container k d w room s cont = s := by
      unfold DrawRoom_container
      rw [if_neg hty]
    rw [this]; exact h

theorem DrawnOnce_DrawRoom {e : Nat} {s : CRender} (k : Collab) (d : DrawCollab)
    (w : world_s) (room : Nat) (h : DrawnOnce e s) : DrawnOnce e (DrawRoom k d w room s) := by
  have h1 : DrawnOnce e (DrawRoom_mesh d w room s) := by
    unfold DrawRoom_mesh
    split
    · exact DrawnOnce_append [draw_event.room_mesh room] rfl
        (fun hm => draw_event.noConfusion (List.mem_singleton.mp hm)) (Or.inl rfl) h
    · exact h
  have h2 : DrawnOnce e (DrawRoom_statics d w room (DrawRoom_mesh d w room s)) := by
    obtain ⟨b1, _, _, _, b5⟩ := statics_fold d w room
      (List.range (w.rooms room).static_mesh_count) (DrawRoom_mesh d w room s)
      (List.nodup_range _)
    refine DrawnOnce_append _ b1 ?_ (Or.inl (by unfold DrawRoom_statics; rw [b5])) h1
    intro hm
    obtain ⟨j, _, hx⟩ := List.mem_filterMap.mp hm
    split at hx
    · exact draw_event.noConfusion (Option.some.inj hx)
    · exact Option.noConfusion hx
  have h3 : ∀ (l : List engine_container_s) (t : CRender), DrawnOnce e t →
      DrawnOnce e (l.foldl (DrawRoom_container k d w room) t) := by
    intro l
    induction l with
    | nil => intro t ht; exact ht
    | cons c l ih =>
      intro t ht
      rw [List.foldl_cons]
      exact ih _ (DrawnOnce_container k d w room c ht)
  exact h3 _ _ h2

/-- An entity that is not the Character of the world is drawn at most once in the opaque
pass of `DrawList`: `DrawRoom` sets its `was_rendered` flag after the first
`DrawEntity`. -/
theorem skeletal_once (k : Collab) (d : DrawCollab) (w : world_s) (s : CRender) (e : Nat)
    (hc : w.Character ≠ some e) (h0 : draw_event.skeletal e ∉ s.draws) :
    (DrawList_rooms k d w s).draws.count (draw_event.skeletal e) ≤ 1 := by
  have hs : DrawnOnce e s := Or.inl (List.count_eq_zero.mpr h0)
  have h1 : DrawnOnce e (match w.Character with
      | some c => DrawEntity d w c s
      | none => s) := by
    cases hw : w.Character with
    | none => exact hs
    | some c =>
      exact DrawnOnce_DrawEntity d w c (fun e1 => hc (by rw [hw, e1])) hs
  have h2 : ∀ (l : List (Option Nat)) (t : CRender), DrawnOnce e t →
      DrawnOnce e (l.foldl (fun a r =>
        match r with
        | some room => DrawRoom k d w room a
        | none => a) t) := by
    intro l
    induction l with
    | nil => intro t ht; exact ht
    | cons r l ih =>
      intro t ht
      rw [List.foldl_cons]
      apply ih
      cases r with
      | none => exact ht
      | some room => exact DrawnOnce_DrawRoom k d w room ht
  have h3 : DrawnOnce e (DrawList_rooms k d w s) := h2 _ _ h1
  rcases h3 with h3 | h3
  · rw [h3]; exact Nat.zero_le 1
  · rw [h3.1]

end Render
